import Mathlib

/-!
# smash: job control and dispatch of a small Unix shell

A shallow embedding of `Commands.cpp`, `JobList.cpp`, `SmallShell.cpp` and
`signals.cpp`.

Conventions of the embedding.

* `std::string` and the contents of a `const char*` (the characters before the
  terminator) are lists of characters, `Str`.
* `std::string::npos` is `none`.
* `int` and `pid_t` values are `Int`; no arithmetic on them can overflow in the
  embedded code (job ids stay below `MAX_BG_JOBS + 1`).
* A C++ exception that nothing catches, an out-of-bounds access, `exit` and the
  child side of `fork` end the run of the shell process with a `Fault`.
* The operating system is an oracle `OS`: the answer to the `n`-th system call.
-/

namespace Smash

/-- A `std::string`, or the characters of a C string before its terminator. -/
abbrev Str := List Char

/-- The single quote character. -/
def quote : Char := Char.ofNat 39

/-- Ways in which a run of the shell process ends without returning. -/
inductive Fault where
  /-- an access outside an object, such as `str[npos]` -/
  | undefined_behaviour
  /-- `std::out_of_range` escaped -/
  | out_of_range
  /-- `std::invalid_argument` escaped -/
  | invalid_argument
  /-- `std::runtime_error` escaped -/
  | runtime_error
  /-- `exit(code)` was called -/
  | exit (code : Int)
  /-- `fork` returned 0: this is the child image, which execs or exits -/
  | child
  /-- the nesting bound of the embedding was reached -/
  | out_of_fuel
  deriving DecidableEq, Repr

deriving instance DecidableEq for Except

/-! ## String helpers (`Commands.cpp`, lines 38 to 164) -/

/-- `const std::string WHITESPACE = " \n\r\t\f\v"`. -/
def WHITESPACE : Str :=
  [' ', Char.ofNat 10, Char.ofNat 13, Char.ofNat 9, Char.ofNat 12, Char.ofNat 11]

/-- `std::isspace` in the classic locale, the delimiter test of `iss >> word`. -/
def isspace (c : Char) : Bool :=
  c == ' ' || c == Char.ofNat 9 || c == Char.ofNat 10 || c == Char.ofNat 11 ||
    c == Char.ofNat 12 || c == Char.ofNat 13

/-- `s.find_first_not_of(set)`. -/
def find_first_not_of : Str → Str → Option Nat
  | [], _ => none
  | c :: cs, set =>
    if c ∈ set then (find_first_not_of cs set).map (· + 1) else some 0

/-- `s.find_last_not_of(set)`. -/
def find_last_not_of : Str → Str → Option Nat
  | [], _ => none
  | c :: cs, set =>
    match find_last_not_of cs set with
    | some i => some (i + 1)
    | none => if c ∈ set then none else some 0

/-- `s.find_last_not_of(set, pos)`: the search stops at index `pos`. -/
def find_last_not_of_from (s set : Str) (pos : Nat) : Option Nat :=
  find_last_not_of (s.take (pos + 1)) set

/-- `s.find(ch)`. -/
def find_char : Str → Char → Option Nat
  | [], _ => none
  | c :: cs, ch => if c = ch then some 0 else (find_char cs ch).map (· + 1)

/-- Whether `pat` occurs at the start of `s`. -/
def startsWith : Str → Str → Bool
  | _, [] => true
  | [], _ :: _ => false
  | c :: cs, p :: ps => c == p && startsWith cs ps

/-- `s.find(pat)` for a string pattern. -/
def find_str : Str → Str → Option Nat
  | [], pat => if pat = [] then some 0 else none
  | c :: cs, pat =>
    if startsWith (c :: cs) pat then some 0 else (find_str cs pat).map (· + 1)

/-- `_ltrim`. -/
def _ltrim (s : Str) : Str :=
  match find_first_not_of s WHITESPACE with
  | none => []
  | some start => s.drop start

/-- `_rtrim`. -/
def _rtrim (s : Str) : Str :=
  match find_last_not_of s WHITESPACE with
  | none => []
  | some e => s.take (e + 1)

/-- `_trim`. -/
def _trim (s : Str) : Str := _rtrim (_ltrim s)

/-- The loop `while (iss >> word) args.push_back(word)`: `w` is the word being
read. -/
def splitCommandLine.go : Str → Str → List Str
  | [], w => if w = [] then [] else [w]
  | c :: cs, w =>
    if isspace c then
      (if w = [] then splitCommandLine.go cs [] else w :: splitCommandLine.go cs [])
    else splitCommandLine.go cs (w ++ [c])

/-- `splitCommandLine`. -/
def splitCommandLine (cmd_line : Str) : List Str := splitCommandLine.go cmd_line []

/-- `#define COMMAND_MAX_LENGTH (200)`. -/
def COMMAND_MAX_LENGTH : Nat := 200

/-- `#define COMMAND_MAX_ARGS (20)`. -/
def COMMAND_MAX_ARGS : Nat := 20

/-- The words that the loop of `_parseCommandLine` reads from the stream on the
trimmed line (`iss >> s`), in order. -/
def _parseCommandLine.words (cmd_line : Str) : List Str :=
  splitCommandLine.go (_trim cmd_line) []

/-- The stores of the loop of `_parseCommandLine` into `args`, in the order
they are made, from the counter value `i`: for each word, `args[i] = copy of the
word` and then `args[++i] = NULL` (`none`). -/
def _parseCommandLine.stores.go : List Str → Nat → List (Nat × Option Str)
  | [], _ => []
  | s :: rest, i => (i, some s) :: (i + 1, none) :: _parseCommandLine.stores.go rest (i + 1)

/-- The stores `_parseCommandLine(cmd_line, args)` makes into `args`: index and
value, in order. -/
def _parseCommandLine.stores (cmd_line : Str) : List (Nat × Option Str) :=
  _parseCommandLine.stores.go (_parseCommandLine.words cmd_line) 0

/-- `_parseCommandLine(cmd_line, args)`, called with an array `args` of `slots`
elements. It returns the number of words read and leaves the words in `args`:
the list returned, whose length is the `int` returned. The function has no
bound on the index it stores at; a store outside the array of the caller is
undefined behaviour. -/
def _parseCommandLine (slots : Nat) (cmd_line : Str) : Except Fault (List Str) :=
  if (_parseCommandLine.stores cmd_line).all (fun w => decide (w.1 < slots)) then
    .ok (_parseCommandLine.words cmd_line)
  else .error Fault.undefined_behaviour

/-- `_isBackgroundComamnd`. On a non-empty line of whitespace only the index is
`npos` and `str[npos]` reads outside the string. -/
def _isBackgroundComamnd (cmd_line : Str) : Except Fault Bool :=
  if cmd_line = [] then .ok false
  else
    match find_last_not_of cmd_line WHITESPACE with
    | none => .error Fault.undefined_behaviour
    | some i => .ok (cmd_line[i]? == some '&')

/-- `_removeBackgroundSign`, on the buffer `cmd_line`; `str` is the copy taken on
entry, which the later search still reads. -/
def _removeBackgroundSign (cmd_line : Str) : Str :=
  let str := cmd_line
  match find_last_not_of str WHITESPACE with
  | none => cmd_line
  | some idx =>
    if cmd_line[idx]? != some '&' then cmd_line
    else
      let cmd_line := cmd_line.set idx ' '
      let cut :=
        match find_last_not_of_from str WHITESPACE idx with
        | none => 0
        | some k => k + 1
      cmd_line.take cut

/-- `_removeBackgroundSignString` (`SmallShell.cpp`). -/
def _removeBackgroundSignString (s : Str) : Str :=
  if s = [] then s
  else
    match find_last_not_of s WHITESPACE with
    | none => s
    | some idx =>
      if s[idx]? == some '&' then
        let s := s.take idx ++ s.drop (idx + 1)
        match find_last_not_of s WHITESPACE with
        | none => []
        | some k => s.take (k + 1)
      else s

/-- The loop of `findOutsideQuotes` from index `i` on, `inSingle` being the flag. -/
def findOutsideQuotes.go (ch : Char) : Str → Bool → Nat → Option Nat
  | [], _, _ => none
  | c :: cs, inSingle, i =>
    if c = quote then findOutsideQuotes.go ch cs (!inSingle) (i + 1)
    else if !inSingle && c == ch then some i
    else findOutsideQuotes.go ch cs inSingle (i + 1)

/-- `findOutsideQuotes`. -/
def findOutsideQuotes (s : Str) (ch : Char) : Option Nat :=
  findOutsideQuotes.go ch s false 0

/-! ## Commands (`Commands.h`, `Command::Command`, `SmallShell::CreateCommand`) -/

/-- The concrete classes deriving from `Command`. -/
inductive CommandKind where
  | PipeCommand | RedirectionCommand
  | ChpromtCommand | ShowPidCommand | GetCurrDirCommand | ChangeDirCommand
  | JobsCommand | ForegroundCommand | QuitCommand | KillCommand
  | AliasCommand | UnAliasCommand | UnSetEnvCommand | WatchProcCommand
  | DiskUsageCommand | WhoAmICommand | NetInfo
  | ExternalCommand
  deriving DecidableEq, Repr

/-- `dynamic_cast<BuiltInCommand*>(cmd) != nullptr`: the classes declared
`: public BuiltInCommand` in `Commands.h`. `DiskUsageCommand`, `WhoAmICommand`
and `NetInfo` derive from `Command` directly. -/
def CommandKind.isBuiltInCommand : CommandKind → Bool
  | .ChpromtCommand | .ShowPidCommand | .GetCurrDirCommand | .ChangeDirCommand
  | .JobsCommand | .ForegroundCommand | .QuitCommand | .KillCommand
  | .AliasCommand | .UnAliasCommand | .UnSetEnvCommand | .WatchProcCommand => true
  | _ => false

/-- The fields of the base class `Command`, with the dynamic class of the
object. -/
structure Command where
  kind : CommandKind
  m_args : List Str
  m_cmd_line : Str
  m_args_num : Int
  m_isBackground : Bool
  deriving DecidableEq, Repr

/-- `Command::Command(cmd_line)`, for an object of class `kind`. The value of
`_trim(m_cmd_line)` is discarded by the source; the words are parsed into the
local array `char* temp_arg[COMMAND_MAX_LENGTH]`. -/
def Command.new (kind : CommandKind) (cmd_line : Str) : Except Fault Command := do
  let m_isBackground ← _isBackgroundComamnd cmd_line
  let m_cmd_line := if m_isBackground then _removeBackgroundSign cmd_line else cmd_line
  let temp_arg ← _parseCommandLine COMMAND_MAX_LENGTH m_cmd_line
  pure { kind := kind, m_args := temp_arg, m_cmd_line := m_cmd_line,
         m_args_num := temp_arg.length, m_isBackground := m_isBackground }

/-- `Command::getArg`. -/
def Command.getArg (cmd : Command) (i : Int) : Except Fault Str :=
  if i < 0 ∨ i ≥ cmd.m_args_num then .error Fault.out_of_range
  else .ok (cmd.m_args.getD i.toNat [])

/-- The chain of comparisons of `firstWord` in `CreateCommand`. -/
def kindOfFirstWord (firstWord : Str) : CommandKind :=
  if firstWord = "chprompt".toList then .ChpromtCommand
  else if firstWord = "showpid".toList then .ShowPidCommand
  else if firstWord = "pwd".toList then .GetCurrDirCommand
  else if firstWord = "cd".toList then .ChangeDirCommand
  else if firstWord = "jobs".toList then .JobsCommand
  else if firstWord = "fg".toList then .ForegroundCommand
  else if firstWord = "quit".toList then .QuitCommand
  else if firstWord = "kill".toList then .KillCommand
  else if firstWord = "alias".toList then .AliasCommand
  else if firstWord = "unalias".toList then .UnAliasCommand
  else if firstWord = "unsetenv".toList then .UnSetEnvCommand
  else if firstWord = "watchproc".toList then .WatchProcCommand
  else if firstWord = "du".toList then .DiskUsageCommand
  else if firstWord = "whoami".toList then .WhoAmICommand
  else if firstWord = "netinfo".toList then .NetInfo
  else .ExternalCommand

/-- `SmallShell::CreateCommand`; `none` is `nullptr`. -/
def CreateCommand (cmd_line : Str) : Except Fault (Option Command) :=
  let trimmed := _trim cmd_line
  if trimmed = [] then .ok none
  else if findOutsideQuotes trimmed '|' ≠ none then
    (Command.new .PipeCommand cmd_line).map some
  else if findOutsideQuotes trimmed '>' ≠ none then
    (Command.new .RedirectionCommand cmd_line).map some
  else
    match splitCommandLine trimmed with
    | [] => .ok none
    | firstWord :: _ => (Command.new (kindOfFirstWord firstWord) cmd_line).map some

/-! ## The shell state and its environment -/

/-- `#define MAX_BG_JOBS (101)`. -/
def MAX_BG_JOBS : Nat := 101

/-- `SIGKILL`. -/
def SIGKILL : Int := 9

/-- `SIGCONT`. -/
def SIGCONT : Int := 18

/-- `JobsList::JobEntry`. -/
structure JobEntry where
  m_pid : Int
  m_procecced_commandLine : Str
  m_org_commandLine : Str
  m_jobId : Int
  m_isStopped : Bool
  m_insertionTime : Int
  deriving DecidableEq, Repr

/-- `JobEntry::JobEntry`; `now` is the value of `time(nullptr)`. -/
def JobEntry.new (pid jobId : Int) (procecced_commandLine : Str) (isStopped : Bool)
    (print_cmd_line : Str) (now : Int) : JobEntry :=
  { m_pid := pid
    m_procecced_commandLine := procecced_commandLine
    m_org_commandLine :=
      if print_cmd_line = [] then procecced_commandLine else print_cmd_line
    m_jobId := jobId
    m_isStopped := isStopped
    m_insertionTime := now }

/-- A `JobEntry*`: the address `new` returned and the object stored there (a
`JobEntry` has no setter, so the object never changes). Pointers are compared
by address. -/
structure JobPtr where
  addr : Nat
  obj : JobEntry
  deriving DecidableEq, Repr

/-- The third argument of `waitpid`. -/
inductive WaitOptions where
  | zero | WNOHANG | WUNTRACED
  deriving DecidableEq, Repr

/-- What an open file descriptor refers to. -/
inductive FdTarget where
  | terminal
  | file (path : Str) (append : Bool)
  | pipeRead
  | pipeWrite
  deriving DecidableEq, Repr

/-- The observable actions of the shell process, in the order they happen. -/
inductive Event where
  | fork (ret : Int)
  | waitpid (pid : Int) (options : WaitOptions) (ret : Int) (stopped : Bool)
  | kill (pid sig ret : Int)
  | stdout (text : Str)
  | stderr (text : Str)
  | open (path : Str) (append : Bool) (ret : Int)
  | dup (oldfd ret : Int)
  | dup2 (oldfd newfd ret : Int)
  | close (fd : Int)
  | pipe (ret : Int)
  /-- the body of a command that touches only the prompt, the working directory,
  the process environment or read-only system files -/
  | untracked (kind : CommandKind) (args : List Str)
  deriving DecidableEq, Repr

/-- The answer of the operating system to one system call: its return value,
for `waitpid` whether `WIFSTOPPED(status)` holds, and whether the terminal
interrupt was delivered (and `ctrlCHandler` run) before a blocking call
returned. -/
structure Answer where
  ret : Int
  stopped : Bool
  sigint : Bool
  deriving DecidableEq, Repr

/-- The operating system: the answer to the system call made at tick `n`. -/
abbrev OS := Nat → Answer

/-- The members of `SmallShell` (with those of its `JobsList m_joblist`) that
job control and dispatch use, followed by the environment of the process: the
next address of `new`, the descriptor table, the number of system calls made
and the log of events. The prompt and the two directory strings are not
represented. -/
structure SmallShell where
  /-- `std::map<int, JobEntry*>`, in ascending key order -/
  m_jobsMap : List (Int × JobPtr)
  m_runningJobsQueue : List JobPtr
  m_stoppedJobsQueue : List JobPtr
  /-- `bool m_jobIDArray[MAX_BG_JOBS]` -/
  m_jobIDArray : Fin MAX_BG_JOBS → Bool
  /-- `map<string, string>`, as an association list without repeated keys -/
  m_aliasesMap : List (Str × Str)
  m_reservedWordsSet : List Str
  m_aliasOrder : List Str
  m_cJPid : Int
  m_cJobId : Int
  m_cJCommandLine : Str
  m_cJPrintCommandLine : Str
  m_cJisStopped : Bool
  m_cJinsertionTime : Int
  m_nextBGPrintCmdLine : Str
  heap : Nat
  fds : List (Int × FdTarget)
  tick : Nat
  log : List Event

/-- `SmallShell::SmallShell()`, in a process whose three standard descriptors
are the terminal. -/
def SmallShell.init : SmallShell :=
  { m_jobsMap := []
    m_runningJobsQueue := []
    m_stoppedJobsQueue := []
    m_jobIDArray := fun _ => false
    m_aliasesMap := []
    m_reservedWordsSet :=
      ["chprompt".toList, "showpid".toList, "pwd".toList, "cd".toList, "jobs".toList,
       "fg".toList, "quit".toList, "kill".toList, "alias".toList, "unalias".toList,
       "whoami".toList, "netinfo".toList]
    m_aliasOrder := []
    m_cJPid := -1
    m_cJobId := -1
    m_cJCommandLine := []
    m_cJPrintCommandLine := []
    m_cJisStopped := false
    m_cJinsertionTime := 0
    m_nextBGPrintCmdLine := []
    heap := 0
    fds := [(0, .terminal), (1, .terminal), (2, .terminal)]
    tick := 0
    log := [] }

/-- The outcome of running code of the shell: the state on return, or the fault
that ended the process with the state at that moment. -/
abbrev Run (α : Type) := Except (Fault × SmallShell) α

/-- The state in which a run ended, returned or not. -/
def Run.state : Run SmallShell → SmallShell
  | .ok s => s
  | .error (_, s) => s

/-- The fault that ended a run, if it did not return. -/
def Run.fault {α : Type} : Run α → Option Fault
  | .ok _ => none
  | .error (f, _) => some f

namespace SmallShell

/-- A fault raised in state `s`. -/
def raise {α : Type} (s : SmallShell) (f : Fault) : Run α := .error (f, s)

/-- A computation that does not touch the shell state, run in state `s`. -/
def lift {α : Type} (s : SmallShell) : Except Fault α → Run α
  | .ok a => .ok a
  | .error f => .error (f, s)

/-- Append an event to the log. -/
def emit (s : SmallShell) (e : Event) : SmallShell := { s with log := s.log ++ [e] }

/-- One system call: the answer at the current tick, and the tick advanced. -/
def sys (os : OS) (s : SmallShell) : Answer × SmallShell :=
  (os s.tick, { s with tick := s.tick + 1 })

/-- `cout << text << endl`. -/
def cout (s : SmallShell) (text : Str) : SmallShell := s.emit (.stdout text)

/-- `cerr << text << endl`, or `perror(text)` without the text of `errno`. -/
def cerr (s : SmallShell) (text : Str) : SmallShell := s.emit (.stderr text)

/-! ### Job ids (`SmallShell.cpp`, lines 259 to 292) -/

/-- The element `m_jobIDArray[i]`. -/
def jobIDArrayAt (s : SmallShell) (i : Nat) : Bool :=
  if h : i < MAX_BG_JOBS then s.m_jobIDArray ⟨i, h⟩ else false

/-- `m_jobIDArray[i] = b`. -/
def jobIDArraySet (s : SmallShell) (i : Nat) (b : Bool) : SmallShell :=
  { s with m_jobIDArray := fun j => if j.val = i then b else s.m_jobIDArray j }

/-- The loop of `getNextFreeJobId`: `max_id` after the iterations `i = 1, ...,
MAX_BG_JOBS - 1`. -/
def getNextFreeJobId.loop (s : SmallShell) : Nat :=
  (List.range' 1 (MAX_BG_JOBS - 1)).foldl
    (fun max_id i => if s.jobIDArrayAt i && decide (i > max_id) then i else max_id) 0

/-- `SmallShell::getNextFreeJobId`. -/
def getNextFreeJobId (s : SmallShell) : Int := (getNextFreeJobId.loop s : Nat) + 1

/-- `SmallShell::setJobIdFree`. -/
def setJobIdFree (s : SmallShell) (jobId : Int) : Run SmallShell :=
  if jobId = -1 then .ok s
  else if jobId ≤ 0 ∨ jobId ≥ (MAX_BG_JOBS : Int) then s.raise Fault.out_of_range
  else .ok (s.jobIDArraySet jobId.toNat false)

/-- `SmallShell::setJobIdUsed`. -/
def setJobIdUsed (s : SmallShell) (jobId : Int) : Run SmallShell :=
  if jobId = -1 then .ok s
  else if jobId ≤ 0 ∨ jobId ≥ (MAX_BG_JOBS : Int) then s.raise Fault.out_of_range
  else .ok (s.jobIDArraySet jobId.toNat true)

/-- `SmallShell::isJobIdUsed`. -/
def isJobIdUsed (s : SmallShell) (jobId : Int) : Run Bool :=
  if jobId = -1 then .ok false
  else if jobId ≤ 0 ∨ jobId ≥ (MAX_BG_JOBS : Int) then s.raise Fault.out_of_range
  else .ok (s.jobIDArrayAt jobId.toNat)

/-! ### The job list (`JobList.cpp`) -/

/-- `m_jobsMap.insert({key, value})`: no effect when the key is present. -/
def mapInsert (key : Int) (value : JobPtr) : List (Int × JobPtr) → List (Int × JobPtr)
  | [] => [(key, value)]
  | (k, v) :: rest =>
    if key < k then (key, value) :: (k, v) :: rest
    else if key = k then (k, v) :: rest
    else (k, v) :: mapInsert key value rest

/-- `m_jobsMap.find(jobId)`; `none` is `end()`. -/
def mapFind (m : List (Int × JobPtr)) (jobId : Int) : Option JobPtr :=
  (m.find? (fun kv => kv.1 == jobId)).map (·.2)

/-- `m_jobsMap.erase(jobId)`. -/
def mapErase (m : List (Int × JobPtr)) (jobId : Int) : List (Int × JobPtr) :=
  m.filter (fun kv => kv.1 != jobId)

/-- The idiom `q.erase(std::remove(q.begin(), q.end(), jobPtr), q.end())`. -/
def queueRemove (q : List JobPtr) (jobPtr : JobPtr) : List JobPtr :=
  q.filter (fun p => p.addr != jobPtr.addr)

/-- `JobsList::isContainsJob`. -/
def isContainsBGJob (s : SmallShell) (jobId : Int) : Bool :=
  (mapFind s.m_jobsMap jobId).isSome

/-- `JobsList::getJobById`; `none` is `nullptr`. -/
def getJobById (s : SmallShell) (jobId : Int) : Option JobPtr := mapFind s.m_jobsMap jobId

/-- `JobsList::isEmpty`, negated: `SmallShell::isBGNotEmpty`. -/
def isBGNotEmpty (s : SmallShell) : Bool := !s.m_jobsMap.isEmpty

/-- `JobsList::getSize`. -/
def getBGNumOfJobs (s : SmallShell) : Int := s.m_jobsMap.length

/-- `JobsList::addJob`. The constructor of the entry calls `time`. -/
def addJob (os : OS) (s : SmallShell) (pid : Int) (proccesed_cmd_line : Str)
    (isStopped : Bool) (jobId : Int) (print_cmd_line : Str) : Run SmallShell := do
  let jobId := if jobId = -1 then s.getNextFreeJobId else jobId
  let (now, s) := s.sys os
  let jobToAdd : JobPtr :=
    { addr := s.heap
      obj := JobEntry.new pid jobId proccesed_cmd_line isStopped print_cmd_line now.ret }
  let s := { s with heap := s.heap + 1 }
  let s ← s.setJobIdUsed jobId
  let s := { s with m_jobsMap := mapInsert jobToAdd.obj.m_jobId jobToAdd s.m_jobsMap }
  if isStopped then
    pure { s with m_stoppedJobsQueue := s.m_stoppedJobsQueue ++ [jobToAdd] }
  else
    pure { s with m_runningJobsQueue := s.m_runningJobsQueue ++ [jobToAdd] }

/-- `SmallShell::addBGJob`. -/
def addBGJob (os : OS) (s : SmallShell) (pid : Int) (proccesed_cmd_line : Str)
    (isStopped : Bool) (jobId : Int) (print_cmd_line : Str) : Run SmallShell :=
  s.addJob os pid proccesed_cmd_line isStopped jobId
    (if print_cmd_line = [] then proccesed_cmd_line else print_cmd_line)

/-- The first loop of `removeFinishedJobs`: one `waitpid(pid, &status, WNOHANG)`
for each entry of the map, collecting the finished ones. -/
def removeFinishedJobs.scan (os : OS) : List (Int × JobPtr) → SmallShell →
    List JobPtr × SmallShell
  | [], s => ([], s)
  | (_, jobPtr) :: rest, s =>
    let (a, s) := s.sys os
    let s := s.emit (.waitpid jobPtr.obj.m_pid .WNOHANG a.ret a.stopped)
    if a.ret = -1 then
      removeFinishedJobs.scan os rest (s.cerr "smash error: waitpid failed".toList)
    else if a.ret = 0 then removeFinishedJobs.scan os rest s
    else
      let (finishedJobs, s) := removeFinishedJobs.scan os rest s
      (jobPtr :: finishedJobs, s)

/-- The second loop of `removeFinishedJobs`. -/
def removeFinishedJobs.remove : List JobPtr → SmallShell → Run SmallShell
  | [], s => .ok s
  | jobPtr :: rest, s => do
    let s ← s.setJobIdFree jobPtr.obj.m_jobId
    let s := { s with
      m_jobsMap := mapErase s.m_jobsMap jobPtr.obj.m_jobId
      m_runningJobsQueue := queueRemove s.m_runningJobsQueue jobPtr
      m_stoppedJobsQueue := queueRemove s.m_stoppedJobsQueue jobPtr }
    removeFinishedJobs.remove rest s

/-- `JobsList::removeFinishedJobs`. -/
def removeFinishedJobs (os : OS) (s : SmallShell) : Run SmallShell :=
  let (finishedJobs, s) := removeFinishedJobs.scan os s.m_jobsMap s
  removeFinishedJobs.remove finishedJobs s

/-- The loop of `killAllJobs` over the map. -/
def killAllJobs.loop (os : OS) : List (Int × JobPtr) → SmallShell → Run SmallShell
  | [], s => .ok s
  | (_, jobPtr) :: rest, s => do
    let s ← s.setJobIdFree jobPtr.obj.m_jobId
    let (a, s) := s.sys os
    let s := s.emit (.kill jobPtr.obj.m_pid SIGKILL a.ret)
    killAllJobs.loop os rest s

/-- `JobsList::killAllJobs`. -/
def killAllJobs (os : OS) (s : SmallShell) : Run SmallShell := do
  let s := { s with m_runningJobsQueue := [], m_stoppedJobsQueue := [] }
  let s ← killAllJobs.loop os s.m_jobsMap s
  pure { s with m_jobsMap := [] }

/-- `JobsList::removeJobByIdWithoutKillingIt`. -/
def removeBGjobByJID (s : SmallShell) (jobId : Int) : SmallShell :=
  match mapFind s.m_jobsMap jobId with
  | none => s
  | some jobPtr =>
    { s with
      m_jobsMap := mapErase s.m_jobsMap jobId
      m_runningJobsQueue := queueRemove s.m_runningJobsQueue jobPtr
      m_stoppedJobsQueue := queueRemove s.m_stoppedJobsQueue jobPtr }

/-- `JobsList::getLastJob`, the entry `m_jobsMap.rbegin()->second`. -/
def getLastJob (s : SmallShell) : Option JobPtr := (s.m_jobsMap.getLast?).map (·.2)

/-! ### The foreground slot (`SmallShell.cpp`, lines 298 to 323) -/

/-- `SmallShell::isFGrunning`. -/
def isFGrunning (s : SmallShell) : Bool := s.m_cJobId != -1

/-- `SmallShell::updateSmashAfterCjFinished`. -/
def updateSmashAfterCjFinished (s : SmallShell) : Run SmallShell := do
  let s ← s.setJobIdFree s.m_cJobId
  pure { s with
    m_cJobId := -1
    m_cJPid := -1
    m_cJCommandLine := []
    m_cJisStopped := false
    m_cJinsertionTime := 0
    m_cJPrintCommandLine := [] }

/-- `SmallShell::setBGJobToFGbyJID`. -/
def setBGJobToFGbyJID (s : SmallShell) (job : Int) : Run SmallShell :=
  match s.getJobById job with
  | some p =>
    .ok { s with
      m_cJobId := job
      m_cJPid := p.obj.m_pid
      m_cJCommandLine := p.obj.m_procecced_commandLine
      m_cJisStopped := p.obj.m_isStopped
      m_cJinsertionTime := p.obj.m_insertionTime
      m_cJPrintCommandLine := p.obj.m_org_commandLine }
  | none => s.raise Fault.invalid_argument

/-- `ctrlCHandler` (`signals.cpp`). -/
def ctrlCHandler (os : OS) (s : SmallShell) : Run SmallShell := do
  let s := s.cout "smash: got ctrl-C".toList
  if !s.isFGrunning then pure s
  else
    let fg_pid := s.m_cJPid
    let (a, s) := s.sys os
    let s := s.emit (.kill fg_pid SIGKILL a.ret)
    if a.ret = -1 then pure (s.cerr "smash error: kill failed".toList)
    else
      let s := s.cout ("smash: process ".toList ++ (toString fg_pid).toList ++
        " was killed".toList)
      s.updateSmashAfterCjFinished

/-- A blocking `waitpid(pid, &status, options)`: the terminal interrupt may be
delivered, and `ctrlCHandler` run, before the call returns. -/
def waitpidBlocking (os : OS) (s : SmallShell) (pid : Int) (options : WaitOptions) :
    Run (Answer × SmallShell) := do
  let (a, s) := s.sys os
  let s ← if a.sigint then s.ctrlCHandler os else pure s
  pure (a, s.emit (.waitpid pid options a.ret a.stopped))

/-! ### Descriptors -/

/-- The lowest descriptor that is not open. -/
def lowestFreeFd (fds : List (Int × FdTarget)) : Int :=
  let n : Nat :=
    ((List.range (fds.length + 1)).find? (fun n => (fds.lookup (Int.ofNat n)).isNone)).getD
      fds.length
  Int.ofNat n

/-- Make `fd` refer to `target`. -/
def fdSet (s : SmallShell) (fd : Int) (target : FdTarget) : SmallShell :=
  { s with fds := (fd, target) :: s.fds.filter (fun e => e.1 != fd) }

/-- `close(fd)`. -/
def close (s : SmallShell) (fd : Int) : SmallShell :=
  { (s.emit (.close fd)) with fds := s.fds.filter (fun e => e.1 != fd) }

/-- `open(path, O_WRONLY | O_CREAT | (append ? O_APPEND : O_TRUNC), 0666)`. -/
def openForWrite (os : OS) (s : SmallShell) (path : Str) (append : Bool) : Int × SmallShell :=
  let (a, s) := s.sys os
  if a.ret = -1 then (-1, s.emit (.open path append (-1)))
  else
    let fd := lowestFreeFd s.fds
    (fd, (s.emit (.open path append fd)).fdSet fd (.file path append))

/-- `dup(oldfd)`. -/
def dup (os : OS) (s : SmallShell) (oldfd : Int) : Int × SmallShell :=
  let (a, s) := s.sys os
  match s.fds.lookup oldfd with
  | none => (-1, s.emit (.dup oldfd (-1)))
  | some target =>
    if a.ret = -1 then (-1, s.emit (.dup oldfd (-1)))
    else
      let fd := lowestFreeFd s.fds
      (fd, (s.emit (.dup oldfd fd)).fdSet fd target)

/-- `dup2(oldfd, newfd)`. -/
def dup2 (os : OS) (s : SmallShell) (oldfd newfd : Int) : Int × SmallShell :=
  let (a, s) := s.sys os
  match s.fds.lookup oldfd with
  | none => (-1, s.emit (.dup2 oldfd newfd (-1)))
  | some target =>
    if a.ret = -1 then (-1, s.emit (.dup2 oldfd newfd (-1)))
    else (newfd, (s.emit (.dup2 oldfd newfd newfd)).fdSet newfd target)

/-! ### Aliases (`SmallShell.cpp`, lines 186 to 253) -/

/-- `SmallShell::isReservedWord`. -/
def isReservedWord (s : SmallShell) (word : Str) : Bool := s.m_reservedWordsSet.contains word

/-- `SmallShell::isAlias`. -/
def isAlias (s : SmallShell) (alias_name : Str) : Bool :=
  (s.m_aliasesMap.lookup alias_name).isSome

/-- `SmallShell::getAliasMeaning`. -/
def getAliasMeaning (s : SmallShell) (alias_name : Str) : Except Fault Str :=
  match s.m_aliasesMap.lookup alias_name with
  | none => .error Fault.invalid_argument
  | some body => .ok body

/-- `SmallShell::addAlias`. -/
def addAlias (s : SmallShell) (alias_name commandStr : Str) : Run SmallShell :=
  if s.isAlias alias_name then s.raise Fault.invalid_argument
  else .ok { s with
    m_aliasesMap := s.m_aliasesMap ++ [(alias_name, commandStr)]
    m_aliasOrder := s.m_aliasOrder ++ [alias_name] }

/-- `SmallShell::removeAlias`. -/
def removeAlias (s : SmallShell) (alias_name : Str) : Run SmallShell :=
  if !s.isAlias alias_name then s.raise Fault.invalid_argument
  else .ok { s with
    m_aliasesMap := s.m_aliasesMap.filter (fun kv => kv.1 != alias_name)
    m_aliasOrder := s.m_aliasOrder.filter (fun k => k != alias_name) }

/-- `SmallShell::printAllAliases`. -/
def printAllAliases (s : SmallShell) : SmallShell :=
  s.m_aliasOrder.foldl
    (fun s key =>
      match s.m_aliasesMap.lookup key with
      | some body => s.cout (key ++ ['=', quote] ++ body ++ [quote])
      | none => s)
    s

/-- `SmallShell::reproduceWithAlias`; the words of the line are parsed into the
local array `char* args[COMMAND_MAX_ARGS]`. -/
def reproduceWithAlias (s : SmallShell) (cmd_line : Str) : Except Fault Str :=
  match _parseCommandLine COMMAND_MAX_ARGS cmd_line with
  | .error f => .error f
  | .ok [] => .ok cmd_line
  | .ok (arg0 :: rest) =>
    if s.isAlias arg0 then do
      let result ← s.getAliasMeaning arg0
      pure (rest.foldl (fun result arg => result ++ (' ' :: arg)) result)
    else .ok cmd_line

/-- `SmallShell::takeNextBGPrint`. -/
def takeNextBGPrint (s : SmallShell) : Str × SmallShell :=
  (s.m_nextBGPrintCmdLine, { s with m_nextBGPrintCmdLine := [] })

end SmallShell

/-! ## The `execute` methods (`Commands.cpp`) -/

/-- `std::stoi(s)`: optional whitespace, optional sign, at least one digit;
`none` when it throws (`invalid_argument` or `out_of_range` of `int`). -/
def stoi (s : Str) : Option Int :=
  let s := s.dropWhile isspace
  let (neg, s) :=
    match s with
    | '-' :: r => (true, r)
    | '+' :: r => (false, r)
    | _ => (false, s)
  let digits := s.takeWhile Char.isDigit
  if digits = [] then none
  else
    let n : Nat := digits.foldl (fun acc d => acc * 10 + (d.toNat - 48)) 0
    let v : Int := if neg then -(n : Int) else n
    if v < -2147483648 ∨ v > 2147483647 then none else some v

/-- `isNumber(s, &num)`: `some num` when it returns true. -/
def isNumber (s : Str) : Option Int := if s = [] then none else stoi s

/-- The decimal text of an `int` written to a stream. -/
def showInt (n : Int) : Str := (toString n).toList

/-- The part of `ExternalCommand::execute` after the blocking `waitpid`
(lines 283 to 291). -/
def ExternalCommand.afterWait (os : OS) (s : SmallShell) (cpid : Int) (cmdTxt : Str)
    (status : Answer) : Run SmallShell :=
  if status.stopped then
    let s := { s with m_cJisStopped := true }
    let (now, s) := s.sys os
    let s := { s with m_cJinsertionTime := now.ret }
    s.addBGJob os cpid cmdTxt true s.m_cJobId s.m_cJPrintCommandLine
  else s.updateSmashAfterCjFinished

/-- `ExternalCommand::execute`, in the shell process. -/
def ExternalCommand.execute (os : OS) (s : SmallShell) (cmd : Command) : Run SmallShell := do
  let cmdTxt := cmd.m_cmd_line
  let bg := cmd.m_isBackground
  let (a, s) := s.sys os
  let s := s.emit (.fork a.ret)
  let cpid := a.ret
  if cpid = -1 then pure (s.cerr "smash error: fork failed".toList)
  else if cpid = 0 then s.raise Fault.child
  else if bg then
    let (printTxt, s) := s.takeNextBGPrint
    let printTxt := if printTxt = [] then _trim cmdTxt ++ " &".toList else printTxt
    let jobId := s.getNextFreeJobId
    let s ← s.addBGJob os cpid cmdTxt false jobId printTxt
    s.setJobIdUsed jobId
  else
    let s := { s with m_cJPid := cpid }
    let s := { s with m_cJobId := s.getNextFreeJobId }
    let s := { s with m_cJCommandLine := cmdTxt }
    let (status, s) ← s.waitpidBlocking os cpid .WUNTRACED
    ExternalCommand.afterWait os s cpid cmdTxt status

/-- The parsing of `RedirectionCommand::execute` (lines 303 to 320): the index
of the operator, whether it is `>>`, the command part and the file part. -/
def RedirectionCommand.parse (line : Str) : Option (Nat × Bool × Str × Str) :=
  let found : Option (Nat × Bool) :=
    match find_str line ">>".toList with
    | some arrow => some (arrow, true)
    | none =>
      match find_char line '>' with
      | some arrow => some (arrow, false)
      | none => none
  match found with
  | none => none
  | some (arrow, append) =>
    some (arrow, append, _trim (line.take arrow),
      _trim (line.drop (arrow + (if append then 2 else 1))))

/-- `RedirectionCommand::execute`; `executeCommand` is the nested call
`SmallShell::getInstance().executeCommand`. -/
def RedirectionCommand.execute (os : OS) (executeCommand : SmallShell → Str → Run SmallShell)
    (s : SmallShell) (cmd : Command) : Run SmallShell :=
  match RedirectionCommand.parse cmd.m_cmd_line with
  | none => .ok (s.cerr "smash error: redirection: invalid command".toList)
  | some (_, append, leftPart, filePart) =>
    if filePart = [] then .ok (s.cerr "smash error: redirection: missing output file".toList)
    else
      let (fd, s) := s.openForWrite os filePart append
      if fd = -1 then .ok (s.cerr "smash error: open failed".toList)
      else
        let (saved_stdout, s) := s.dup os 1
        if saved_stdout = -1 then .ok ((s.cerr "smash error: dup failed".toList).close fd)
        else
          let (r, s) := s.dup2 os fd 1
          if r = -1 then
            .ok (((s.cerr "smash error: dup2 failed".toList).close saved_stdout).close fd)
          else do
            let s := s.close fd
            let s ← executeCommand s leftPart
            let (r, s) := s.dup2 os saved_stdout 1
            let s := if r = -1 then s.cerr "smash error: dup2 failed".toList else s
            pure (s.close saved_stdout)

/-- The parsing of `PipeCommand::execute` (lines 425 to 447): the index of the
operator, whether it is `|&`, and the two commands handed to the children. -/
def PipeCommand.parse (text : Str) : Except Fault (Option (Nat × Bool × Str × Str)) :=
  let found : Option (Nat × Bool) :=
    match find_str text "|&".toList with
    | some bar => some (bar, true)
    | none =>
      match find_char text '|' with
      | some bar => some (bar, false)
      | none => none
  match found with
  | none => .ok none
  | some (bar, use_stderr) => do
    let left := _trim (text.take bar)
    let right := _trim (text.drop (bar + (if use_stderr then 2 else 1)))
    let left := if (← _isBackgroundComamnd left) then _removeBackgroundSign left else left
    let right := if (← _isBackgroundComamnd right) then _removeBackgroundSign right else right
    pure (some (bar, use_stderr, left, right))

/-- `launchProcessWithPipe`, in the shell process: the child runs
`executeCommand(cmd)` on its own copy of the shell and exits. -/
def launchProcessWithPipe (os : OS) (s : SmallShell) : Run (Int × SmallShell) :=
  let (a, s) := s.sys os
  let s := s.emit (.fork a.ret)
  if a.ret = -1 then .ok (-1, s.cerr "smash error: fork failed".toList)
  else if a.ret = 0 then s.raise Fault.child
  else .ok (a.ret, s)

/-- `pipe(fds)`: the two descriptors, `none` when the call fails. -/
def SmallShell.pipe (os : OS) (s : SmallShell) : Option (Int × Int) × SmallShell :=
  let (a, s) := s.sys os
  if a.ret = -1 then (none, s.emit (.pipe (-1)))
  else
    let fds0 := SmallShell.lowestFreeFd s.fds
    let s := s.fdSet fds0 .pipeRead
    let fds1 := SmallShell.lowestFreeFd s.fds
    (some (fds0, fds1), (s.fdSet fds1 .pipeWrite).emit (.pipe 0))

/-- Lines 483 and 484 of `PipeCommand::execute`: the two blocking waits. -/
def PipeCommand.waitBoth (os : OS) (s : SmallShell) (left_pid right_pid : Int) :
    Run SmallShell := do
  let (_, s) ← s.waitpidBlocking os left_pid .zero
  let (_, s) ← s.waitpidBlocking os right_pid .zero
  pure s

/-- Lines 456 to 484 of `PipeCommand::execute`: the two children are forked, the
shell closes both ends of the pipe and waits. -/
def PipeCommand.launchBoth (os : OS) (s : SmallShell) (fds0 fds1 : Int) : Run SmallShell := do
  let (left_pid, s) ← launchProcessWithPipe os s
  if left_pid = -1 then pure ((s.close fds0).close fds1)
  else
    let (right_pid, s) ← launchProcessWithPipe os s
    if right_pid = -1 then pure ((s.close fds0).close fds1)
    else PipeCommand.waitBoth os ((s.close fds0).close fds1) left_pid right_pid

/-- `PipeCommand::execute`, in the shell process. -/
def PipeCommand.execute (os : OS) (s : SmallShell) (cmd : Command) : Run SmallShell := do
  match ← s.lift (PipeCommand.parse cmd.m_cmd_line) with
  | none => pure (s.cerr "smash error: pipe: invalid syntax".toList)
  | some _ =>
    match s.pipe os with
    | (none, s) => pure (s.cerr "smash error: pipe failed".toList)
    | (some (fds0, fds1), s) => PipeCommand.launchBoth os s fds0 fds1

/-- The line `operator<<` writes for a job entry. -/
def JobEntry.print (job : JobEntry) : Str :=
  "[".toList ++ showInt job.m_jobId ++ "] ".toList ++ job.m_org_commandLine ++
    (if job.m_isStopped then " (stopped)".toList else [])

/-- `JobsCommand::execute`, that is `JobsList::printJobsList`. -/
def JobsCommand.execute (s : SmallShell) : SmallShell :=
  s.m_jobsMap.foldl (fun s job => s.cout job.2.obj.print) s

/-- The part of `ForegroundCommand::execute` from the promotion up to the
blocking `waitpid` (lines 534 to 546). -/
def ForegroundCommand.promote (os : OS) (s : SmallShell) (jobId : Int) : Run SmallShell := do
  let s ← s.setBGJobToFGbyJID jobId
  let s :=
    if s.m_cJisStopped then
      let (a, s) := s.sys os
      s.emit (.kill s.m_cJPid SIGCONT a.ret)
    else s
  let s := s.cout (s.m_cJPrintCommandLine ++ " ".toList ++ showInt s.m_cJPid)
  pure (s.removeBGjobByJID jobId)

/-- The part of `ForegroundCommand::execute` after the blocking `waitpid`
(lines 552 to 567). -/
def ForegroundCommand.afterWait (os : OS) (s : SmallShell) (status : Answer) :
    Run SmallShell :=
  if status.ret = -1 then
    (s.cerr "smash error: waitpid failed".toList).updateSmashAfterCjFinished
  else if status.stopped then
    let s := { s with m_cJisStopped := true }
    let (now, s) := s.sys os
    let s := { s with m_cJinsertionTime := now.ret }
    s.addBGJob os s.m_cJPid s.m_cJCommandLine true s.m_cJobId s.m_cJPrintCommandLine
  else s.updateSmashAfterCjFinished

/-- The job id `ForegroundCommand::execute` selects (lines 499 to 532); `none`
when it prints an error message and returns. -/
def ForegroundCommand.select (s : SmallShell) (cmd : Command) : Run (Option Int × SmallShell) := do
  if cmd.m_args_num > 2 then
    pure (none, s.cerr "smash error: fg: invalid arguments".toList)
  else if cmd.m_args_num = 2 then
    let arg ← s.lift (cmd.getArg 1)
    match isNumber arg with
    | none => pure (none, s.cerr "smash error: fg: invalid arguments".toList)
    | some jobId =>
      if !s.isBGNotEmpty then
        pure (none, s.cerr ("smash error: fg: job-id ".toList ++ showInt jobId ++
          " does not exist".toList))
      else if !s.isContainsBGJob jobId then
        pure (none, s.cerr ("smash error: fg: job-id ".toList ++ showInt jobId ++
          " does not exist".toList))
      else pure (some jobId, s)
  else if s.isBGNotEmpty then
    match s.getLastJob with
    | some p => pure (some p.obj.m_jobId, s)
    | none => s.raise Fault.undefined_behaviour
  else pure (none, s.cerr "smash error: fg: jobs list is empty".toList)

/-- `ForegroundCommand::execute`. -/
def ForegroundCommand.execute (os : OS) (s : SmallShell) (cmd : Command) : Run SmallShell := do
  match ← ForegroundCommand.select s cmd with
  | (none, s) => pure s
  | (some jobId, s) =>
    let s ← ForegroundCommand.promote os s jobId
    let (status, s) ← s.waitpidBlocking os s.m_cJPid .WUNTRACED
    ForegroundCommand.afterWait os s status

/-- The loop of `QuitCommand::execute` that prints the jobs (lines 587 to 598),
over the ids in `ids`. -/
def QuitCommand.printLoop : List Nat → SmallShell → Run SmallShell
  | [], s => .ok s
  | i :: ids, s => do
    if !(← s.isJobIdUsed i) then QuitCommand.printLoop ids s
    else if s.isContainsBGJob i then
      match s.getJobById i with
      | some p =>
        QuitCommand.printLoop ids
          (s.cout (showInt p.obj.m_pid ++ ": ".toList ++ p.obj.m_org_commandLine))
      | none => s.raise Fault.invalid_argument
    else if (i : Int) = s.m_cJobId then
      QuitCommand.printLoop ids
        (s.cout (showInt s.m_cJPid ++ ": ".toList ++ s.m_cJPrintCommandLine))
    else s.raise Fault.runtime_error

/-- Lines 574 to 577 of `QuitCommand::execute`: the foreground process, if there
is one, is sent `SIGKILL`. -/
def QuitCommand.killForeground (os : OS) (s : SmallShell) : SmallShell :=
  let fg_pid := if s.isFGrunning then s.m_cJPid else -1
  if fg_pid > 0 then
    let (a, s) := s.sys os
    s.emit (.kill fg_pid SIGKILL a.ret)
  else s

/-- Lines 583 to 601 of `QuitCommand::execute`: the branch of the `kill`
argument. -/
def QuitCommand.killAll (os : OS) (s : SmallShell) : Run SmallShell := do
  let runningJobsNum := if s.isFGrunning then s.getBGNumOfJobs + 1 else s.getBGNumOfJobs
  let s := s.cout ("smash: sending SIGKILL signal to ".toList ++ showInt runningJobsNum ++
    " jobs:".toList)
  let s ← QuitCommand.printLoop (List.range' 1 (MAX_BG_JOBS - 1)) s
  s.killAllJobs os

/-- Whether `QuitCommand::execute` takes the branch of the `kill` argument
(line 580). -/
def QuitCommand.withKill (cmd : Command) : Except Fault Bool :=
  if cmd.m_args_num ≥ 2 then do
    let arg ← cmd.getArg 1
    pure (decide (arg = "kill".toList))
  else pure false

/-- `QuitCommand::execute`: it never returns. -/
def QuitCommand.execute (os : OS) (s : SmallShell) (cmd : Command) : Run SmallShell := do
  let s := QuitCommand.killForeground os s
  let s ← if (← s.lift (QuitCommand.withKill cmd)) then QuitCommand.killAll os s else pure s
  s.raise (Fault.exit 0)

/-- The text `msg` of `KillCommand::execute` for invalid arguments. -/
def KillCommand.invalid : Str := "smash error: kill: invalid arguments".toList

/-- `KillCommand::execute`. -/
def KillCommand.execute (os : OS) (s : SmallShell) (cmd : Command) : Run SmallShell := do
  if cmd.m_args_num ≠ 3 then pure (s.cerr KillCommand.invalid)
  else
    let sig_str ← s.lift (cmd.getArg 1)
    match sig_str with
    | [] => pure (s.cerr KillCommand.invalid)
    | c :: sig_rest =>
      if c ≠ '-' then pure (s.cerr KillCommand.invalid)
      else
        match stoi sig_rest with
        | none => pure (s.cerr KillCommand.invalid)
        | some sig_num =>
          match stoi (← s.lift (cmd.getArg 2)) with
          | none => pure (s.cerr KillCommand.invalid)
          | some job_id =>
            if job_id < 0 then pure (s.cerr KillCommand.invalid)
            else if job_id = 0 ∨ !s.isContainsBGJob job_id then
              pure (s.cerr ("smash error: kill: job-id ".toList ++ showInt job_id ++
                " does not exist".toList))
            else
              match s.getJobById job_id with
              | none => s.raise Fault.invalid_argument
              | some p =>
                let pid := p.obj.m_pid
                let s := s.cout ("signal number ".toList ++ showInt sig_num ++
                  " was sent to pid ".toList ++ showInt pid)
                let (a, s) := s.sys os
                let s := s.emit (.kill pid sig_num a.ret)
                if a.ret = -1 then pure (s.cerr "smash error: kill failed".toList)
                else pure s

/-- The class `[A-Za-z0-9_]`. -/
def isAliasNameChar (c : Char) : Bool := c.isAlphanum || c == '_'

/-- The match of `^\s*alias\s+([A-Za-z0-9_]+)='([^']*)'\s*$` against `line`: the
two groups. No position of the pattern admits two ways to continue, so the
match is found by reading the line once. -/
def AliasCommand.regex_match (line : Str) : Option (Str × Str) :=
  let l := line.dropWhile isspace
  if !startsWith l "alias".toList then none
  else
    let l := l.drop 5
    match l with
    | [] => none
    | c :: _ =>
      if !isspace c then none
      else
        let l := l.dropWhile isspace
        let name := l.takeWhile isAliasNameChar
        if name = [] then none
        else
          match l.drop name.length with
          | '=' :: q :: rest =>
            if q ≠ quote then none
            else
              let body := rest.takeWhile (fun c => c != quote)
              match rest.drop body.length with
              | [] => none
              | _ :: tail => if tail.all isspace then some (name, body) else none
          | _ => none

/-- `AliasCommand::execute`. -/
def AliasCommand.execute (s : SmallShell) (cmd : Command) : Run SmallShell :=
  if cmd.m_args_num = 1 then .ok s.printAllAliases
  else
    match AliasCommand.regex_match cmd.m_cmd_line with
    | none => .ok (s.cerr "smash error: alias: invalid alias format".toList)
    | some (name, body) =>
      if s.isReservedWord name || s.isAlias name then
        .ok (s.cerr ("smash error: alias: ".toList ++ name ++
          " already exists or is a reserved command".toList))
      else s.addAlias name body

/-- The loop of `UnAliasCommand::execute` over the arguments after the first. -/
def UnAliasCommand.loop : List Str → SmallShell → Run SmallShell
  | [], s => .ok s
  | aliasName :: rest, s =>
    if s.isAlias aliasName then do
      let s ← s.removeAlias aliasName
      UnAliasCommand.loop rest s
    else
      .ok (s.cerr ("smash error: unalias: ".toList ++ aliasName ++
        " alias does not exist".toList))

/-- `UnAliasCommand::execute`. -/
def UnAliasCommand.execute (s : SmallShell) (cmd : Command) : Run SmallShell :=
  if cmd.m_args_num ≤ 1 then .ok (s.cerr "smash error: unalias: not enough arguments".toList)
  else UnAliasCommand.loop (cmd.m_args.drop 1) s

/-- `DiskUsageCommand::execute`: the words of the command line are parsed into
the local array `char *argv[COMMAND_MAX_ARGS]`; what follows reads the file
system and writes the result, which is one `untracked` event. -/
def DiskUsageCommand.execute (s : SmallShell) (cmd : Command) : Run SmallShell :=
  match _parseCommandLine COMMAND_MAX_ARGS cmd.m_cmd_line with
  | .error f => s.raise f
  | .ok _ => .ok (s.emit (.untracked .DiskUsageCommand cmd.m_args))

/-- The virtual call `cmd->execute()`. The bodies of `ChpromtCommand`,
`ShowPidCommand`, `GetCurrDirCommand`, `ChangeDirCommand`, `UnSetEnvCommand`,
`WatchProcCommand`, `WhoAmICommand` and `NetInfo` read and write only the
prompt, the working directory, the process environment and system files, none
of which is part of the state: each is one `untracked` event. -/
def Command.execute (os : OS) (executeCommand : SmallShell → Str → Run SmallShell)
    (s : SmallShell) (cmd : Command) : Run SmallShell :=
  match cmd.kind with
  | .PipeCommand => PipeCommand.execute os s cmd
  | .RedirectionCommand => RedirectionCommand.execute os executeCommand s cmd
  | .ExternalCommand => ExternalCommand.execute os s cmd
  | .JobsCommand => .ok (JobsCommand.execute s)
  | .ForegroundCommand => ForegroundCommand.execute os s cmd
  | .QuitCommand => QuitCommand.execute os s cmd
  | .KillCommand => KillCommand.execute os s cmd
  | .AliasCommand => AliasCommand.execute s cmd
  | .UnAliasCommand => UnAliasCommand.execute s cmd
  | .DiskUsageCommand => DiskUsageCommand.execute s cmd
  | kind => .ok (s.emit (.untracked kind cmd.m_args))

/-! ## `SmallShell::executeCommand` -/

/-- The three places of `executeCommand` that call `cmd->execute()`: line 152
(no marker), line 170 (a `BuiltInCommand` created again from the stripped line)
and line 178 (after `setNextBGPrint`). -/
inductive Site where
  | foreground | builtinStripped | background
  deriving DecidableEq, Repr

/-- Lines 146 to 177 of `executeCommand`: the command object on which `execute`
is called and the place of the call; `none` when no command is executed. -/
def selectCommand (s : SmallShell) (org_cmd_line : Str) :
    Except Fault (Option (Command × Site)) := do
  let procceced_cmd_line ← s.reproduceWithAlias org_cmd_line
  if !(← _isBackgroundComamnd procceced_cmd_line) then
    match ← CreateCommand procceced_cmd_line with
    | some cmd => pure (some (cmd, .foreground))
    | none => pure none
  else
    match ← CreateCommand procceced_cmd_line with
    | none => pure none
    | some cmd =>
      if cmd.kind.isBuiltInCommand then
        let procceced_cmd_line := _removeBackgroundSignString procceced_cmd_line
        match ← CreateCommand procceced_cmd_line with
        | some cmd => pure (some (cmd, .builtinStripped))
        | none => pure none
      else pure (some (cmd, .background))

/-- The body of `executeCommand`, the nested call made by
`RedirectionCommand::execute` being `nested`. -/
def executeCommand.body (os : OS) (nested : SmallShell → Str → Run SmallShell)
    (s : SmallShell) (org_cmd_line : Str) : Run SmallShell :=
  if _trim org_cmd_line = [] then .ok s
  else do
    let s ← s.removeFinishedJobs os
    match ← s.lift (selectCommand s org_cmd_line) with
    | none => pure s
    | some (cmd, site) =>
      let s := if site = .background then { s with m_nextBGPrintCmdLine := org_cmd_line } else s
      cmd.execute os nested s

/-- `SmallShell::executeCommand`. The first argument bounds the depth to which
redirections nest: at depth 0 a nested call ends the run with `out_of_fuel`. -/
def executeCommand (os : OS) : Nat → SmallShell → Str → Run SmallShell
  | 0 => executeCommand.body os (fun s _ => s.raise Fault.out_of_fuel)
  | depth + 1 => executeCommand.body os (executeCommand os depth)

/-- The nested call that `RedirectionCommand::execute` makes inside
`executeCommand os depth`: `executeCommand` one level deeper, and the end of
the fuel at depth 0. -/
def executeCommand.nested (os : OS) : Nat → SmallShell → Str → Run SmallShell
  | 0 => fun s _ => s.raise Fault.out_of_fuel
  | depth + 1 => executeCommand os depth

/-! ## The vocabulary of the specification -/

/-- The whitespace-separated tokens of a line: the maximal runs of characters
that are not whitespace. -/
def tokens (line : Str) : List Str := (line.splitOnP isspace).filter (fun w => w ≠ [])

/-- A blank line: nothing but whitespace. -/
def isBlank (line : Str) : Prop := ∀ c ∈ line, isspace c = true

/-- Position `i` of `s` lies inside a single-quote pair. The quote characters
of a line pair up from the left, the first with the second, the third with the
fourth, and so on; the position is inside a pair when the quote that opens the
pair stands before it (an odd number of quotes precede it) and the quote that
closes the pair stands after it. A quote that is never closed opens no pair. -/
def insideQuotePair (s : Str) (i : Nat) : Prop :=
  (s.take i).count quote % 2 = 1 ∧ quote ∈ s.drop (i + 1)

/-- Position `i` of `s` lies outside single-quote pairs. -/
def outsideQuotes (s : Str) (i : Nat) : Prop := ¬ insideQuotePair s i

/-- The line contains the character `ch` outside single-quote pairs. -/
def containsUnquoted (s : Str) (ch : Char) : Prop :=
  ∃ i, i < s.length ∧ (s[i]? = some ch ∧ outsideQuotes s i)

/-- Position `i` of `s` follows an even number of quote characters. -/
def afterEvenQuotes (s : Str) (i : Nat) : Prop := (s.take i).count quote % 2 = 0

/-- The line contains the character `ch` at a position that follows an even
number of quote characters. -/
def containsAfterEvenQuotes (s : Str) (ch : Char) : Prop :=
  ∃ i, i < s.length ∧ (s[i]? = some ch ∧ afterEvenQuotes s i)

instance (s : Str) (i : Nat) : Decidable (insideQuotePair s i) := by
  unfold insideQuotePair; infer_instance

instance (s : Str) (i : Nat) : Decidable (outsideQuotes s i) := by
  unfold outsideQuotes; infer_instance

instance (s : Str) (ch : Char) : Decidable (containsUnquoted s ch) := by
  unfold containsUnquoted; infer_instance

instance (s : Str) (i : Nat) : Decidable (afterEvenQuotes s i) := by
  unfold afterEvenQuotes; infer_instance

instance (s : Str) (ch : Char) : Decidable (containsAfterEvenQuotes s ch) := by
  unfold containsAfterEvenQuotes; infer_instance

/-- The builtin name table of the specification, with the class that
implements each name. -/
def builtinNames : List (Str × CommandKind) :=
  [("chprompt".toList, .ChpromtCommand), ("showpid".toList, .ShowPidCommand),
   ("pwd".toList, .GetCurrDirCommand), ("cd".toList, .ChangeDirCommand),
   ("jobs".toList, .JobsCommand), ("fg".toList, .ForegroundCommand),
   ("quit".toList, .QuitCommand), ("kill".toList, .KillCommand),
   ("alias".toList, .AliasCommand), ("unalias".toList, .UnAliasCommand),
   ("unsetenv".toList, .UnSetEnvCommand), ("watchproc".toList, .WatchProcCommand),
   ("du".toList, .DiskUsageCommand), ("whoami".toList, .WhoAmICommand),
   ("netinfo".toList, .NetInfo)]

/-- The classification of a line as the specification words it: Pipe when a
`|` stands outside single-quote pairs, otherwise Redirection when a `>` does,
otherwise the builtin named by the first token, otherwise External. -/
def classify (line : Str) : CommandKind :=
  if containsUnquoted line '|' then .PipeCommand
  else if containsUnquoted line '>' then .RedirectionCommand
  else
    match (tokens line).head? with
    | none => .ExternalCommand
    | some firstToken => (builtinNames.lookup firstToken).getD .ExternalCommand

/-- The same classification with "outside single-quote pairs" replaced by
"after an even number of quote characters". -/
def classifyScan (line : Str) : CommandKind :=
  if containsAfterEvenQuotes line '|' then .PipeCommand
  else if containsAfterEvenQuotes line '>' then .RedirectionCommand
  else
    match (tokens line).head? with
    | none => .ExternalCommand
    | some firstToken => (builtinNames.lookup firstToken).getD .ExternalCommand

/-- The last character of the line that is not whitespace is `&`: the line ends
with the background marker. -/
def endsWithMarker (line : Str) : Prop :=
  (line.reverse.dropWhile isspace).head? = some '&'

instance (line : Str) : Decidable (endsWithMarker line) := by
  unfold endsWithMarker; infer_instance

instance (line : Str) : Decidable (isBlank line) := by
  unfold isBlank; infer_instance

/-- The line without its trailing marker: the text before the last `&`, with
the whitespace that ends it removed. -/
def withoutMarker (line : Str) : Str :=
  (((line.reverse.dropWhile isspace).drop 1).dropWhile isspace).reverse

/-! ## Runs used as examples -/

/-- An operating system in which the first `fork` returns pid 4242, the
blocking wait that follows reports that child stopped, the next two calls
return 0 (a poll that finds nothing, a signal that is delivered), and the
blocking wait after them reports the child stopped again; `time` returns
1700000000. -/
def stoppingOS : OS := fun n =>
  match n with
  | 0 => ⟨4242, false, false⟩
  | 1 => ⟨4242, true, false⟩
  | 4 => ⟨0, false, false⟩
  | 5 => ⟨0, false, false⟩
  | 6 => ⟨4242, true, false⟩
  | _ => ⟨1700000000, false, false⟩

/-- The shell after `sleep 100` was run in the foreground from the initial
state and its child was stopped. -/
def afterStop : Run SmallShell := executeCommand stoppingOS 0 SmallShell.init "sleep 100".toList

/-- The shell after `fg` was then run and the child was stopped once more. -/
def afterFgStop : Run SmallShell := executeCommand stoppingOS 0 afterStop.state "fg".toList

/-- The shell after the terminal interrupt arrived at the prompt that follows
the first stop. -/
def afterStopCtrlC : Run SmallShell := SmallShell.ctrlCHandler stoppingOS afterStop.state

/-- An operating system in which every call succeeds: the call at tick `n`
returns `100 + n`, no wait reports a stop and no interrupt arrives. -/
def plainOS : OS := fun n => ⟨100 + (n : Int), false, false⟩

/-- The shell after `alias x=' '` was run from the initial state. -/
def afterAliasBlank : Run SmallShell :=
  executeCommand plainOS 0 SmallShell.init "alias x=' '".toList

/-- The shell after `alias du='ls'` was run from the initial state. -/
def afterAliasDu : Run SmallShell :=
  executeCommand plainOS 0 SmallShell.init "alias du='ls'".toList

/-- The kind, the arguments and the place of execution of a selected command. -/
def selected (r : Except Fault (Option (Command × Site))) :
    Except Fault (Option (CommandKind × List String × Site)) :=
  r.map (Option.map (fun c => (c.1.kind, c.1.m_args.map String.mk, c.2)))

/-- The kind of the command `CreateCommand` returns. -/
def createdKind (line : Str) : Except Fault (Option CommandKind) :=
  (CreateCommand line).map (Option.map Command.kind)

/-- The pid and the display text of each record of the Job Table, in the
order of the map. -/
def SmallShell.jobsShown (s : SmallShell) : List (Int × Int × String) :=
  s.m_jobsMap.map (fun kv => (kv.1, kv.2.obj.m_pid, String.mk kv.2.obj.m_org_commandLine))

/-- Whether an event is a `fork`. -/
def Event.isFork : Event → Bool
  | .fork _ => true
  | _ => false

/-- The state in which a run that returns a value with the state ended. -/
def Run.state₂ {α : Type} : Run (α × SmallShell) → SmallShell
  | .ok (_, s) => s
  | .error (_, s) => s

/-- How far `s'` may differ from an earlier state `s`: the log of `s'` is the
log of `s` followed by events that satisfy `P`, and every record of the Job
Table of `s'` is a record of the Job Table of `s` or a record whose entry
satisfies `Q`. -/
def Frame (P : Event → Prop) (Q : JobEntry → Prop) (s s' : SmallShell) : Prop :=
  (∃ ext, s'.log = s.log ++ ext ∧ ∀ e ∈ ext, P e) ∧
  (∀ kv ∈ s'.m_jobsMap, kv ∈ s.m_jobsMap ∨ Q kv.2.obj)

/-- The operating system `stoppingOS`, but the call at tick 5 fails. -/
def killFailOS : OS := fun n => if n = 5 then ⟨-1, false, false⟩ else stoppingOS n

/-- An operating system for a chain of background launches: at each new command
the sweep finds the job before the last finished and the last job alive, every
`fork` and `time` succeeds; the call at tick 400 is answered by `atWait` and the
call at tick 401 returns 0. -/
def chainOS (atWait : Answer) : OS := fun n =>
  if n = 400 then atWait
  else if n = 401 then ⟨0, false, false⟩
  else if n < 5 then
    match n with
    | 2 => ⟨0, false, false⟩
    | _ => ⟨1000 + (n : Int), false, false⟩
  else
    match (n - 5) % 4 with
    | 0 => ⟨7, false, false⟩
    | 1 => ⟨0, false, false⟩
    | _ => ⟨1000 + (n : Int), false, false⟩

/-- The shell after `n` background commands `sleep 9 &` were run one after the
other from the initial state. -/
def chain (os : OS) (n : Nat) : SmallShell :=
  (List.range n).foldl (fun s _ => (executeCommand os 0 s "sleep 9 &".toList).state)
    SmallShell.init

/-- The job ids marked in use. -/
def SmallShell.usedIds (s : SmallShell) : List Nat :=
  (List.range MAX_BG_JOBS).filter (fun i => s.jobIDArrayAt i)

/-- An operating system in which the first `fork` returns pid 4242 and the
blocking wait that follows reports that child stopped; later the sweep finds
the child alive (tick 4), a `kill` succeeds (tick 5), the next sweep finds the
child terminated (tick 6) and a further `kill` fails (tick 7); `time` returns
1700000000. -/
def reapOS : OS := fun n =>
  match n with
  | 0 => ⟨4242, false, false⟩
  | 1 => ⟨4242, true, false⟩
  | 4 => ⟨0, false, false⟩
  | 5 => ⟨0, false, false⟩
  | 6 => ⟨4242, false, false⟩
  | 7 => ⟨-1, false, false⟩
  | _ => ⟨1700000000, false, false⟩

/-- The shell after `sleep 100` was run in the foreground and stopped, and
`kill -9 1` was run next, under `reapOS`. -/
def afterStopKill : Run SmallShell :=
  executeCommand reapOS 0 (executeCommand reapOS 0 SmallShell.init "sleep 100".toList).state
    "kill -9 1".toList

/-- An operating system for two background jobs and a foreground job that is
stopped: the `fork`s return the pids 1000 (tick 0), 1003 (tick 3) and 5000 (tick
7), the blocking wait on pid 5000 reports it stopped (tick 8), `time` returns
1700000000 (ticks 1, 4, 9, 10), every poll finds its child still there and every
`kill` succeeds (the other ticks). -/
def liveOS : OS := fun n =>
  match n with
  | 0 => ⟨1000, false, false⟩
  | 3 => ⟨1003, false, false⟩
  | 7 => ⟨5000, false, false⟩
  | 8 => ⟨5000, true, false⟩
  | 1 => ⟨1700000000, false, false⟩
  | 4 => ⟨1700000000, false, false⟩
  | 9 => ⟨1700000000, false, false⟩
  | 10 => ⟨1700000000, false, false⟩
  | _ => ⟨0, false, false⟩

/-- The shell with the background jobs `sleep 100 &` and `sleep 200 &` and the
job of `sleep 300`, run in the foreground and stopped. -/
def threeJobs : Run SmallShell :=
  executeCommand liveOS 0
    (executeCommand liveOS 0
      (executeCommand liveOS 0 SmallShell.init "sleep 100 &".toList).state
      "sleep 200 &".toList).state
    "sleep 300".toList

/-- An operating system in which the first `fork` returns pid 4242 and the
blocking wait that follows reports that child stopped; the `kill` of the
interrupt handler succeeds (tick 4), the sweep of the next command finds pid
4242 not yet terminated (tick 5) and the `kill` after it succeeds (tick 6);
`time` returns 1700000000. -/
def unreapedOS : OS := fun n =>
  match n with
  | 0 => ⟨4242, false, false⟩
  | 1 => ⟨4242, true, false⟩
  | 4 => ⟨0, false, false⟩
  | 5 => ⟨0, false, false⟩
  | 6 => ⟨0, false, false⟩
  | _ => ⟨1700000000, false, false⟩

/-- The shell after `sleep 100` was run in the foreground and stopped and the
terminal interrupt arrived at the prompt. -/
def afterStopInterrupt : Run SmallShell :=
  SmallShell.ctrlCHandler unreapedOS
    (executeCommand unreapedOS 0 SmallShell.init "sleep 100".toList).state

/-- An operating system in which the first `fork` returns pid 4242, the sweep
that follows finds the child alive (tick 2), the blocking wait after it (tick
3) reports the child stopped while the terminal interrupt arrives, and the
`kill` of the handler succeeds (tick 4); `time` returns 1700000000. -/
def raceOS : OS := fun n =>
  match n with
  | 0 => ⟨4242, false, false⟩
  | 2 => ⟨0, false, false⟩
  | 3 => ⟨4242, true, true⟩
  | 4 => ⟨0, false, false⟩
  | _ => ⟨1700000000, false, false⟩

/-- The shell after `sleep 100 &` was run from the initial state. -/
def afterBg : Run SmallShell := executeCommand raceOS 0 SmallShell.init "sleep 100 &".toList

/-- The id, the pid, the command text, the display text and the stopped flag of
each record of the Job Table, in the order of the map. -/
def SmallShell.records (s : SmallShell) : List (Int × Int × String × String × Bool) :=
  s.m_jobsMap.map (fun kv => (kv.1, kv.2.obj.m_pid,
    String.mk kv.2.obj.m_procecced_commandLine, String.mk kv.2.obj.m_org_commandLine,
    kv.2.obj.m_isStopped))

/-- The entry of job 1 in the Job Table of `afterBg`. -/
def bgRecord : JobPtr :=
  { addr := 0
    obj := { m_pid := 4242, m_procecced_commandLine := "sleep 100  ".toList,
             m_org_commandLine := "sleep 100 &".toList, m_jobId := 1, m_isStopped := false,
             m_insertionTime := 1700000000 } }

/-- The operating system `stoppingOS` up to the interrupt at the prompt (ticks 0
to 4); then the sweep of the next command finds pid 4242 not yet terminated
(tick 5), the `fork` of that command returns pid 4300 (tick 6) and its blocking
wait reports that child stopped (tick 7); the sweep of the command after it
finds pid 4242 terminated (tick 10), and the later calls return 0. -/
def collideOS : OS := fun n =>
  match n with
  | 0 => ⟨4242, false, false⟩
  | 1 => ⟨4242, true, false⟩
  | 4 => ⟨0, false, false⟩
  | 5 => ⟨0, false, false⟩
  | 6 => ⟨4300, false, false⟩
  | 7 => ⟨4300, true, false⟩
  | 8 => ⟨1700000000, false, false⟩
  | 9 => ⟨1700000000, false, false⟩
  | 10 => ⟨4242, false, false⟩
  | n + 11 => ⟨0, false, false⟩
  | _ => ⟨1700000000, false, false⟩

/-- The shell after `sleep 100` was stopped in the foreground, the interrupt
arrived at the prompt, and `sleep 200` was run in the foreground and stopped. -/
def afterSecondStop : Run SmallShell :=
  executeCommand collideOS 0
    (SmallShell.ctrlCHandler collideOS
      (executeCommand collideOS 0 SmallShell.init "sleep 100".toList).state).state
    "sleep 200".toList

/-- The value of a decimal numeral: a non-empty string of digits. -/
def decimalValue (w : Str) : Option Nat :=
  if w ≠ [] ∧ w.all Char.isDigit = true then
    some (w.foldl (fun acc d => acc * 10 + (d.toNat - 48)) 0)
  else none

/-- What every `std::map<int, JobEntry*>` built by `addJob` satisfies: the keys
ascend strictly, each key is the job id of its entry, and each key is an index
that `setJobIdUsed` accepts. -/
def tableWellFormed (m : List (Int × JobPtr)) : Prop :=
  m.Pairwise (fun a b => a.1 < b.1) ∧
  ∀ kv ∈ m, kv.2.obj.m_jobId = kv.1 ∧ 0 < kv.1 ∧ kv.1 < (MAX_BG_JOBS : Int)

instance (m : List (Int × JobPtr)) : Decidable (tableWellFormed m) := by
  unfold tableWellFormed; infer_instance

/-- The answer of a `waitpid(pid, &status, WNOHANG)` that reports the child
terminated: the call returned neither -1 (an error) nor 0 (still running). -/
def Answer.terminated (a : Answer) : Prop := a.ret ≠ -1 ∧ a.ret ≠ 0

instance (a : Answer) : Decidable a.terminated := by
  unfold Answer.terminated; infer_instance

/-- What descriptor `fd` refers to; `none` when it is not open. -/
def SmallShell.fdAt (s : SmallShell) (fd : Int) : Option FdTarget := s.fds.lookup fd

/-- The state of the shell but for its log. -/
def SmallShell.sameButLog (s t : SmallShell) : Prop :=
  t.m_jobsMap = s.m_jobsMap ∧ t.m_runningJobsQueue = s.m_runningJobsQueue ∧
  t.m_stoppedJobsQueue = s.m_stoppedJobsQueue ∧ t.m_jobIDArray = s.m_jobIDArray ∧
  t.m_aliasesMap = s.m_aliasesMap ∧ t.m_reservedWordsSet = s.m_reservedWordsSet ∧
  t.m_aliasOrder = s.m_aliasOrder ∧ t.m_cJPid = s.m_cJPid ∧ t.m_cJobId = s.m_cJobId ∧
  t.m_cJCommandLine = s.m_cJCommandLine ∧ t.m_cJPrintCommandLine = s.m_cJPrintCommandLine ∧
  t.m_cJisStopped = s.m_cJisStopped ∧ t.m_cJinsertionTime = s.m_cJinsertionTime ∧
  t.m_nextBGPrintCmdLine = s.m_nextBGPrintCmdLine ∧ t.heap = s.heap ∧ t.fds = s.fds ∧
  t.tick = s.tick

/-- The array `args` after a sequence of stores; a slot holds `none` while
nothing has been stored in it. -/
def storeAll (stores : List (Nat × Option Str)) (args : Nat → Option (Option Str)) :
    Nat → Option (Option Str) :=
  stores.foldl (fun a w => fun k => if k = w.1 then some w.2 else a k) args

/-- A line of twenty words. -/
def twentyWords : Str :=
  "echo 1 2 3 4 5 6 7 8 9 10 11 12 13 14 15 16 17 18 19".toList

/-- The operating system `stoppingOS` through the second stop of pid 4242 (ticks
0 to 8); then the sweep of the next command finds pid 4242 still there (tick
9), the `fork` of that command returns pid 4300 (tick 10), its blocking wait
reports that child stopped (tick 11), and the sweep of the command after it
finds both children still there (ticks 14 and 15). -/
def staleOS : OS := fun n =>
  match n with
  | 9 => ⟨0, false, false⟩
  | 10 => ⟨4300, false, false⟩
  | 11 => ⟨4300, true, false⟩
  | 14 => ⟨0, false, false⟩
  | 15 => ⟨0, false, false⟩
  | n => stoppingOS n

/-- The shell after `sleep 100` was stopped in the foreground, `fg` resumed it
and it was stopped again, and `sleep 200` was then run in the foreground and
stopped. -/
def afterStaleStop : Run SmallShell :=
  executeCommand staleOS 0
    (executeCommand staleOS 0
      (executeCommand staleOS 0 SmallShell.init "sleep 100".toList).state "fg".toList).state
    "sleep 200".toList

/-- The two queues agree with the map: every entry of the map is once in the
two queues together, in the stopped queue exactly when its flag `stopped` is
set, and every entry of a queue is an entry of the map. -/
def queuesMatchMap (s : SmallShell) : Prop :=
  (∀ kv ∈ s.m_jobsMap,
    (s.m_runningJobsQueue ++ s.m_stoppedJobsQueue).count kv.2 = 1 ∧
    (kv.2 ∈ s.m_stoppedJobsQueue ↔ kv.2.obj.m_isStopped = true)) ∧
  (∀ p ∈ s.m_runningJobsQueue ++ s.m_stoppedJobsQueue, p ∈ s.m_jobsMap.map Prod.snd)

instance (s : SmallShell) : Decidable (queuesMatchMap s) := by
  unfold queuesMatchMap; infer_instance

/-- A file system for reading a log: the descriptor table of the shell and the
lines of each file written so far. -/
structure Files where
  fds : List (Int × FdTarget)
  contents : List (Str × List Str)

/-- The lines of the file `path`; a file that does not exist has none. -/
def Files.get (m : Files) (path : Str) : List Str := (m.contents.lookup path).getD []

/-- The file `path` with the lines `lines`. -/
def Files.set (m : Files) (path : Str) (lines : List Str) : Files :=
  { m with contents := (path, lines) :: m.contents.filter (fun e => e.1 != path) }

/-- Descriptor `fd` made to refer to `target`. -/
def Files.fdSet (m : Files) (fd : Int) (target : FdTarget) : Files :=
  { m with fds := (fd, target) :: m.fds.filter (fun e => e.1 != fd) }

/-- The effect of one event of the log on the files, when every child the shell
forks writes the one line `line` to its standard output and ends before the
shell goes on. An `open` that succeeds creates the file if need be, empties it
unless the mode is append, and enters the descriptor; `dup`, `dup2` and `close`
act on the descriptor table; a `fork` that succeeds adds `line` at the end of
the file to which descriptor 1 refers at that moment, if it refers to a
file. -/
def Files.step (line : Str) (m : Files) : Event → Files
  | .open path append ret =>
    if ret = -1 then m
    else (m.set path (if append then m.get path else [])).fdSet ret (.file path append)
  | .dup oldfd ret =>
    if ret = -1 then m
    else
      match m.fds.lookup oldfd with
      | some target => m.fdSet ret target
      | none => m
  | .dup2 oldfd newfd ret =>
    if ret = -1 then m
    else
      match m.fds.lookup oldfd with
      | some target => m.fdSet newfd target
      | none => m
  | .close fd => { m with fds := m.fds.filter (fun e => e.1 != fd) }
  | .fork ret =>
    if ret ≤ 0 then m
    else
      match m.fds.lookup 1 with
      | some (.file path _) => m.set path (m.get path ++ [line])
      | _ => m
  | _ => m

/-- The files after the events of `log`, in a process started with the three
standard descriptors on the terminal and no file written, every child writing
the line `line`. -/
def filesAfter (line : Str) (log : List Event) : List (String × List String) :=
  (log.foldl (Files.step line)
    { fds := [(0, .terminal), (1, .terminal), (2, .terminal)], contents := [] }).contents.map
    (fun e => (String.mk e.1, e.2.map String.mk))

/-- The shell after the line `line` was run twice from the initial state, every
call succeeding. -/
def ranTwice (line : Str) : Run SmallShell :=
  executeCommand plainOS 1 (executeCommand plainOS 1 SmallShell.init line).state line

/-- The identification line `<pid>: <display text>` that `quit kill` prints for
an entry of the Job Table. -/
def identificationLine (p : JobPtr) : Str :=
  showInt p.obj.m_pid ++ ": ".toList ++ p.obj.m_org_commandLine

/-- The ids marked in use are the keys of the Job Table: an id between 1 and
`MAX_BG_JOBS - 1` is marked in use exactly when the table holds an entry under
it. -/
def marksAreKeys (s : SmallShell) : Prop :=
  ∀ i : Nat, i < MAX_BG_JOBS → 1 ≤ i → s.jobIDArrayAt i = s.isContainsBGJob (i : Int)

instance (s : SmallShell) : Decidable (marksAreKeys s) := by
  unfold marksAreKeys; infer_instance

/-! ## Job id allocation -/

namespace SmallShell

/-- The accumulator of the loop of `getNextFreeJobId` over any list of indices:
it is the start value or a marked index of the list, and it bounds the start
value and every marked index of the list. -/
theorem getNextFreeJobId_fold (s : SmallShell) (l : List Nat) (m0 : Nat) :
    let r := l.foldl
      (fun max_id i => if s.jobIDArrayAt i && decide (i > max_id) then i else max_id) m0
    (r = m0 ∨ (r ∈ l ∧ s.jobIDArrayAt r = true)) ∧ m0 ≤ r ∧
      ∀ i ∈ l, s.jobIDArrayAt i = true → i ≤ r := by
  induction l generalizing m0 with
  | nil => simp
  | cons a l ih =>
    simp only [List.foldl_cons]
    by_cases h : (s.jobIDArrayAt a && decide (a > m0)) = true
    · rw [if_pos h]
      simp only [Bool.and_eq_true, decide_eq_true_eq] at h
      obtain ⟨h1, h2, h3⟩ := ih a
      refine ⟨?_, by omega, ?_⟩
      · rcases h1 with h1 | ⟨h1, h1'⟩
        · right; rw [h1]; exact ⟨List.mem_cons_self _ _, h.1⟩
        · right; exact ⟨List.mem_cons_of_mem _ h1, h1'⟩
      · intro i hi hu
        rcases List.mem_cons.1 hi with rfl | hi
        · exact h2
        · exact h3 i hi hu
    · rw [if_neg h]
      obtain ⟨h1, h2, h3⟩ := ih m0
      refine ⟨?_, h2, ?_⟩
      · rcases h1 with h1 | ⟨h1, h1'⟩
        · left; exact h1
        · right; exact ⟨List.mem_cons_of_mem _ h1, h1'⟩
      · intro i hi hu
        rcases List.mem_cons.1 hi with rfl | hi
        · simp only [Bool.and_eq_true, decide_eq_true_eq, not_and, not_lt] at h
          have := h hu
          omega
        · exact h3 i hi hu

/-- The loop of `getNextFreeJobId` ends at 0 or at a marked id between 1 and
100, and no marked id between 1 and 100 exceeds it. -/
theorem getNextFreeJobId_loop_spec (s : SmallShell) :
    (getNextFreeJobId.loop s = 0 ∨
      (1 ≤ getNextFreeJobId.loop s ∧ getNextFreeJobId.loop s < MAX_BG_JOBS ∧
        s.jobIDArrayAt (getNextFreeJobId.loop s) = true)) ∧
    ∀ i, 1 ≤ i → i < MAX_BG_JOBS → s.jobIDArrayAt i = true → i ≤ getNextFreeJobId.loop s := by
  have h := getNextFreeJobId_fold s (List.range' 1 (MAX_BG_JOBS - 1)) 0
  simp only [List.mem_range'_1] at h
  obtain ⟨h1, -, h3⟩ := h
  unfold getNextFreeJobId.loop
  generalize (List.range' 1 (MAX_BG_JOBS - 1)).foldl
    (fun max_id i => if s.jobIDArrayAt i && decide (i > max_id) then i else max_id) 0 = r
    at h1 h3 ⊢
  simp only [MAX_BG_JOBS] at h1 h3 ⊢
  refine ⟨?_, ?_⟩
  · rcases h1 with h1 | ⟨h1, h1'⟩
    · left; exact h1
    · right; exact ⟨h1.1, by omega, h1'⟩
  · intro i hi1 hi2 hu
    exact h3 i ⟨hi1, by omega⟩ hu

/-- An id is reported in use by `isJobIdUsed` exactly when it lies between 1
and 100 and its element of `m_jobIDArray` is set. -/
theorem isJobIdUsed_eq_true (s : SmallShell) (i : Int) :
    s.isJobIdUsed i = .ok true ↔
      1 ≤ i ∧ i < (MAX_BG_JOBS : Int) ∧ s.jobIDArrayAt i.toNat = true := by
  unfold isJobIdUsed raise
  by_cases h1 : i = -1
  · simp [h1]
  · by_cases h2 : i ≤ 0 ∨ i ≥ (MAX_BG_JOBS : Int)
    · simp only [if_neg h1, if_pos h2]
      constructor
      · intro h; cases h
      · rintro ⟨h3, h4, -⟩; omega
    · simp only [if_neg h1, if_neg h2]
      constructor
      · intro h
        refine ⟨by omega, by omega, ?_⟩
        injection h
      · rintro ⟨-, -, h⟩; rw [h]

/-- C1: in every state of the allocator, `getNextFreeJobId` returns 1 when no id
is marked in use and otherwise the greatest id marked in use plus one; the
result is strictly greater than every id marked in use, so an id `j` below an
id `k` that is in use is never returned. -/
theorem C1_getNextFreeJobId_is_max_used_plus_one (s : SmallShell) :
    ((∀ i : Int, s.isJobIdUsed i ≠ .ok true) → s.getNextFreeJobId = 1) ∧
    ((∃ i : Int, s.isJobIdUsed i = .ok true) →
      IsGreatest {i : Int | s.isJobIdUsed i = .ok true} (s.getNextFreeJobId - 1)) ∧
    (∀ i : Int, s.isJobIdUsed i = .ok true → i < s.getNextFreeJobId) ∧
    (∀ j k : Int, j < k → s.isJobIdUsed k = .ok true → s.getNextFreeJobId ≠ j) := by
  obtain ⟨hloop, hmax⟩ := getNextFreeJobId_loop_spec s
  have hlt : ∀ i : Int, s.isJobIdUsed i = .ok true → i < s.getNextFreeJobId := by
    intro i hi
    obtain ⟨h1, h2, h3⟩ := (isJobIdUsed_eq_true s i).1 hi
    have := hmax i.toNat (by omega) (by omega) h3
    unfold getNextFreeJobId
    omega
  refine ⟨?_, ?_, hlt, ?_⟩
  · intro hnone
    rcases hloop with h0 | ⟨h1, h2, h3⟩
    · unfold getNextFreeJobId; rw [h0]; rfl
    · exfalso
      apply hnone (getNextFreeJobId.loop s : Nat)
      rw [isJobIdUsed_eq_true]
      refine ⟨by omega, by omega, ?_⟩
      simpa using h3
  · rintro ⟨i, hi⟩
    have hpos := hlt i hi
    obtain ⟨hi1, -, -⟩ := (isJobIdUsed_eq_true s i).1 hi
    constructor
    · show s.isJobIdUsed (s.getNextFreeJobId - 1) = .ok true
      rcases hloop with h0 | ⟨h1, h2, h3⟩
      · exfalso; unfold getNextFreeJobId at hpos; omega
      · rw [isJobIdUsed_eq_true]
        unfold getNextFreeJobId
        refine ⟨by omega, by omega, ?_⟩
        simpa using h3
    · intro k hk
      have := hlt k hk
      omega
  · intro j k hjk hk
    have := hlt k hk
    omega

end SmallShell

/-! ## The foreground slot after a stop -/

/-- C2, at the run `sleep 100` stopped in the foreground and then `fg` stopped
again: both times the run returns with pid 4242 held by the Foreground Slot
(`m_cJPid = 4242` with `m_cJobId = 1`, so `isFGrunning`) and by the record of
job 1 in the Job Table. -/
theorem C2_stopped_job_in_slot_and_table :
    (afterStop.fault = none ∧ afterStop.state.m_cJPid = 4242 ∧
      afterStop.state.m_cJobId = 1 ∧ afterStop.state.isFGrunning = true ∧
      afterStop.state.m_jobsMap.map (fun kv => (kv.1, kv.2.obj.m_pid)) = [(1, 4242)]) ∧
    (afterFgStop.fault = none ∧ afterFgStop.state.m_cJPid = 4242 ∧
      afterFgStop.state.m_cJobId = 1 ∧ afterFgStop.state.isFGrunning = true ∧
      afterFgStop.state.m_jobsMap.map (fun kv => (kv.1, kv.2.obj.m_pid)) = [(1, 4242)]) := by
  decide!

/-- C3, at the run `sleep 100` stopped in the foreground followed by the
terminal interrupt: the handler returns, the Job Table still holds the record
of job 1 (pid 4242), and id 1 is no longer marked in use. -/
theorem C3_record_with_free_id_after_interrupt :
    afterStopCtrlC.fault = none ∧
    afterStopCtrlC.state.m_jobsMap.map (fun kv => (kv.1, kv.2.obj.m_jobId, kv.2.obj.m_pid))
      = [(1, 1, 4242)] ∧
    (afterStopCtrlC.state.isJobIdUsed 1).toOption = some false ∧
    afterStopCtrlC.state.log.getLast? = some (.stdout "smash: process 4242 was killed".toList) := by
  decide!

/-! ## Whitespace, trimming and tokens -/

/-- The set `WHITESPACE` holds exactly the characters `isspace` accepts. -/
theorem mem_WHITESPACE (c : Char) : c ∈ WHITESPACE ↔ isspace c = true := by
  simp only [WHITESPACE, isspace, List.mem_cons, List.mem_singleton, Bool.or_eq_true,
    beq_iff_eq, List.not_mem_nil, or_false]
  tauto

/-- `find_last_not_of` finds nothing exactly in a blank string. -/
theorem find_last_not_of_eq_none (s : Str) :
    find_last_not_of s WHITESPACE = none ↔ isBlank s := by
  induction s with
  | nil => simp [find_last_not_of, isBlank]
  | cons c cs ih =>
    unfold find_last_not_of
    cases h : find_last_not_of cs WHITESPACE with
    | some i =>
      simp only [false_iff, reduceCtorEq]
      intro hb
      have : isBlank cs := fun d hd => hb d (List.mem_cons_of_mem _ hd)
      rw [← ih, h] at this
      cases this
    | none =>
      have hcs := ih.1 h
      by_cases hc : c ∈ WHITESPACE
      · simp only [hc, if_true, true_iff]
        intro d hd
        rcases List.mem_cons.1 hd with rfl | hd
        · exact (mem_WHITESPACE _).1 hc
        · exact hcs d hd
      · simp only [hc, if_false, false_iff, reduceCtorEq]
        intro hb
        exact hc ((mem_WHITESPACE _).2 (hb c (List.mem_cons_self _ _)))

/-- In `pre ++ c :: post` with `c` not whitespace and `post` blank,
`find_last_not_of` finds the index of `c`. -/
theorem find_last_not_of_append (pre post : Str) (c : Char) (hc : isspace c = false)
    (hpost : isBlank post) :
    find_last_not_of (pre ++ c :: post) WHITESPACE = some pre.length := by
  induction pre with
  | nil =>
    have h : find_last_not_of post WHITESPACE = none := (find_last_not_of_eq_none post).2 hpost
    have hc' : ¬ c ∈ WHITESPACE := by rw [mem_WHITESPACE, hc]; simp
    simp [find_last_not_of, h, hc']
  | cons a pre ih =>
    rw [List.cons_append]
    unfold find_last_not_of
    rw [ih]
    rfl

/-- A string is blank or ends, up to a blank tail, with a character that is not
whitespace. -/
theorem blank_or_last (s : Str) :
    isBlank s ∨ ∃ pre c post, s = pre ++ c :: post ∧ isspace c = false ∧ isBlank post := by
  induction s with
  | nil => left; intro c hc; cases hc
  | cons a s ih =>
    rcases ih with hb | ⟨pre, c, post, rfl, hc, hpost⟩
    · by_cases ha : isspace a = true
      · left
        intro d hd
        rcases List.mem_cons.1 hd with rfl | hd
        · exact ha
        · exact hb d hd
      · right
        exact ⟨[], a, s, rfl, by simpa using ha, hb⟩
    · right
      exact ⟨a :: pre, c, post, rfl, hc, hpost⟩

/-- `_rtrim` removes a blank tail. -/
theorem _rtrim_append (pre post : Str) (c : Char) (hc : isspace c = false)
    (hpost : isBlank post) : _rtrim (pre ++ c :: post) = pre ++ [c] := by
  unfold _rtrim
  rw [find_last_not_of_append pre post c hc hpost]
  simp [List.take_append_eq_append_take]

/-- `_rtrim` of a blank string is empty. -/
theorem _rtrim_blank (s : Str) (h : isBlank s) : _rtrim s = [] := by
  unfold _rtrim
  rw [(find_last_not_of_eq_none s).2 h]

/-- `_ltrim` drops the whitespace that starts the string. -/
theorem _ltrim_eq_dropWhile (s : Str) : _ltrim s = s.dropWhile isspace := by
  induction s with
  | nil => simp [_ltrim, find_first_not_of]
  | cons c cs ih =>
    unfold _ltrim at ih ⊢
    unfold find_first_not_of
    by_cases hc : c ∈ WHITESPACE
    · have hc' := (mem_WHITESPACE c).1 hc
      simp only [hc, if_true, List.dropWhile_cons, hc']
      rw [← ih]
      cases find_first_not_of cs WHITESPACE <;> simp
    · have hc' : isspace c = false := by
        rw [mem_WHITESPACE] at hc; simpa using hc
      simp [hc, List.dropWhile_cons, hc']

/-- The loop of `splitCommandLine` computes the non-empty pieces between
whitespace characters. -/
theorem splitCommandLine_go_eq (s acc : Str) :
    (List.splitOnP.go isspace s acc).filter (fun w => w ≠ []) =
      splitCommandLine.go s acc.reverse := by
  induction s generalizing acc with
  | nil =>
    simp only [List.splitOnP.go, splitCommandLine.go]
    by_cases h : acc.reverse = [] <;> simp [List.filter, h]
  | cons c cs ih =>
    simp only [List.splitOnP.go, splitCommandLine.go]
    by_cases hc : isspace c = true
    · simp only [hc, if_true]
      have := ih []
      simp only [List.reverse_nil] at this
      by_cases h : acc.reverse = []
      · simpa [List.filter, h] using this
      · simpa [List.filter, h] using this
    · simp only [hc, Bool.false_eq_true, if_false]
      rw [ih]
      simp

/-- `splitCommandLine` returns the whitespace-separated tokens of the line. -/
theorem splitCommandLine_eq_tokens (s : Str) : splitCommandLine s = tokens s := by
  unfold splitCommandLine tokens List.splitOnP
  rw [splitCommandLine_go_eq]
  rfl

/-- Whitespace before the line does not change the tokens. -/
theorem splitCommandLine_go_blank_left (pre s : Str) (h : isBlank pre) :
    splitCommandLine.go (pre ++ s) [] = splitCommandLine.go s [] := by
  induction pre with
  | nil => rfl
  | cons c pre ih =>
    have hc : isspace c = true := h c (List.mem_cons_self _ _)
    have hpre : isBlank pre := fun d hd => h d (List.mem_cons_of_mem _ hd)
    simp [splitCommandLine.go, hc, ih hpre]

/-- Whitespace after the line does not change the tokens. -/
theorem splitCommandLine_go_blank_right (s post w : Str) (h : isBlank post) :
    splitCommandLine.go (s ++ post) w = splitCommandLine.go s w := by
  induction s generalizing w with
  | nil =>
    induction post generalizing w with
    | nil => rfl
    | cons c post ih =>
      have hc : isspace c = true := h c (List.mem_cons_self _ _)
      have hpost : isBlank post := fun d hd => h d (List.mem_cons_of_mem _ hd)
      have h0 := ih hpost []
      simp only [List.nil_append] at h0 ih ⊢
      simp only [splitCommandLine.go, hc, if_true, h0]
  | cons c cs ih =>
    show splitCommandLine.go (c :: (cs ++ post)) w = _
    simp only [splitCommandLine.go, ih]

/-- Whitespace around the line does not change the tokens. -/
theorem tokens_blank_append (pre s post : Str) (hpre : isBlank pre) (hpost : isBlank post) :
    tokens (pre ++ s ++ post) = tokens s := by
  rw [← splitCommandLine_eq_tokens, ← splitCommandLine_eq_tokens]
  unfold splitCommandLine
  rw [splitCommandLine_go_blank_right _ _ _ hpost, splitCommandLine_go_blank_left _ _ hpre]

/-- A line is its trimmed text between two blank strings. -/
theorem _trim_decomp (s : Str) :
    ∃ pre post, isBlank pre ∧ isBlank post ∧ s = pre ++ _trim s ++ post := by
  have hl : s = s.takeWhile isspace ++ _ltrim s := by
    rw [_ltrim_eq_dropWhile, List.takeWhile_append_dropWhile]
  have hpre : isBlank (s.takeWhile isspace) := fun c hc => (List.mem_takeWhile_imp hc)
  rcases blank_or_last (_ltrim s) with hb | ⟨p, c, post, hp, hc, hpost⟩
  · refine ⟨s.takeWhile isspace, _ltrim s, hpre, hb, ?_⟩
    unfold _trim
    rw [_rtrim_blank _ hb]
    simpa using hl
  · refine ⟨s.takeWhile isspace, post, hpre, hpost, ?_⟩
    unfold _trim
    rw [hp, _rtrim_append p post c hc hpost, List.append_assoc, List.append_assoc]
    simpa [hp] using hl

/-- The trimmed text of a line is empty exactly when the line is blank. -/
theorem _trim_eq_nil (s : Str) : _trim s = [] ↔ isBlank s := by
  constructor
  · intro h
    obtain ⟨pre, post, hpre, hpost, hs⟩ := _trim_decomp s
    rw [h] at hs
    rw [hs]
    intro c hc
    simp only [List.append_nil, List.mem_append] at hc
    rcases hc with hc | hc
    · exact hpre c hc
    · exact hpost c hc
  · intro h
    unfold _trim
    apply _rtrim_blank
    rw [_ltrim_eq_dropWhile]
    intro c hc
    exact h c (List.dropWhile_subset _ hc)

/-- Trimming does not change the tokens. -/
theorem tokens_trim (s : Str) : tokens (_trim s) = tokens s := by
  obtain ⟨pre, post, hpre, hpost, hs⟩ := _trim_decomp s
  conv_rhs => rw [hs]
  rw [tokens_blank_append _ _ _ hpre hpost]

/-- The words `_parseCommandLine` reads are the whitespace-separated tokens of
the line. -/
theorem _parseCommandLine_words_eq_tokens (s : Str) : _parseCommandLine.words s = tokens s := by
  rw [← tokens_trim, ← splitCommandLine_eq_tokens]
  rfl

/-- The loop of `splitCommandLine` returns no token exactly when no word is
being read and the rest is blank. -/
theorem splitCommandLine_go_eq_nil (s w : Str) :
    splitCommandLine.go s w = [] ↔ w = [] ∧ isBlank s := by
  induction s generalizing w with
  | nil =>
    simp only [splitCommandLine.go]
    by_cases h : w = [] <;> simp [h, isBlank]
  | cons c cs ih =>
    simp only [splitCommandLine.go]
    by_cases hc : isspace c = true
    · by_cases h : w = []
      · simp only [hc, if_true, h, ih, true_and]
        constructor
        · intro hb d hd
          rcases List.mem_cons.1 hd with rfl | hd
          · exact hc
          · exact hb d hd
        · intro hb d hd
          exact hb d (List.mem_cons_of_mem _ hd)
      · simp [hc, h]
    · simp only [hc, Bool.false_eq_true, if_false, ih]
      constructor
      · rintro ⟨h, -⟩
        simp at h
      · rintro ⟨-, hb⟩
        exact absurd (hb c (List.mem_cons_self _ _)) hc

/-- A line has no token exactly when it is blank. -/
theorem tokens_eq_nil (s : Str) : tokens s = [] ↔ isBlank s := by
  rw [← splitCommandLine_eq_tokens]
  unfold splitCommandLine
  rw [splitCommandLine_go_eq_nil]
  simp

/-- The indices of the stores of the loop of `_parseCommandLine` over the words
`toks`, begun at the counter value `i`: with at least one word, exactly `i` to
`i + n`. -/
theorem stores_go_index (toks : List Str) (i k : Nat) :
    k ∈ (_parseCommandLine.stores.go toks i).map Prod.fst ↔
      toks ≠ [] ∧ i ≤ k ∧ k ≤ i + toks.length := by
  induction toks generalizing i with
  | nil => simp [_parseCommandLine.stores.go]
  | cons t rest ih =>
    simp only [_parseCommandLine.stores.go, List.map_cons, List.mem_cons, ih, ne_eq,
      reduceCtorEq, not_false_eq_true, List.length_cons, true_and]
    constructor
    · rintro (h | h | ⟨-, h1, h2⟩) <;> omega
    · intro h
      by_cases h1 : k = i
      · left; exact h1
      · by_cases h2 : k = i + 1
        · right; left; exact h2
        · right; right
          refine ⟨?_, by omega, by omega⟩
          rintro rfl
          simp only [List.length_nil] at h
          omega

/-- The stores of `_parseCommandLine` lie inside an array of `slots` elements
exactly when the line has no token or fewer than `slots` tokens. -/
theorem stores_all_lt (slots : Nat) (s : Str) :
    (_parseCommandLine.stores s).all (fun w => decide (w.1 < slots)) = true ↔
      (tokens s = [] ∨ (tokens s).length < slots) := by
  have hidx : ∀ k, k ∈ (_parseCommandLine.stores s).map Prod.fst ↔
      (tokens s ≠ [] ∧ k ≤ (tokens s).length) := by
    intro k
    unfold _parseCommandLine.stores
    rw [stores_go_index, _parseCommandLine_words_eq_tokens]
    simp
  simp only [List.all_eq_true, decide_eq_true_eq]
  constructor
  · intro h
    by_cases hne : tokens s = []
    · left; exact hne
    · right
      obtain ⟨w, hw, hw1⟩ := List.mem_map.1 ((hidx (tokens s).length).2 ⟨hne, le_refl _⟩)
      have := h w hw
      omega
  · intro h w hw
    have hmem : w.1 ∈ (_parseCommandLine.stores s).map Prod.fst := List.mem_map.2 ⟨w, hw, rfl⟩
    obtain ⟨hne, hle⟩ := (hidx w.1).1 hmem
    rcases h with h | h
    · exact absurd h hne
    · omega

/-- `_parseCommandLine` with an array that holds the tokens and the final
`NULL` returns the tokens of the line. -/
theorem _parseCommandLine_ok (slots : Nat) (s : Str) (h : (tokens s).length < slots) :
    _parseCommandLine slots s = .ok (tokens s) := by
  unfold _parseCommandLine
  rw [if_pos ((stores_all_lt slots s).2 (Or.inr h)), _parseCommandLine_words_eq_tokens]

/-- `_parseCommandLine` on a line without a token stores nothing and returns no
word. -/
theorem _parseCommandLine_blank (slots : Nat) (s : Str) (h : tokens s = []) :
    _parseCommandLine slots s = .ok [] := by
  unfold _parseCommandLine
  rw [if_pos ((stores_all_lt slots s).2 (Or.inl h)), _parseCommandLine_words_eq_tokens, h]

/-- What `_parseCommandLine` returns, when it returns, is the list of the tokens
of the line. -/
theorem _parseCommandLine_inv (slots : Nat) (s : Str) (l : List Str)
    (h : _parseCommandLine slots s = .ok l) : l = tokens s := by
  unfold _parseCommandLine at h
  split_ifs at h
  rw [_parseCommandLine_words_eq_tokens] at h
  injection h with h
  exact h.symm

/-- `_parseCommandLine` on a line with at least as many tokens as the array has
elements stores outside the array. -/
theorem _parseCommandLine_overflow (slots : Nat) (s : Str) (h : slots ≤ (tokens s).length)
    (hne : tokens s ≠ []) : _parseCommandLine slots s = .error Fault.undefined_behaviour := by
  unfold _parseCommandLine
  have : ¬ (_parseCommandLine.stores s).all (fun w => decide (w.1 < slots)) = true := by
    rw [stores_all_lt]
    rintro (h1 | h1)
    · exact hne h1
    · omega
  rw [if_neg this]

/-- The loop of `splitCommandLine` with a word being read returns at least that
word. -/
theorem splitCommandLine_go_length_pos (s w : Str) (hw : w ≠ []) :
    0 < (splitCommandLine.go s w).length := by
  apply List.length_pos.2
  intro h
  exact hw ((splitCommandLine_go_eq_nil s w).1 h).1

/-- Text added at the end of a string removes none of its tokens. -/
theorem splitCommandLine_go_length_append (a b w : Str) :
    (splitCommandLine.go a w).length ≤ (splitCommandLine.go (a ++ b) w).length := by
  induction a generalizing w with
  | nil =>
    simp only [splitCommandLine.go, List.nil_append]
    by_cases hw : w = []
    · simp [hw]
    · rw [if_neg hw]
      exact splitCommandLine_go_length_pos b w hw
  | cons c a ih =>
    simp only [List.cons_append, splitCommandLine.go]
    by_cases hc : isspace c = true
    · by_cases hw : w = []
      · simp only [hc, if_true, hw]; exact ih []
      · simp only [hc, if_true, hw, if_false, List.length_cons]
        exact Nat.succ_le_succ (ih [])
    · simp only [hc, Bool.false_eq_true, if_false]
      exact ih _

/-- A string has at most as many tokens as a string it begins. -/
theorem tokens_length_append_le (a b : Str) :
    (tokens a).length ≤ (tokens (a ++ b)).length := by
  rw [← splitCommandLine_eq_tokens, ← splitCommandLine_eq_tokens]
  exact splitCommandLine_go_length_append a b []

/-! ## Operators outside quotes -/

/-- The loop of `findOutsideQuotes` finds `ch` exactly when `ch` occurs at a
position before which the number of quotes is even (odd when the loop starts
inside quotes). -/
theorem findOutsideQuotes_go_ne_none (ch : Char) (hch : ch ≠ quote) (s : Str) (b : Bool)
    (i : Nat) :
    findOutsideQuotes.go ch s b i ≠ none ↔
      ∃ j, j < s.length ∧ (s[j]? = some ch ∧ ((s.take j).count quote % 2 = 0 ↔ b = false)) := by
  induction s generalizing b i with
  | nil => simp [findOutsideQuotes.go]
  | cons c cs ih =>
    unfold findOutsideQuotes.go
    by_cases hq : c = quote
    · rw [if_pos hq, ih]
      constructor
      · rintro ⟨j, hj, hc, hpar⟩
        refine ⟨j + 1, by simpa using hj, by simpa using hc, ?_⟩
        simp only [List.take_succ_cons, hq, List.count_cons_self]
        cases b <;> simp at hpar ⊢ <;> omega
      · rintro ⟨j, hj, hc, hpar⟩
        cases j with
        | zero =>
          simp only [List.getElem?_cons_zero, Option.some.injEq] at hc
          exact absurd (hc ▸ hq) hch
        | succ j =>
          refine ⟨j, by simpa using hj, by simpa using hc, ?_⟩
          simp only [List.take_succ_cons, hq, List.count_cons_self] at hpar
          cases b <;> simp at hpar ⊢ <;> omega
    · rw [if_neg hq]
      by_cases hfound : (!b && c == ch) = true
      · rw [if_pos hfound]
        simp only [Bool.and_eq_true, Bool.not_eq_true', beq_iff_eq] at hfound
        simp only [ne_eq, reduceCtorEq, not_false_eq_true, true_iff]
        exact ⟨0, by simp, by simp [hfound.2], by simp [hfound.1]⟩
      · rw [if_neg hfound, ih]
        have hcount : ∀ j, ((c :: cs).take (j + 1)).count quote = (cs.take j).count quote := by
          intro j
          simp only [List.take_succ_cons]
          rw [List.count_cons_of_ne (Ne.symm hq)]
        constructor
        · rintro ⟨j, hj, hc, hpar⟩
          exact ⟨j + 1, by simpa using hj, by simpa using hc, by rw [hcount]; exact hpar⟩
        · rintro ⟨j, hj, hc, hpar⟩
          cases j with
          | zero =>
            exfalso
            apply hfound
            simp only [List.getElem?_cons_zero, Option.some.injEq] at hc
            simp only [List.take_zero, List.count_nil, Nat.zero_mod, true_iff] at hpar
            simp [hc, hpar]
          | succ j =>
            exact ⟨j, by simpa using hj, by simpa using hc, by rw [hcount] at hpar; exact hpar⟩

/-- `findOutsideQuotes` finds `ch` exactly when the string contains `ch` outside
single-quote pairs. -/
theorem findOutsideQuotes_ne_none (ch : Char) (hch : ch ≠ quote) (s : Str) :
    findOutsideQuotes s ch ≠ none ↔ containsAfterEvenQuotes s ch := by
  unfold findOutsideQuotes containsAfterEvenQuotes afterEvenQuotes
  rw [findOutsideQuotes_go_ne_none ch hch]
  simp

/-- Whether the loop of `findOutsideQuotes` finds something does not depend on
the index it starts counting from. -/
theorem findOutsideQuotes_go_index (ch : Char) (s : Str) (b : Bool) (i j : Nat) :
    findOutsideQuotes.go ch s b i = none ↔ findOutsideQuotes.go ch s b j = none := by
  induction s generalizing b i j with
  | nil => simp [findOutsideQuotes.go]
  | cons c cs ih =>
    unfold findOutsideQuotes.go
    by_cases hq : c = quote
    · rw [if_pos hq, if_pos hq]; exact ih _ _ _
    · rw [if_neg hq, if_neg hq]
      by_cases hfound : (!b && c == ch) = true
      · rw [if_pos hfound, if_pos hfound]; simp
      · rw [if_neg hfound, if_neg hfound]; exact ih _ _ _

/-- Whitespace around a string does not change whether `findOutsideQuotes`
finds a character that is neither whitespace nor the quote. -/
theorem findOutsideQuotes_blank_append (ch : Char) (hsp : isspace ch = false)
    (pre s post : Str) (hpre : isBlank pre) (hpost : isBlank post) :
    findOutsideQuotes (pre ++ s ++ post) ch = none ↔ findOutsideQuotes s ch = none := by
  have hquote : isspace quote = false := by decide
  have hskip : ∀ (d : Char), isspace d = true → d ≠ quote ∧ d ≠ ch := by
    intro d hd
    constructor
    · rintro rfl; rw [hquote] at hd; cases hd
    · rintro rfl; rw [hsp] at hd; cases hd
  have hright : ∀ (t : Str) (b : Bool) (i : Nat),
      findOutsideQuotes.go ch (t ++ post) b i = none ↔ findOutsideQuotes.go ch t b i = none := by
    intro t
    induction t with
    | nil =>
      intro b i
      simp only [List.nil_append, findOutsideQuotes.go, iff_true]
      induction post generalizing i with
      | nil => rfl
      | cons d post ih =>
        obtain ⟨h1, h2⟩ := hskip d (hpost d (List.mem_cons_self _ _))
        unfold findOutsideQuotes.go
        rw [if_neg h1, if_neg (by simp [h2])]
        exact ih (fun e he => hpost e (List.mem_cons_of_mem _ he)) _
    | cons c cs ih =>
      intro b i
      show findOutsideQuotes.go ch (c :: (cs ++ post)) b i = none ↔ _
      unfold findOutsideQuotes.go
      by_cases hq : c = quote
      · rw [if_pos hq, if_pos hq]; exact ih _ _
      · rw [if_neg hq, if_neg hq]
        by_cases hfound : (!b && c == ch) = true
        · rw [if_pos hfound, if_pos hfound]
        · rw [if_neg hfound, if_neg hfound]; exact ih _ _
  have hleft : ∀ (t : Str) (i : Nat),
      findOutsideQuotes.go ch (pre ++ t) false i = none ↔
        findOutsideQuotes.go ch t false i = none := by
    intro t
    induction pre with
    | nil => intro i; rfl
    | cons d pre ih =>
      intro i
      obtain ⟨h1, h2⟩ := hskip d (hpre d (List.mem_cons_self _ _))
      have hstep : findOutsideQuotes.go ch (d :: (pre ++ t)) false i =
          findOutsideQuotes.go ch (pre ++ t) false (i + 1) := by
        rw [findOutsideQuotes.go, if_neg h1, if_neg (by simp [h2])]
      show findOutsideQuotes.go ch (d :: (pre ++ t)) false i = none ↔ _
      rw [hstep, ih (fun e he => hpre e (List.mem_cons_of_mem _ he)) (i + 1)]
      exact findOutsideQuotes_go_index ch t false _ _
  unfold findOutsideQuotes
  rw [hright, hleft]

/-! ## Classification -/

/-- One step of a lookup in a name table. -/
theorem lookup_cons_name (w k : Str) (v : CommandKind) (t : List (Str × CommandKind)) :
    List.lookup w ((k, v) :: t) = if w = k then some v else List.lookup w t := by
  by_cases h : w = k
  · rw [if_pos h, h]
    simp [List.lookup]
  · have hb : (w == k) = false := by simpa using h
    rw [if_neg h]
    simp only [List.lookup, hb]

/-- The default of a conditional option. -/
theorem getD_ite_kind (c : Prop) [Decidable c] (v d : CommandKind) (o : Option CommandKind) :
    (if c then some v else o).getD d = if c then v else o.getD d := by
  split_ifs <;> rfl

/-- A chain of fifteen comparisons is a lookup in the table of the fifteen
names, whatever the names are. -/
theorem chain_eq_lookup (n1 n2 n3 n4 n5 n6 n7 n8 n9 n10 n11 n12 n13 n14 n15 w : Str) :
    (if w = n1 then CommandKind.ChpromtCommand
      else if w = n2 then CommandKind.ShowPidCommand
      else if w = n3 then CommandKind.GetCurrDirCommand
      else if w = n4 then CommandKind.ChangeDirCommand
      else if w = n5 then CommandKind.JobsCommand
      else if w = n6 then CommandKind.ForegroundCommand
      else if w = n7 then CommandKind.QuitCommand
      else if w = n8 then CommandKind.KillCommand
      else if w = n9 then CommandKind.AliasCommand
      else if w = n10 then CommandKind.UnAliasCommand
      else if w = n11 then CommandKind.UnSetEnvCommand
      else if w = n12 then CommandKind.WatchProcCommand
      else if w = n13 then CommandKind.DiskUsageCommand
      else if w = n14 then CommandKind.WhoAmICommand
      else if w = n15 then CommandKind.NetInfo
      else CommandKind.ExternalCommand) =
    (List.lookup w [(n1, CommandKind.ChpromtCommand), (n2, CommandKind.ShowPidCommand), (n3, CommandKind.GetCurrDirCommand), (n4, CommandKind.ChangeDirCommand), (n5, CommandKind.JobsCommand), (n6, CommandKind.ForegroundCommand), (n7, CommandKind.QuitCommand), (n8, CommandKind.KillCommand), (n9, CommandKind.AliasCommand), (n10, CommandKind.UnAliasCommand), (n11, CommandKind.UnSetEnvCommand), (n12, CommandKind.WatchProcCommand), (n13, CommandKind.DiskUsageCommand), (n14, CommandKind.WhoAmICommand), (n15, CommandKind.NetInfo)]).getD
      CommandKind.ExternalCommand := by
  rw [lookup_cons_name, getD_ite_kind, lookup_cons_name, getD_ite_kind, lookup_cons_name,
    getD_ite_kind, lookup_cons_name, getD_ite_kind, lookup_cons_name, getD_ite_kind,
    lookup_cons_name, getD_ite_kind, lookup_cons_name, getD_ite_kind, lookup_cons_name,
    getD_ite_kind, lookup_cons_name, getD_ite_kind, lookup_cons_name, getD_ite_kind,
    lookup_cons_name, getD_ite_kind, lookup_cons_name, getD_ite_kind, lookup_cons_name,
    getD_ite_kind, lookup_cons_name, getD_ite_kind, lookup_cons_name, getD_ite_kind]
  rfl

/-- A conditional differs from a value from which both branches differ. -/
theorem ite_ne_kind (c : Prop) [Decidable c] (a b x : CommandKind) (ha : a ≠ x) (hb : b ≠ x) :
    (if c then a else b) ≠ x := by
  split_ifs
  · exact ha
  · exact hb

/-- A chain of comparisons that yields builtin classes or External yields
neither Pipe nor Redirection. -/
theorem chain_ne (n1 n2 n3 n4 n5 n6 n7 n8 n9 n10 n11 n12 n13 n14 n15 w : Str) :
    (if w = n1 then CommandKind.ChpromtCommand
      else if w = n2 then CommandKind.ShowPidCommand
      else if w = n3 then CommandKind.GetCurrDirCommand
      else if w = n4 then CommandKind.ChangeDirCommand
      else if w = n5 then CommandKind.JobsCommand
      else if w = n6 then CommandKind.ForegroundCommand
      else if w = n7 then CommandKind.QuitCommand
      else if w = n8 then CommandKind.KillCommand
      else if w = n9 then CommandKind.AliasCommand
      else if w = n10 then CommandKind.UnAliasCommand
      else if w = n11 then CommandKind.UnSetEnvCommand
      else if w = n12 then CommandKind.WatchProcCommand
      else if w = n13 then CommandKind.DiskUsageCommand
      else if w = n14 then CommandKind.WhoAmICommand
      else if w = n15 then CommandKind.NetInfo
      else CommandKind.ExternalCommand) ≠ CommandKind.PipeCommand ∧
    (if w = n1 then CommandKind.ChpromtCommand
      else if w = n2 then CommandKind.ShowPidCommand
      else if w = n3 then CommandKind.GetCurrDirCommand
      else if w = n4 then CommandKind.ChangeDirCommand
      else if w = n5 then CommandKind.JobsCommand
      else if w = n6 then CommandKind.ForegroundCommand
      else if w = n7 then CommandKind.QuitCommand
      else if w = n8 then CommandKind.KillCommand
      else if w = n9 then CommandKind.AliasCommand
      else if w = n10 then CommandKind.UnAliasCommand
      else if w = n11 then CommandKind.UnSetEnvCommand
      else if w = n12 then CommandKind.WatchProcCommand
      else if w = n13 then CommandKind.DiskUsageCommand
      else if w = n14 then CommandKind.WhoAmICommand
      else if w = n15 then CommandKind.NetInfo
      else CommandKind.ExternalCommand) ≠ CommandKind.RedirectionCommand := by
  constructor <;> repeat' (first | exact CommandKind.noConfusion | apply ite_ne_kind)

/-- No first word is given the class of a pipe or of a redirection. -/
theorem kindOfFirstWord_ne (w : Str) :
    kindOfFirstWord w ≠ .PipeCommand ∧ kindOfFirstWord w ≠ .RedirectionCommand :=
  chain_ne
    "chprompt".toList
    "showpid".toList
    "pwd".toList
    "cd".toList
    "jobs".toList
    "fg".toList
    "quit".toList
    "kill".toList
    "alias".toList
    "unalias".toList
    "unsetenv".toList
    "watchproc".toList
    "du".toList
    "whoami".toList
    "netinfo".toList w

/-- The chain of comparisons in `CreateCommand` is a lookup in the builtin name
table. -/
theorem kindOfFirstWord_eq_lookup (w : Str) :
    kindOfFirstWord w = (builtinNames.lookup w).getD .ExternalCommand :=
  chain_eq_lookup
    "chprompt".toList
    "showpid".toList
    "pwd".toList
    "cd".toList
    "jobs".toList
    "fg".toList
    "quit".toList
    "kill".toList
    "alias".toList
    "unalias".toList
    "unsetenv".toList
    "watchproc".toList
    "du".toList
    "whoami".toList
    "netinfo".toList w

/-- On a line that is not blank `_isBackgroundComamnd` returns. -/
theorem _isBackgroundComamnd_ok (line : Str) (h : ¬ isBlank line) :
    ∃ b, _isBackgroundComamnd line = .ok b := by
  unfold _isBackgroundComamnd
  have hne : line ≠ [] := by
    rintro rfl; exact h (fun c hc => by cases hc)
  rw [if_neg hne]
  cases hf : find_last_not_of line WHITESPACE with
  | none => exact absurd ((find_last_not_of_eq_none line).1 hf) h
  | some i => exact ⟨_, rfl⟩

/-- `findOutsideQuotes` on the trimmed line decides whether the line contains
the operator after an even number of quote characters. -/
theorem findOutsideQuotes_trim (ch : Char) (hq : ch ≠ quote) (hsp : isspace ch = false)
    (line : Str) : findOutsideQuotes (_trim line) ch ≠ none ↔ containsAfterEvenQuotes line ch := by
  rw [← findOutsideQuotes_ne_none ch hq]
  obtain ⟨pre, post, hpre, hpost, hs⟩ := _trim_decomp line
  conv_rhs => rw [hs]
  rw [ne_eq, ne_eq, findOutsideQuotes_blank_append ch hsp _ _ _ hpre hpost]

/-! ## The split point of redirections and pipes -/

/-- C5, at the lines `echo '>' > f` and `echo '|' | wc`: the first is created
as a Redirection and split at index 6, the `>` between the quotes (one quote
precedes it), so that the command part is `echo '` and the file opened is
`' > f`; the second is created as a Pipe and split at index 6, the `|` between
the quotes, into `echo '` and `' | wc`. -/
theorem C5_split_at_quoted_operator :
    (createdKind "echo '>' > f".toList = .ok (some .RedirectionCommand) ∧
      RedirectionCommand.parse "echo '>' > f".toList =
        some (6, false, "echo '".toList, "' > f".toList) ∧
      "echo '>' > f".toList[6]? = some '>' ∧
      ¬ outsideQuotes "echo '>' > f".toList 6 ∧
      (executeCommand plainOS 1 SmallShell.init "echo '>' > f".toList).state.log.head? =
        some (.open "' > f".toList false 3)) ∧
    (createdKind "echo '|' | wc".toList = .ok (some .PipeCommand) ∧
      PipeCommand.parse "echo '|' | wc".toList =
        .ok (some (6, false, "echo '".toList, "' | wc".toList)) ∧
      "echo '|' | wc".toList[6]? = some '|' ∧
      ¬ outsideQuotes "echo '|' | wc".toList 6) := by
  refine ⟨⟨?_, ?_, ?_, ?_, ?_⟩, ?_, ?_, ?_, ?_⟩ <;> decide!

/-! ## The background marker -/

/-- C6, at a line of one space: `_isBackgroundComamnd` reads `str[npos]`, outside
the string, where `_removeBackgroundSign` and `_removeBackgroundSignString`
return at `npos`; the line reaches it through `executeCommand` when `x` is
typed after `alias x=' '`. -/
theorem C6_isBackgroundComamnd_whitespace_line :
    _isBackgroundComamnd " ".toList = .error Fault.undefined_behaviour ∧
    _removeBackgroundSign " ".toList = " ".toList ∧
    _removeBackgroundSignString " ".toList = " ".toList ∧
    afterAliasBlank.fault = none ∧
    afterAliasBlank.state.reproduceWithAlias "x".toList = .ok " ".toList ∧
    (executeCommand plainOS 0 afterAliasBlank.state "x".toList).fault =
      some Fault.undefined_behaviour := by
  decide!

/-- C7, at the line `jobs&`: `executeCommand` selects an External command, run
at the background call site with the argument list `jobs`, forks a child and
registers it as job 1, while `CreateCommand` gives the stripped line `jobs` the
class of the `jobs` builtin. -/
theorem C7_jobs_amp_runs_external :
    endsWithMarker "jobs&".toList ∧
    withoutMarker "jobs&".toList = "jobs".toList ∧
    createdKind "jobs".toList = .ok (some .JobsCommand) ∧
    selected (selectCommand SmallShell.init "jobs&".toList) =
      .ok (some (.ExternalCommand, ["jobs"], .background)) ∧
    (executeCommand plainOS 0 SmallShell.init "jobs&".toList).state.log.head? =
      some (.fork 100) ∧
    (executeCommand plainOS 0 SmallShell.init "jobs&".toList).state.jobsShown =
      [(1, 100, "jobs&")] := by
  decide!

/-- C8 as stated fails at two inputs. The line `jobs & &` runs the `jobs`
builtin with the argument list `jobs`, while the line without the marker,
`jobs &`, has the arguments `jobs` and `&`. After `alias du='ls'` (accepted,
`du` not being a reserved word) the line `du &` runs the External command `ls`
in the background and registers it as job 1. -/
theorem C8_counterexample :
    (endsWithMarker "jobs & &".toList ∧
      (tokens "jobs & &".toList).head? = some "jobs".toList ∧
      selected (selectCommand SmallShell.init "jobs & &".toList) =
        .ok (some (.JobsCommand, ["jobs"], .builtinStripped)) ∧
      (tokens (withoutMarker "jobs & &".toList)).map String.mk = ["jobs", "&"]) ∧
    (afterAliasDu.fault = none ∧
      (tokens "du &".toList).head? = some "du".toList ∧
      selected (selectCommand afterAliasDu.state "du &".toList) =
        .ok (some (.ExternalCommand, ["ls"], .background)) ∧
      (executeCommand plainOS 0 afterAliasDu.state "du &".toList).state.jobsShown =
        [(1, 100, "du &")]) := by
  decide!

/-- C9 as stated fails at `a | b &` and at `sleep 5 > f &`: both are selected
with the background flag set, yet the pipe ends with the two blocking waits on
its children and the redirection with the blocking wait on the child of `sleep
5` (before standard output is restored), and after both runs the Job Table is
empty. -/
theorem C9_counterexample :
    (selected (selectCommand SmallShell.init "a | b &".toList) =
        .ok (some (.PipeCommand, ["a", "|", "b"], .background)) ∧
      (executeCommand plainOS 0 SmallShell.init "a | b &".toList).fault = none ∧
      (executeCommand plainOS 0 SmallShell.init "a | b &".toList).state.log =
        [.pipe 0, .fork 101, .fork 102, .close 3, .close 4,
         .waitpid 101 .zero 103 false, .waitpid 102 .zero 104 false] ∧
      (executeCommand plainOS 0 SmallShell.init "a | b &".toList).state.jobsShown = []) ∧
    (selected (selectCommand SmallShell.init "sleep 5 > f &".toList) =
        .ok (some (.RedirectionCommand, ["sleep", "5", ">", "f"], .background)) ∧
      (executeCommand plainOS 1 SmallShell.init "sleep 5 > f &".toList).fault = none ∧
      (executeCommand plainOS 1 SmallShell.init "sleep 5 > f &".toList).state.log =
        [.open "f".toList false 3, .dup 1 4, .dup2 3 1 1, .close 3, .fork 103,
         .waitpid 103 .WUNTRACED 104 false, .dup2 4 1 1, .close 4] ∧
      (executeCommand plainOS 1 SmallShell.init "sleep 5 > f &".toList).state.jobsShown = []) := by
  decide!

/-! ## Alias substitution -/

/-- Appending a space and a token for each token in turn is appending the
tokens, each after one space. -/
theorem foldl_space_append (rest : List Str) (body : Str) :
    rest.foldl (fun result arg => result ++ (' ' :: arg)) body =
      body ++ (rest.map (fun arg => ' ' :: arg)).flatten := by
  induction rest generalizing body with
  | nil => simp
  | cons a rest ih => simp [ih]

/-- `selectCommand` reads the shell state through the alias table only. -/
theorem selectCommand_congr (s t : SmallShell) (line : Str)
    (h : s.m_aliasesMap = t.m_aliasesMap) : selectCommand s line = selectCommand t line := by
  simp only [selectCommand, SmallShell.reproduceWithAlias, SmallShell.isAlias,
    SmallShell.getAliasMeaning, h]

namespace SmallShell

/-- Marking an id keeps the alias table. -/
theorem setJobIdFree_aliases (s s' : SmallShell) (jobId : Int)
    (h : s.setJobIdFree jobId = .ok s') : s'.m_aliasesMap = s.m_aliasesMap := by
  unfold setJobIdFree raise at h
  split_ifs at h
  · cases h; rfl
  · cases h; rfl

/-- The polling loop of `removeFinishedJobs` keeps the alias table. -/
theorem removeFinishedJobs_scan_aliases (os : OS) (m : List (Int × JobPtr)) (s : SmallShell) :
    (removeFinishedJobs.scan os m s).2.m_aliasesMap = s.m_aliasesMap := by
  induction m generalizing s with
  | nil => rfl
  | cons kv m ih =>
    obtain ⟨k, jobPtr⟩ := kv
    simp only [removeFinishedJobs.scan]
    split_ifs
    · rw [ih]; rfl
    · rw [ih]; rfl
    · simp only [ih]; rfl

/-- The removal loop of `removeFinishedJobs` keeps the alias table. -/
theorem removeFinishedJobs_remove_aliases (l : List JobPtr) (s s' : SmallShell)
    (h : removeFinishedJobs.remove l s = .ok s') : s'.m_aliasesMap = s.m_aliasesMap := by
  induction l generalizing s with
  | nil => cases h; rfl
  | cons p l ih =>
    simp only [removeFinishedJobs.remove] at h
    cases hfree : s.setJobIdFree p.obj.m_jobId with
    | error e => rw [hfree] at h; cases h
    | ok s1 =>
      rw [hfree] at h
      have h1 := setJobIdFree_aliases s s1 _ hfree
      have h2 := ih _ h
      rw [h2, ← h1]

/-- `removeFinishedJobs` keeps the alias table. -/
theorem removeFinishedJobs_aliases (os : OS) (s s' : SmallShell)
    (h : s.removeFinishedJobs os = .ok s') : s'.m_aliasesMap = s.m_aliasesMap := by
  unfold removeFinishedJobs at h
  rw [removeFinishedJobs_remove_aliases _ _ _ h, removeFinishedJobs_scan_aliases]

end SmallShell

/-- With the alias table holding `ll='ls -la'` alone, the lines `ll /tmp` and
`ls -la /tmp` select the same command, run at the foreground call site. -/
theorem select_ll (s : SmallShell)
    (h : s.m_aliasesMap = [("ll".toList, "ls -la".toList)]) :
    ∃ cmd, selectCommand s "ll /tmp".toList = .ok (some (cmd, .foreground)) ∧
      selectCommand s "ls -la /tmp".toList = .ok (some (cmd, .foreground)) := by
  have hc : ({ SmallShell.init with m_aliasesMap := [("ll".toList, "ls -la".toList)] } :
      SmallShell).m_aliasesMap = s.m_aliasesMap := by rw [h]
  rw [← selectCommand_congr _ s _ hc, ← selectCommand_congr _ s _ hc]
  refine ⟨{ kind := .ExternalCommand
            m_args := ["ls".toList, "-la".toList, "/tmp".toList]
            m_cmd_line := "ls -la /tmp".toList
            m_args_num := 3
            m_isBackground := false }, ?_, ?_⟩ <;> decide!

/-- C10: for every alias table and every line with at least one token and
fewer than `COMMAND_MAX_ARGS` tokens, `reproduceWithAlias` returns the line
unchanged when the first token is not an alias name, and otherwise the alias
body followed by each remaining token after one space. With the alias `ll='ls
-la'` the line `ll /tmp` becomes `ls -la /tmp`, and `executeCommand` does the
same on both lines. On a line of `COMMAND_MAX_ARGS` tokens or more the function
does not return the line: `_parseCommandLine` stores past the end of the array
`args`. For the line of twenty words the last store is `args[20] = NULL`, and
`executeCommand` ends there. -/
theorem C10_reproduceWithAlias :
    (∀ (s : SmallShell) (line first : Str) (rest : List Str),
      tokens line = first :: rest → (tokens line).length < COMMAND_MAX_ARGS →
      (s.isAlias first = false → s.reproduceWithAlias line = .ok line) ∧
      (∀ body, s.m_aliasesMap.lookup first = some body →
        s.reproduceWithAlias line =
          .ok (body ++ (rest.map (fun arg => ' ' :: arg)).flatten))) ∧
    (∀ (s : SmallShell) (line : Str), COMMAND_MAX_ARGS ≤ (tokens line).length →
      s.reproduceWithAlias line = .error Fault.undefined_behaviour) ∧
    (∀ (os : OS) (depth : Nat) (t : SmallShell),
      t.m_aliasesMap = [("ll".toList, "ls -la".toList)] →
        t.reproduceWithAlias "ll /tmp".toList = .ok "ls -la /tmp".toList ∧
        executeCommand os depth t "ll /tmp".toList =
          executeCommand os depth t "ls -la /tmp".toList) ∧
    ((tokens twentyWords).length = 20 ∧
      (_parseCommandLine.stores twentyWords).getLast? = some (20, none) ∧
      SmallShell.init.reproduceWithAlias twentyWords = .error Fault.undefined_behaviour ∧
      (executeCommand plainOS 0 SmallShell.init twentyWords).fault =
        some Fault.undefined_behaviour) := by
  refine ⟨?_, ?_, ?_, by decide!⟩
  · intro s line first rest h hlen
    refine ⟨?_, ?_⟩
    · intro hno
      unfold SmallShell.reproduceWithAlias
      rw [_parseCommandLine_ok _ _ hlen, h]
      simp only [hno, Bool.false_eq_true, if_false]
    · intro body hbody
      unfold SmallShell.reproduceWithAlias
      rw [_parseCommandLine_ok _ _ hlen, h]
      have hyes : s.isAlias first = true := by
        unfold SmallShell.isAlias; rw [hbody]; rfl
      simp only [hyes, if_true, SmallShell.getAliasMeaning, hbody]
      rw [← foldl_space_append]
      rfl
  · intro s line hlen
    have hne : tokens line ≠ [] := by
      intro h0
      rw [h0] at hlen
      simp [COMMAND_MAX_ARGS] at hlen
    unfold SmallShell.reproduceWithAlias
    rw [_parseCommandLine_overflow _ _ hlen hne]
  · intro os depth t ht
    constructor
    · have hp : _parseCommandLine COMMAND_MAX_ARGS "ll /tmp".toList =
          .ok ["ll".toList, "/tmp".toList] := by decide
      unfold SmallShell.reproduceWithAlias
      rw [hp]
      simp only [SmallShell.isAlias, SmallShell.getAliasMeaning, ht]
      decide
    · have hbody : ∀ nested : SmallShell → Str → Run SmallShell,
          executeCommand.body os nested t "ll /tmp".toList =
            executeCommand.body os nested t "ls -la /tmp".toList := by
        intro nested
        have h1 : _trim "ll /tmp".toList ≠ [] := by decide
        have h2 : _trim "ls -la /tmp".toList ≠ [] := by decide
        unfold executeCommand.body
        rw [if_neg h1, if_neg h2]
        cases hrf : t.removeFinishedJobs os with
        | error e => rfl
        | ok t1 =>
          have hal := SmallShell.removeFinishedJobs_aliases os t t1 hrf
          obtain ⟨cmd, hs1, hs2⟩ := select_ll t1 (by rw [hal, ht])
          simp only [bind, Except.bind, hs1, hs2, SmallShell.lift]
          rfl
      cases depth with
      | zero => exact hbody _
      | succ n => exact hbody _

/-! ## Frames: what a run may add to the log and to the Job Table -/

section Frames

variable {P : Event → Prop} {Q : JobEntry → Prop}

theorem Frame.refl (s : SmallShell) : Frame P Q s s :=
  ⟨⟨[], by simp, by simp⟩, fun kv h => Or.inl h⟩

theorem Frame.trans {a b c : SmallShell} (h1 : Frame P Q a b) (h2 : Frame P Q b c) :
    Frame P Q a c := by
  obtain ⟨⟨e1, hl1, hp1⟩, hj1⟩ := h1
  obtain ⟨⟨e2, hl2, hp2⟩, hj2⟩ := h2
  refine ⟨⟨e1 ++ e2, by rw [hl2, hl1, List.append_assoc], ?_⟩, ?_⟩
  · intro e he
    rcases List.mem_append.1 he with he | he
    · exact hp1 e he
    · exact hp2 e he
  · intro kv hkv
    rcases hj2 kv hkv with h | h
    · exact hj1 kv h
    · exact Or.inr h

theorem Frame.mono {P' : Event → Prop} {Q' : JobEntry → Prop} {a b : SmallShell}
    (hP : ∀ e, P e → P' e) (hQ : ∀ j, Q j → Q' j) (h : Frame P Q a b) : Frame P' Q' a b := by
  obtain ⟨⟨e1, hl1, hp1⟩, hj1⟩ := h
  exact ⟨⟨e1, hl1, fun e he => hP e (hp1 e he)⟩, fun kv hkv => (hj1 kv hkv).imp id (hQ _)⟩

/-- A state with the same log and a Job Table that lost records at most. -/
theorem Frame.of_subset {s s' : SmallShell} (hlog : s'.log = s.log)
    (hjobs : ∀ kv ∈ s'.m_jobsMap, kv ∈ s.m_jobsMap) : Frame P Q s s' :=
  ⟨⟨[], by simp [hlog], by simp⟩, fun kv h => Or.inl (hjobs kv h)⟩

/-- A state with the same log and the same Job Table. -/
theorem Frame.of_eq {s s' : SmallShell} (hlog : s'.log = s.log)
    (hjobs : s'.m_jobsMap = s.m_jobsMap) : Frame P Q s s' :=
  Frame.of_subset hlog (fun kv h => hjobs ▸ h)

theorem Frame.emit (s : SmallShell) (e : Event) (he : P e) : Frame P Q s (s.emit e) :=
  ⟨⟨[e], rfl, by simpa using he⟩, fun kv h => Or.inl h⟩

/-- The frame of a sequence of two runs. -/
theorem Frame.bind {s : SmallShell} (x : Run SmallShell) (g : SmallShell → Run SmallShell)
    (hx : Frame P Q s x.state) (hg : ∀ s1, x = .ok s1 → Frame P Q s1 (g s1).state) :
    Frame P Q s (x >>= g).state := by
  cases x with
  | error e => exact hx
  | ok s1 => exact Frame.trans hx (hg s1 rfl)

/-- The frame of a run that returns a value, followed by another run. -/
theorem Frame.bind₂ {α : Type} {s : SmallShell} (x : Run (α × SmallShell))
    (g : α × SmallShell → Run SmallShell)
    (hx : Frame P Q s x.state₂)
    (hg : ∀ a s1, x = .ok (a, s1) → Frame P Q s1 (g (a, s1)).state) :
    Frame P Q s (x >>= g).state := by
  cases x with
  | error e => exact hx
  | ok p => obtain ⟨a, s1⟩ := p; exact Frame.trans hx (hg a s1 rfl)

namespace SmallShell

@[simp] theorem state_ok (s : SmallShell) : Run.state (Except.ok s) = s := rfl

@[simp] theorem state_pure (s : SmallShell) : Run.state (pure s) = s := rfl

@[simp] theorem state_raise (s : SmallShell) (f : Fault) :
    Run.state (s.raise f : Run SmallShell) = s := rfl

@[simp] theorem state₂_ok {α : Type} (a : α) (s : SmallShell) :
    Run.state₂ (Except.ok (a, s)) = s := rfl

@[simp] theorem state₂_pure {α : Type} (a : α) (s : SmallShell) :
    Run.state₂ (pure (a, s)) = s := rfl

@[simp] theorem state₂_raise {α : Type} (s : SmallShell) (f : Fault) :
    Run.state₂ (s.raise f : Run (α × SmallShell)) = s := rfl

/-- A state whose log grew by events of `P` and whose Job Table is unchanged. -/
theorem frame_leaf {s t : SmallShell} (hlog : ∃ ext, t.log = s.log ++ ext ∧ ∀ e ∈ ext, P e)
    (hjobs : t.m_jobsMap = s.m_jobsMap) : Frame P Q s t :=
  ⟨hlog, fun kv h => Or.inl (hjobs ▸ h)⟩

theorem frame_setJobIdFree (s : SmallShell) (jobId : Int) :
    Frame P Q s (s.setJobIdFree jobId).state := by
  unfold setJobIdFree raise
  split_ifs <;> exact Frame.of_eq rfl rfl

theorem frame_setJobIdUsed (s : SmallShell) (jobId : Int) :
    Frame P Q s (s.setJobIdUsed jobId).state := by
  unfold setJobIdUsed raise
  split_ifs <;> exact Frame.of_eq rfl rfl

theorem frame_updateSmashAfterCjFinished (s : SmallShell) :
    Frame P Q s s.updateSmashAfterCjFinished.state := by
  unfold updateSmashAfterCjFinished
  apply Frame.bind _ _ (frame_setJobIdFree s _)
  intro s1 _
  exact Frame.of_eq rfl rfl

theorem frame_ctrlCHandler (hP : ∀ e, e.isFork = false → P e) (os : OS) (s : SmallShell) :
    Frame P Q s (s.ctrlCHandler os).state := by
  unfold ctrlCHandler
  simp only [bind_pure_comp, pure_bind]
  split_ifs
  · apply frame_leaf <;> simp [cout, emit, hP, Event.isFork]
  · apply frame_leaf <;> simp [cout, cerr, emit, sys, hP, Event.isFork]
  · refine Frame.trans ?_ (frame_updateSmashAfterCjFinished _)
    apply frame_leaf <;> simp [cout, cerr, emit, sys, hP, Event.isFork]

theorem mem_mapInsert {key : Int} {value : JobPtr} {m : List (Int × JobPtr)}
    {kv : Int × JobPtr} (h : kv ∈ mapInsert key value m) : kv = (key, value) ∨ kv ∈ m := by
  induction m with
  | nil => left; simpa [mapInsert] using h
  | cons a m ih =>
    obtain ⟨k, v⟩ := a
    simp only [mapInsert] at h
    split_ifs at h
    · rcases List.mem_cons.1 h with h | h
      · left; exact h
      · right; exact h
    · right; exact h
    · rcases List.mem_cons.1 h with h | h
      · right; rw [h]; exact List.mem_cons_self _ _
      · rcases ih h with h | h
        · left; exact h
        · right; exact List.mem_cons_of_mem _ h

theorem mem_mapErase {jobId : Int} {m : List (Int × JobPtr)} {kv : Int × JobPtr}
    (h : kv ∈ mapErase m jobId) : kv ∈ m :=
  List.mem_of_mem_filter h

theorem frame_scan (hP : ∀ e, e.isFork = false → P e) (os : OS) (m : List (Int × JobPtr))
    (s : SmallShell) : Frame P Q s (removeFinishedJobs.scan os m s).2 := by
  induction m generalizing s with
  | nil => exact Frame.refl s
  | cons kv m ih =>
    obtain ⟨k, jobPtr⟩ := kv
    simp only [removeFinishedJobs.scan]
    split_ifs
    · refine Frame.trans ?_ (ih _)
      apply frame_leaf <;> simp [cerr, emit, sys, hP, Event.isFork]
    · refine Frame.trans ?_ (ih _)
      apply frame_leaf <;> simp [emit, sys, hP, Event.isFork]
    · refine Frame.trans ?_ (ih _)
      apply frame_leaf <;> simp [emit, sys, hP, Event.isFork]

theorem frame_remove (l : List JobPtr) (s : SmallShell) :
    Frame P Q s (removeFinishedJobs.remove l s).state := by
  induction l generalizing s with
  | nil => exact Frame.refl s
  | cons p l ih =>
    simp only [removeFinishedJobs.remove]
    apply Frame.bind _ _ (frame_setJobIdFree s _)
    intro s1 _
    refine Frame.trans ?_ (ih _)
    exact Frame.of_subset rfl (fun kv h => mem_mapErase h)

theorem frame_removeFinishedJobs (hP : ∀ e, e.isFork = false → P e) (os : OS)
    (s : SmallShell) : Frame P Q s (s.removeFinishedJobs os).state := by
  unfold removeFinishedJobs
  exact Frame.trans (frame_scan hP os _ s) (frame_remove _ _)

theorem frame_killAllJobs_loop (hP : ∀ e, e.isFork = false → P e) (os : OS)
    (m : List (Int × JobPtr)) (s : SmallShell) :
    Frame P Q s (killAllJobs.loop os m s).state := by
  induction m generalizing s with
  | nil => exact Frame.refl s
  | cons kv m ih =>
    obtain ⟨k, jobPtr⟩ := kv
    simp only [killAllJobs.loop]
    apply Frame.bind _ _ (frame_setJobIdFree s _)
    intro s1 _
    refine Frame.trans ?_ (ih _)
    apply frame_leaf <;> simp [emit, sys, hP, Event.isFork]

theorem frame_killAllJobs (hP : ∀ e, e.isFork = false → P e) (os : OS) (s : SmallShell) :
    Frame P Q s (s.killAllJobs os).state := by
  unfold killAllJobs
  simp only [bind_pure_comp, pure_bind]
  refine Frame.trans (b := { s with m_runningJobsQueue := [], m_stoppedJobsQueue := [] })
    (Frame.of_eq rfl rfl) ?_
  have h := frame_killAllJobs_loop (P := P) (Q := Q) hP os s.m_jobsMap
    { s with m_runningJobsQueue := [], m_stoppedJobsQueue := [] }
  cases hl : killAllJobs.loop os s.m_jobsMap
      { s with m_runningJobsQueue := [], m_stoppedJobsQueue := [] } with
  | error e => rw [hl] at h; exact h
  | ok s1 =>
    rw [hl] at h
    refine Frame.trans h ?_
    exact Frame.of_subset rfl (fun kv hkv => by cases hkv)

theorem frame_addJob (os : OS) (s : SmallShell) (pid : Int) (line : Str) (isStopped : Bool)
    (jobId : Int) (text : Str) (hQ : ∀ j : JobEntry, j.m_isStopped = isStopped → Q j) :
    Frame P Q s (s.addJob os pid line isStopped jobId text).state := by
  unfold addJob
  simp only [bind_pure_comp, pure_bind, sys]
  refine Frame.bind _ _ ?_ ?_
  · exact Frame.trans (Frame.of_eq rfl rfl) (frame_setJobIdUsed _ _)
  · intro s1 _
    refine ⟨⟨[], ?_, by simp⟩, ?_⟩
    · split_ifs <;> simp
    · intro kv hkv
      have hmem : ∃ obj : JobEntry, obj.m_isStopped = isStopped ∧
          kv ∈ mapInsert obj.m_jobId ⟨s.heap, obj⟩ s1.m_jobsMap := by
        cases isStopped
        · simp only [Bool.false_eq_true, if_false, state_pure] at hkv
          exact ⟨_, rfl, hkv⟩
        · simp only [if_true, state_pure] at hkv
          exact ⟨_, rfl, hkv⟩
      obtain ⟨obj, hobj, hmem⟩ := hmem
      rcases mem_mapInsert hmem with h | h
      · right; rw [h]; exact hQ _ hobj
      · left; exact h

theorem frame_addBGJob (os : OS) (s : SmallShell) (pid : Int) (line : Str) (isStopped : Bool)
    (jobId : Int) (text : Str) (hQ : ∀ j : JobEntry, j.m_isStopped = isStopped → Q j) :
    Frame P Q s (s.addBGJob os pid line isStopped jobId text).state :=
  frame_addJob os s pid line isStopped jobId _ hQ

theorem frame_waitpidBlocking (hP : ∀ e, e.isFork = false → P e) (os : OS) (s : SmallShell)
    (pid : Int) (options : WaitOptions) :
    Frame P Q s (s.waitpidBlocking os pid options).state₂ := by
  unfold waitpidBlocking
  simp only [bind_pure_comp, pure_bind, sys]
  split_ifs
  · have h := frame_ctrlCHandler (P := P) (Q := Q) hP os { s with tick := s.tick + 1 }
    cases hc : ctrlCHandler os { s with tick := s.tick + 1 } with
    | error e => rw [hc] at h; exact Frame.trans (Frame.of_eq rfl rfl) h
    | ok s1 =>
      rw [hc] at h
      refine Frame.trans (Frame.of_eq rfl rfl) (Frame.trans h ?_)
      exact Frame.emit _ _ (hP _ rfl)
  · exact Frame.trans (Frame.of_eq rfl rfl) (Frame.emit _ _ (hP _ rfl))

theorem frame_cerr_step (hP : ∀ e, e.isFork = false → P e) (s : SmallShell) (text : Str) :
    Frame P Q s (s.cerr text) := Frame.emit s _ (hP _ rfl)

theorem frame_cout_step (hP : ∀ e, e.isFork = false → P e) (s : SmallShell) (text : Str) :
    Frame P Q s (s.cout text) := Frame.emit s _ (hP _ rfl)

theorem frame_setBGJobToFGbyJID (s : SmallShell) (job : Int) :
    Frame P Q s (s.setBGJobToFGbyJID job).state := by
  unfold setBGJobToFGbyJID
  split
  · exact Frame.of_eq rfl rfl
  · exact Frame.refl s

theorem frame_removeBGjobByJID (s : SmallShell) (jobId : Int) :
    Frame P Q s (s.removeBGjobByJID jobId) := by
  unfold removeBGjobByJID
  split
  · exact Frame.refl s
  · exact Frame.of_subset rfl (fun kv h => mem_mapErase h)

theorem frame_foldl {α : Type} (l : List α) (g : SmallShell → α → SmallShell)
    (hg : ∀ s a, Frame P Q s (g s a)) (s : SmallShell) : Frame P Q s (l.foldl g s) := by
  induction l generalizing s with
  | nil => exact Frame.refl s
  | cons a l ih => exact Frame.trans (hg s a) (ih _)

theorem frame_printAllAliases (hP : ∀ e, e.isFork = false → P e) (s : SmallShell) :
    Frame P Q s s.printAllAliases := by
  unfold printAllAliases
  apply frame_foldl
  intro t key
  split
  · exact frame_cout_step hP t _
  · exact Frame.refl t

end SmallShell

open SmallShell

theorem frame_JobsCommand (hP : ∀ e, e.isFork = false → P e) (s : SmallShell) :
    Frame P Q s (JobsCommand.execute s) := by
  unfold JobsCommand.execute
  apply frame_foldl
  intro t job
  exact frame_cout_step hP t _

theorem frame_promote (hP : ∀ e, e.isFork = false → P e) (os : OS) (s : SmallShell)
    (jobId : Int) : Frame P Q s (ForegroundCommand.promote os s jobId).state := by
  unfold ForegroundCommand.promote
  simp only [bind_pure_comp, pure_bind]
  apply Frame.bind _ _ (frame_setBGJobToFGbyJID s _)
  intro s1 _
  simp only [Functor.map, Except.map, state_ok]
  refine Frame.trans ?_ (frame_removeBGjobByJID _ _)
  split_ifs
  · apply frame_leaf <;> simp [cout, emit, sys, hP, Event.isFork]
  · apply frame_leaf <;> simp [cout, emit, sys, hP, Event.isFork]

theorem frame_fg_afterWait (hP : ∀ e, e.isFork = false → P e) (os : OS) (s : SmallShell)
    (status : Answer) :
    Frame P (fun j => j.m_isStopped = true) s (ForegroundCommand.afterWait os s status).state := by
  unfold ForegroundCommand.afterWait
  split_ifs
  · exact Frame.trans (frame_cerr_step hP s _) (frame_updateSmashAfterCjFinished _)
  · simp only [sys]
    refine Frame.trans ?_ (frame_addBGJob os _ _ _ true _ _ (fun j hj => hj))
    exact Frame.of_eq rfl rfl
  · exact frame_updateSmashAfterCjFinished _

theorem frame_fg_select (hP : ∀ e, e.isFork = false → P e) (s : SmallShell) (cmd : Command) :
    Frame P Q s (ForegroundCommand.select s cmd).state₂ := by
  unfold ForegroundCommand.select
  cases hg : cmd.getArg 1 <;>
    simp only [SmallShell.lift, bind, Except.bind, pure, Except.pure] <;>
    repeat' split
  all_goals first
    | exact Frame.refl s
    | exact frame_cerr_step hP s _

theorem frame_ForegroundCommand (hP : ∀ e, e.isFork = false → P e) (os : OS) (s : SmallShell)
    (cmd : Command) :
    Frame P (fun j => j.m_isStopped = true) s (ForegroundCommand.execute os s cmd).state := by
  unfold ForegroundCommand.execute
  apply Frame.bind₂ _ _ (frame_fg_select hP s cmd)
  intro a s1 _
  cases a with
  | none => exact Frame.refl s1
  | some jobId =>
    simp only
    apply Frame.bind _ _ (frame_promote hP os s1 jobId)
    intro s2 _
    apply Frame.bind₂ _ _ (frame_waitpidBlocking hP os s2 _ _)
    intro status s3 _
    exact frame_fg_afterWait hP os s3 status

theorem frame_isJobIdUsed (s : SmallShell) (i : Int) (e : Fault × SmallShell)
    (h : s.isJobIdUsed i = .error e) : e.2 = s := by
  unfold isJobIdUsed raise at h
  split_ifs at h
  cases h
  rfl

theorem frame_printLoop (hP : ∀ e, e.isFork = false → P e) (ids : List Nat) (s : SmallShell) :
    Frame P Q s (QuitCommand.printLoop ids s).state := by
  induction ids generalizing s with
  | nil => exact Frame.refl s
  | cons i ids ih =>
    simp only [QuitCommand.printLoop]
    cases hu : s.isJobIdUsed i with
    | error e =>
      have := frame_isJobIdUsed s i e hu
      obtain ⟨f, t⟩ := e
      simp only at this
      subst this
      exact Frame.refl _
    | ok b =>
      simp only [bind, Except.bind]
      repeat' split
      all_goals first
        | exact ih _
        | exact Frame.refl s
        | exact Frame.trans (frame_cout_step hP s _) (ih _)

theorem frame_killForeground (hP : ∀ e, e.isFork = false → P e) (os : OS) (s : SmallShell) :
    Frame P Q s (QuitCommand.killForeground os s) := by
  unfold QuitCommand.killForeground
  simp only
  repeat' split
  all_goals first
    | exact Frame.refl s
    | (apply frame_leaf <;> simp [emit, sys, hP, Event.isFork])

theorem frame_killAll (hP : ∀ e, e.isFork = false → P e) (os : OS) (s : SmallShell) :
    Frame P Q s (QuitCommand.killAll os s).state := by
  unfold QuitCommand.killAll
  apply Frame.bind
  · exact Frame.trans (frame_cout_step hP s _) (frame_printLoop hP _ _)
  · intro s1 _
    exact frame_killAllJobs hP os s1

theorem frame_QuitCommand (hP : ∀ e, e.isFork = false → P e) (os : OS) (s : SmallShell)
    (cmd : Command) : Frame P Q s (QuitCommand.execute os s cmd).state := by
  unfold QuitCommand.execute
  refine Frame.trans (frame_killForeground hP os s) ?_
  generalize QuitCommand.killForeground os s = t
  cases hw : QuitCommand.withKill cmd with
  | error e => exact Frame.refl t
  | ok b =>
    simp only [SmallShell.lift, bind, Except.bind]
    cases b
    · exact Frame.refl t
    · simp only [if_true]
      have h := frame_killAll (P := P) (Q := Q) hP os t
      cases hk : QuitCommand.killAll os t with
      | error e => rw [hk] at h; exact h
      | ok t1 => rw [hk] at h; exact h

theorem frame_KillCommand (hP : ∀ e, e.isFork = false → P e) (os : OS) (s : SmallShell)
    (cmd : Command) : Frame P Q s (KillCommand.execute os s cmd).state := by
  unfold KillCommand.execute
  cases hg1 : cmd.getArg 1 <;> cases hg2 : cmd.getArg 2 <;>
    simp only [SmallShell.lift, bind, Except.bind, pure, Except.pure] <;>
    repeat' split
  all_goals first
    | exact Frame.refl s
    | exact frame_cerr_step hP s _
    | (apply frame_leaf <;> simp [cout, cerr, emit, sys, hP, Event.isFork])

theorem frame_AliasCommand (hP : ∀ e, e.isFork = false → P e) (s : SmallShell)
    (cmd : Command) : Frame P Q s (AliasCommand.execute s cmd).state := by
  unfold AliasCommand.execute SmallShell.addAlias
  repeat' split
  all_goals first
    | exact frame_printAllAliases hP s
    | exact Frame.refl s
    | exact frame_cerr_step hP s _

theorem frame_UnAliasCommand_loop (hP : ∀ e, e.isFork = false → P e) (l : List Str)
    (s : SmallShell) : Frame P Q s (UnAliasCommand.loop l s).state := by
  induction l generalizing s with
  | nil => exact Frame.refl s
  | cons a l ih =>
    simp only [UnAliasCommand.loop]
    split_ifs with h
    · unfold SmallShell.removeAlias
      simp only [h, Bool.not_true, Bool.false_eq_true, if_false, bind, Except.bind]
      exact Frame.trans (Frame.of_eq rfl rfl) (ih _)
    · exact frame_cerr_step hP s _

theorem frame_UnAliasCommand (hP : ∀ e, e.isFork = false → P e) (s : SmallShell)
    (cmd : Command) : Frame P Q s (UnAliasCommand.execute s cmd).state := by
  unfold UnAliasCommand.execute
  split_ifs
  · exact frame_cerr_step hP s _
  · exact frame_UnAliasCommand_loop hP _ s

theorem frame_DiskUsageCommand (hP : ∀ e, e.isFork = false → P e) (s : SmallShell)
    (cmd : Command) : Frame P Q s (DiskUsageCommand.execute s cmd).state := by
  unfold DiskUsageCommand.execute
  split
  · exact Frame.refl s
  · exact Frame.emit _ _ (hP _ rfl)

/-- The frame of `execute` for every class but `PipeCommand`,
`RedirectionCommand` and `ExternalCommand`: no `fork`, and no record added to
the Job Table but stopped ones. -/
theorem frame_builtin_execute (hP : ∀ e, e.isFork = false → P e) (os : OS)
    (nested : SmallShell → Str → Run SmallShell) (s : SmallShell) (cmd : Command)
    (h1 : cmd.kind ≠ .PipeCommand) (h2 : cmd.kind ≠ .RedirectionCommand)
    (h3 : cmd.kind ≠ .ExternalCommand) :
    Frame P (fun j => j.m_isStopped = true) s (cmd.execute os nested s).state := by
  unfold Command.execute
  cases hk : cmd.kind <;> simp only [hk, ne_eq, not_true_eq_false] at h1 h2 h3 ⊢
  all_goals first
    | exact Frame.emit _ _ (hP _ rfl)
    | exact frame_JobsCommand hP s
    | exact frame_ForegroundCommand hP os s cmd
    | exact frame_QuitCommand hP os s cmd
    | exact frame_KillCommand hP os s cmd
    | exact frame_AliasCommand hP s cmd
    | exact frame_UnAliasCommand hP s cmd
    | exact frame_DiskUsageCommand hP s cmd

end Frames

/-! ## The marker and the first token -/

/-- Dropping the whitespace that starts a string of a blank part followed by
`rest`. -/
theorem dropWhile_blank_append (b rest : Str) (hb : isBlank b) :
    (b ++ rest).dropWhile isspace = rest.dropWhile isspace := by
  induction b with
  | nil => rfl
  | cons c b ih =>
    have hc : isspace c = true := hb c (List.mem_cons_self _ _)
    simp only [List.cons_append, List.dropWhile_cons, hc, if_true]
    exact ih (fun d hd => hb d (List.mem_cons_of_mem _ hd))

/-- The reverse of a blank string is blank. -/
theorem isBlank_reverse (b : Str) (hb : isBlank b) : isBlank b.reverse :=
  fun c hc => hb c (List.mem_reverse.1 hc)

/-- Reading `pre ++ c :: post` from its end, past the blank `post`, the first
character met is `c`. -/
theorem reverse_dropWhile (pre post : Str) (c : Char) (hc : isspace c = false)
    (hpost : isBlank post) :
    (pre ++ c :: post).reverse.dropWhile isspace = c :: pre.reverse := by
  rw [List.reverse_append, List.reverse_cons, List.append_assoc,
    dropWhile_blank_append _ _ (isBlank_reverse post hpost)]
  simp [List.dropWhile_cons, hc]

/-- Reading a blank string from its end, nothing but whitespace is met. -/
theorem reverse_dropWhile_blank (b : Str) (hb : isBlank b) :
    b.reverse.dropWhile isspace = [] := by
  have := dropWhile_blank_append b.reverse [] (isBlank_reverse b hb)
  simpa using this

/-- `_rtrim` is the string without the whitespace that ends it. -/
theorem _rtrim_eq (s : Str) : _rtrim s = (s.reverse.dropWhile isspace).reverse := by
  rcases blank_or_last s with hb | ⟨pre, c, post, rfl, hc, hpost⟩
  · rw [_rtrim_blank s hb, reverse_dropWhile_blank s hb]; rfl
  · rw [_rtrim_append pre post c hc hpost, reverse_dropWhile pre post c hc hpost]
    simp

/-- Whitespace after a string does not change its `_rtrim`. -/
theorem _rtrim_append_blank (s post : Str) (hpost : isBlank post) :
    _rtrim (s ++ post) = _rtrim s := by
  rw [_rtrim_eq, _rtrim_eq, List.reverse_append,
    dropWhile_blank_append _ _ (isBlank_reverse post hpost)]

/-- A line ends with the marker exactly when it is some text, `&` and a blank
tail. -/
theorem endsWithMarker_iff (line : Str) :
    endsWithMarker line ↔ ∃ pre post, line = pre ++ '&' :: post ∧ isBlank post := by
  unfold endsWithMarker
  constructor
  · intro h
    rcases blank_or_last line with hb | ⟨pre, c, post, rfl, hc, hpost⟩
    · rw [reverse_dropWhile_blank line hb] at h; cases h
    · rw [reverse_dropWhile pre post c hc hpost] at h
      simp only [List.head?_cons, Option.some.injEq] at h
      exact ⟨pre, post, by rw [h], hpost⟩
  · rintro ⟨pre, post, rfl, hpost⟩
    rw [reverse_dropWhile pre post '&' (by decide) hpost]
    rfl

/-- The line without its marker is the text before the `&`, trimmed on the
right. -/
theorem withoutMarker_append (pre post : Str) (hpost : isBlank post) :
    withoutMarker (pre ++ '&' :: post) = _rtrim pre := by
  unfold withoutMarker
  rw [reverse_dropWhile pre post '&' (by decide) hpost, _rtrim_eq]
  rfl

/-- The character at the index that the length of `pre` gives in
`pre ++ c :: post`. -/
theorem getElem?_append_cons (pre post : Str) (c : Char) :
    (pre ++ c :: post)[pre.length]? = some c := by
  induction pre with
  | nil => simp
  | cons a pre ih => simpa using ih

/-- `_isBackgroundComamnd` on a line that ends, up to whitespace, with `c`. -/
theorem _isBackgroundComamnd_append (pre post : Str) (c : Char) (hc : isspace c = false)
    (hpost : isBlank post) :
    _isBackgroundComamnd (pre ++ c :: post) = .ok (c == '&') := by
  unfold _isBackgroundComamnd
  have hne : pre ++ c :: post ≠ [] := by simp
  rw [if_neg hne, find_last_not_of_append pre post c hc hpost]
  simp only [getElem?_append_cons]
  by_cases h : c = '&' <;> simp [h]

/-- `_removeBackgroundSign` writes a space over the marker and cuts the line
right after it. -/
theorem _removeBackgroundSign_append (pre post : Str) (hpost : isBlank post) :
    _removeBackgroundSign (pre ++ '&' :: post) = pre ++ [' '] := by
  unfold _removeBackgroundSign find_last_not_of_from
  have hamp : isspace '&' = false := by decide
  simp only [find_last_not_of_append pre post '&' hamp hpost]
  have hget : (pre ++ '&' :: post)[pre.length]? = some '&' := getElem?_append_cons pre post '&'
  have htake : (pre ++ '&' :: post).take (pre.length + 1) = pre ++ '&' :: [] := by
    simp [List.take_append_eq_append_take]
  rw [htake, find_last_not_of_append pre [] '&' hamp (fun c hc => by cases hc)]
  simp [hget, List.take_append_eq_append_take]

/-- `_removeBackgroundSignString` returns the text before the marker, trimmed on
the right. -/
theorem _removeBackgroundSignString_append (pre post : Str) (hpost : isBlank post) :
    _removeBackgroundSignString (pre ++ '&' :: post) = _rtrim pre := by
  unfold _removeBackgroundSignString
  have hamp : isspace '&' = false := by decide
  have hne : pre ++ '&' :: post ≠ [] := by simp
  rw [if_neg hne]
  simp only [find_last_not_of_append pre post '&' hamp hpost]
  have hget : (pre ++ '&' :: post)[pre.length]? = some '&' := getElem?_append_cons pre post '&'
  have hcut : (pre ++ '&' :: post).take pre.length ++ (pre ++ '&' :: post).drop (pre.length + 1)
      = pre ++ post := by
    simp [List.take_append_eq_append_take, List.drop_append_eq_append_drop]
  simp only [hget, beq_self_eq_true, if_true, hcut]
  rw [← _rtrim_append_blank pre post hpost]
  rfl

/-- `_removeBackgroundSignString` computes the line without its marker. -/
theorem _removeBackgroundSignString_eq (line : Str) (h : endsWithMarker line) :
    _removeBackgroundSignString line = withoutMarker line := by
  obtain ⟨pre, post, rfl, hpost⟩ := (endsWithMarker_iff _).1 h
  rw [_removeBackgroundSignString_append pre post hpost, withoutMarker_append pre post hpost]

/-- The tokens of a string are those of its `_rtrim`. -/
theorem tokens_rtrim (s : Str) : tokens (_rtrim s) = tokens s := by
  rcases blank_or_last s with hb | ⟨pre, c, post, rfl, hc, hpost⟩
  · rw [_rtrim_blank s hb, (tokens_eq_nil s).2 hb]
    rfl
  · rw [_rtrim_append pre post c hc hpost]
    have := tokens_blank_append [] (pre ++ [c]) post (fun d hd => by cases hd) hpost
    simp only [List.nil_append, List.append_assoc, List.singleton_append] at this
    exact this.symm

/-- What the constructor of `Command` returns, when it returns: the background
flag records whether the line ends with the marker, the command text is the
line, with the marker overwritten if it ends with one, and the arguments are
the tokens of the line without that marker. -/
theorem Command_new_inv (kind : CommandKind) (line : Str) (cmd : Command)
    (h : Command.new kind line = .ok cmd) :
    cmd.kind = kind ∧
      cmd.m_isBackground = decide (endsWithMarker line) ∧
      cmd.m_cmd_line = (if endsWithMarker line then _removeBackgroundSign line else line) ∧
      cmd.m_args = tokens (if endsWithMarker line then withoutMarker line else line) := by
  unfold Command.new at h
  rcases blank_or_last line with hb | ⟨pre, c, post, rfl, hc, hpost⟩
  · by_cases hnil : line = []
    · subst hnil
      have h0 : _isBackgroundComamnd [] = .ok false := rfl
      have hp : _parseCommandLine COMMAND_MAX_LENGTH [] = .ok [] := by decide
      rw [h0] at h
      simp only [bind, Except.bind, Bool.false_eq_true, if_false, hp, pure, Except.pure,
        Except.ok.injEq] at h
      subst h
      have hm : ¬ endsWithMarker [] := by decide
      have ht : tokens [] = [] := by decide
      exact ⟨rfl, by simp [hm], by simp [hm], by simp [hm, ht]⟩
    · have hu : _isBackgroundComamnd line = .error Fault.undefined_behaviour := by
        unfold _isBackgroundComamnd
        rw [if_neg hnil, (find_last_not_of_eq_none line).2 hb]
      rw [hu] at h
      cases h
  · rw [_isBackgroundComamnd_append pre post c hc hpost] at h
    simp only [bind, Except.bind] at h
    by_cases hamp : c = '&'
    · subst hamp
      have hm : endsWithMarker (pre ++ '&' :: post) :=
        (endsWithMarker_iff _).2 ⟨pre, post, rfl, hpost⟩
      simp only [beq_self_eq_true, if_true] at h
      cases hp : _parseCommandLine COMMAND_MAX_LENGTH
          (_removeBackgroundSign (pre ++ '&' :: post)) with
      | error f => rw [hp] at h; cases h
      | ok l =>
        rw [hp] at h
        have hl := _parseCommandLine_inv _ _ _ hp
        simp only [pure, Except.pure, Except.ok.injEq] at h
        subst h
        refine ⟨rfl, by simp [hm], by simp [hm], ?_⟩
        simp only [hm, if_true]
        rw [hl, _removeBackgroundSign_append pre post hpost,
          withoutMarker_append pre post hpost, tokens_rtrim]
        have := tokens_blank_append [] pre [' '] (fun d hd => by cases hd)
          (fun d hd => by simp at hd; subst hd; decide)
        simpa using this
    · have hm : ¬ endsWithMarker (pre ++ c :: post) := by
        unfold endsWithMarker
        rw [reverse_dropWhile pre post c hc hpost]
        simpa using hamp
      have hb : (c == '&') = false := by simpa using hamp
      simp only [hb, Bool.false_eq_true, if_false] at h
      cases hp : _parseCommandLine COMMAND_MAX_LENGTH (pre ++ c :: post) with
      | error f => rw [hp] at h; cases h
      | ok l =>
        rw [hp] at h
        have hl := _parseCommandLine_inv _ _ _ hp
        simp only [pure, Except.pure, Except.ok.injEq] at h
        subst h
        refine ⟨rfl, by simp [hm, hb], by simp [hm], ?_⟩
        simp only [hm, if_false]
        exact hl

/-- The text the constructor of `Command` parses has at most as many tokens as
the line. -/
theorem tokens_removeBackgroundSign_le (line : Str) :
    (tokens (if endsWithMarker line then _removeBackgroundSign line else line)).length ≤
      (tokens line).length := by
  by_cases hm : endsWithMarker line
  · rw [if_pos hm]
    obtain ⟨pre, post, rfl, hpost⟩ := (endsWithMarker_iff _).1 hm
    rw [_removeBackgroundSign_append pre post hpost]
    have h1 := tokens_blank_append [] pre [' '] (fun d hd => by cases hd)
      (fun d hd => by simp at hd; subst hd; decide)
    simp only [List.nil_append] at h1
    rw [h1]
    exact tokens_length_append_le pre ('&' :: post)
  · rw [if_neg hm]

/-- The line without its marker has at most as many tokens as the line. -/
theorem tokens_withoutMarker_le (line : Str) (hm : endsWithMarker line) :
    (tokens (withoutMarker line)).length ≤ (tokens line).length := by
  obtain ⟨pre, post, rfl, hpost⟩ := (endsWithMarker_iff _).1 hm
  rw [withoutMarker_append pre post hpost, tokens_rtrim]
  exact tokens_length_append_le pre ('&' :: post)

/-- On a line that is not blank and has fewer than `COMMAND_MAX_LENGTH` tokens
the constructor of `Command` returns. -/
theorem Command_new_ok (kind : CommandKind) (line : Str) (h : ¬ isBlank line)
    (hlen : (tokens line).length < COMMAND_MAX_LENGTH) :
    ∃ cmd, Command.new kind line = .ok cmd := by
  obtain ⟨b, hb⟩ := _isBackgroundComamnd_ok line h
  have hbm : b = decide (endsWithMarker line) := by
    rcases blank_or_last line with hbl | ⟨pre, c, post, rfl, hc, hpost⟩
    · exact absurd hbl h
    · rw [_isBackgroundComamnd_append pre post c hc hpost] at hb
      injection hb with hb
      subst hb
      by_cases hamp : c = '&'
      · subst hamp
        have hm : endsWithMarker (pre ++ '&' :: post) :=
          (endsWithMarker_iff _).2 ⟨pre, post, rfl, hpost⟩
        simp [hm]
      · have hm : ¬ endsWithMarker (pre ++ c :: post) := by
          unfold endsWithMarker
          rw [reverse_dropWhile pre post c hc hpost]
          simpa using hamp
        simp [hm, hamp]
  have hle := tokens_removeBackgroundSign_le line
  unfold Command.new
  rw [hb, hbm]
  simp only [bind, Except.bind, decide_eq_true_eq]
  rw [_parseCommandLine_ok COMMAND_MAX_LENGTH _ (by omega)]
  exact ⟨_, rfl⟩

/-- The constructor of `Command` on a line that is not blank and has fewer than
`COMMAND_MAX_LENGTH` tokens: the background flag records whether the line ends
with the marker, and the arguments are the tokens of the line without that
marker. -/
theorem Command_new_spec (kind : CommandKind) (line : Str) (h : ¬ isBlank line)
    (hlen : (tokens line).length < COMMAND_MAX_LENGTH) :
    ∃ cmd, Command.new kind line = .ok cmd ∧ cmd.kind = kind ∧
      cmd.m_isBackground = decide (endsWithMarker line) ∧
      cmd.m_cmd_line = (if endsWithMarker line then _removeBackgroundSign line else line) ∧
      cmd.m_args = tokens (if endsWithMarker line then withoutMarker line else line) := by
  obtain ⟨cmd, hcmd⟩ := Command_new_ok kind line h hlen
  exact ⟨cmd, hcmd, Command_new_inv kind line cmd hcmd⟩

/-- A position that follows an even number of quote characters lies outside
single-quote pairs. -/
theorem afterEvenQuotes_outsideQuotes (s : Str) (i : Nat) (h : afterEvenQuotes s i) :
    outsideQuotes s i := by
  unfold afterEvenQuotes at h
  unfold outsideQuotes insideQuotePair
  intro hin
  omega

/-- A character that follows an even number of quote characters stands outside
single-quote pairs. -/
theorem containsUnquoted_of_afterEven (s : Str) (ch : Char)
    (h : containsAfterEvenQuotes s ch) : containsUnquoted s ch := by
  obtain ⟨i, hi, hc, ho⟩ := h
  exact ⟨i, hi, hc, afterEvenQuotes_outsideQuotes s i ho⟩

/-- In a line with an even number of quote characters, every one of which is
therefore paired, a character other than the quote stands outside single-quote
pairs exactly when it follows an even number of quote characters. -/
theorem containsUnquoted_iff_of_even (s : Str) (ch : Char) (hch : ch ≠ quote)
    (heven : s.count quote % 2 = 0) :
    containsUnquoted s ch ↔ containsAfterEvenQuotes s ch := by
  constructor
  · rintro ⟨i, hi, hc, ho⟩
    refine ⟨i, hi, hc, ?_⟩
    unfold outsideQuotes insideQuotePair at ho
    unfold afterEvenQuotes
    by_contra hodd
    apply ho
    refine ⟨by omega, ?_⟩
    have hget : s[i] = ch := by
      rw [List.getElem?_eq_getElem hi] at hc
      exact Option.some.inj hc
    have hsplit : s = s.take i ++ s[i] :: s.drop (i + 1) := by
      rw [List.getElem_cons_drop, List.take_append_drop]
    have hcount : s.count quote =
        (s.take i).count quote + (s.drop (i + 1)).count quote := by
      conv_lhs => rw [hsplit]
      rw [List.count_append, List.count_cons, hget]
      have : (ch == quote) = false := by simpa using hch
      simp [this]
    have hpos : 0 < (s.drop (i + 1)).count quote := by omega
    exact List.count_pos_iff.1 hpos
  · exact containsUnquoted_of_afterEven s ch

/-- In a line with an even number of quote characters the classification by
single-quote pairs and the one by the parity of the preceding quotes agree. -/
theorem classify_eq_classifyScan (line : Str) (heven : line.count quote % 2 = 0) :
    classify line = classifyScan line := by
  have h1 := containsUnquoted_iff_of_even line '|' (by decide) heven
  have h2 := containsUnquoted_iff_of_even line '>' (by decide) heven
  unfold classify classifyScan
  simp only [h1, h2]

/-- The class `CreateCommand` gives a line that is not blank and has fewer than
`COMMAND_MAX_LENGTH` tokens: Pipe when a `|` follows an even number of quote
characters, otherwise Redirection when a `>` does, otherwise the builtin the
first token names, otherwise External. -/
theorem CreateCommand_kind (line : Str) (h : ¬ isBlank line)
    (hlen : (tokens line).length < COMMAND_MAX_LENGTH) :
    ∃ cmd, CreateCommand line = .ok (some cmd) ∧ cmd.kind = classifyScan line := by
  have htrim : _trim line ≠ [] := fun ht => h ((_trim_eq_nil line).1 ht)
  have hbar := findOutsideQuotes_trim '|' (by decide) (by decide) line
  have hgt := findOutsideQuotes_trim '>' (by decide) (by decide) line
  unfold CreateCommand classifyScan
  simp only [if_neg htrim]
  by_cases h1 : containsAfterEvenQuotes line '|'
  · obtain ⟨cmd, hcmd, hk, -⟩ := Command_new_spec .PipeCommand line h hlen
    rw [if_pos (hbar.2 h1), if_pos h1, hcmd]
    exact ⟨cmd, rfl, hk⟩
  · rw [if_neg (fun hc => h1 (hbar.1 hc)), if_neg h1]
    by_cases h2 : containsAfterEvenQuotes line '>'
    · obtain ⟨cmd, hcmd, hk, -⟩ := Command_new_spec .RedirectionCommand line h hlen
      rw [if_pos (hgt.2 h2), if_pos h2, hcmd]
      exact ⟨cmd, rfl, hk⟩
    · rw [if_neg (fun hc => h2 (hgt.1 hc)), if_neg h2]
      rw [splitCommandLine_eq_tokens, tokens_trim]
      cases htok : tokens line with
      | nil => exact absurd ((tokens_eq_nil line).1 htok) h
      | cons firstWord rest =>
        obtain ⟨cmd, hcmd, hk, -⟩ :=
          Command_new_spec (kindOfFirstWord firstWord) line h hlen
        simp only [hcmd, List.head?_cons]
        exact ⟨cmd, rfl, by rw [hk, kindOfFirstWord_eq_lookup]⟩

/-- C4, where it fails: in the line `echo 'a>b` the quote is never closed, so
the `>` stands outside single-quote pairs and the classification the claim
words is Redirection; `CreateCommand` returns an External command, because the
`>` follows an odd number of quote characters. -/
theorem C4_counterexample :
    ¬ isBlank ("echo ".toList ++ [quote] ++ "a>b".toList) ∧
    (tokens ("echo ".toList ++ [quote] ++ "a>b".toList)).length = 2 ∧
    containsUnquoted ("echo ".toList ++ [quote] ++ "a>b".toList) '>' ∧
    ¬ containsUnquoted ("echo ".toList ++ [quote] ++ "a>b".toList) '|' ∧
    classify ("echo ".toList ++ [quote] ++ "a>b".toList) = .RedirectionCommand ∧
    createdKind ("echo ".toList ++ [quote] ++ "a>b".toList) = .ok (some .ExternalCommand) := by
  decide

/-- C4, amended: for every line that is not blank and has fewer than
`COMMAND_MAX_LENGTH` (200) tokens `CreateCommand` returns a command, of class
Pipe exactly when a `|` follows an even number of quote characters, otherwise
Redirection exactly when a `>` does, otherwise the builtin the first token
names, otherwise External. When the number of quote characters of the line is
even this is the classification by single-quote pairs the claim words. In every
such line whose `|` and `>` characters all lie inside single-quote pairs the
class is neither Pipe nor Redirection, and `echo 'a>b'` is External. -/
theorem C4_CreateCommand_classification (line : Str) (h : ¬ isBlank line)
    (hlen : (tokens line).length < COMMAND_MAX_LENGTH) :
    (∃ cmd, CreateCommand line = .ok (some cmd) ∧ cmd.kind = classifyScan line) ∧
    (classifyScan line = .PipeCommand ↔ containsAfterEvenQuotes line '|') ∧
    (classifyScan line = .RedirectionCommand ↔
      ¬ containsAfterEvenQuotes line '|' ∧ containsAfterEvenQuotes line '>') ∧
    (¬ containsAfterEvenQuotes line '|' → ¬ containsAfterEvenQuotes line '>' →
      ∀ firstToken, (tokens line).head? = some firstToken →
        classifyScan line = (builtinNames.lookup firstToken).getD .ExternalCommand) ∧
    (line.count quote % 2 = 0 → classifyScan line = classify line) ∧
    (¬ containsUnquoted line '|' → ¬ containsUnquoted line '>' →
      classifyScan line ≠ .PipeCommand ∧ classifyScan line ≠ .RedirectionCommand) ∧
    createdKind ("echo ".toList ++ [quote] ++ "a>b".toList ++ [quote]) =
      .ok (some .ExternalCommand) := by
  have hP : classifyScan line = .PipeCommand ↔ containsAfterEvenQuotes line '|' := by
    unfold classifyScan
    by_cases h1 : containsAfterEvenQuotes line '|'
    · simp [h1]
    · simp only [h1, if_false, iff_false]
      by_cases h2 : containsAfterEvenQuotes line '>'
      · simp [h2]
      · simp only [h2, if_false]
        cases htok : (tokens line).head? with
        | none => simp
        | some w =>
          simp only
          rw [← kindOfFirstWord_eq_lookup w]
          simp [(kindOfFirstWord_ne w).1, (kindOfFirstWord_ne w).2]
  have hR : classifyScan line = .RedirectionCommand ↔
      ¬ containsAfterEvenQuotes line '|' ∧ containsAfterEvenQuotes line '>' := by
    unfold classifyScan
    by_cases h1 : containsAfterEvenQuotes line '|'
    · simp [h1]
    · simp only [h1, if_false, not_false_eq_true, true_and]
      by_cases h2 : containsAfterEvenQuotes line '>'
      · simp [h2]
      · simp only [h2, if_false, iff_false]
        cases htok : (tokens line).head? with
        | none => simp
        | some w =>
          simp only
          rw [← kindOfFirstWord_eq_lookup w]
          simp [(kindOfFirstWord_ne w).1, (kindOfFirstWord_ne w).2]
  refine ⟨CreateCommand_kind line h hlen, hP, hR, ?_,
    fun heven => (classify_eq_classifyScan line heven).symm, ?_, by decide⟩
  · intro h1 h2 w hw
    unfold classifyScan
    simp [h1, h2, hw]
  · intro h1 h2
    have h1' : ¬ containsAfterEvenQuotes line '|' :=
      fun hc => h1 (containsUnquoted_of_afterEven line '|' hc)
    have h2' : ¬ containsAfterEvenQuotes line '>' :=
      fun hc => h2 (containsUnquoted_of_afterEven line '>' hc)
    exact ⟨fun hc => h1' (hP.1 hc), fun hc => h2' (hR.1 hc).2⟩

/-- C4 at the line `kill -9 1 'a|b'`, which is not blank and has four tokens:
`CreateCommand` returns a command of the class the amended claim assigns, the
`kill` builtin, which is also the class by single-quote pairs. -/
theorem C4_witness :
    ¬ isBlank ("kill -9 1 ".toList ++ [quote] ++ "a|b".toList ++ [quote]) ∧
    (tokens ("kill -9 1 ".toList ++ [quote] ++ "a|b".toList ++ [quote])).length <
      COMMAND_MAX_LENGTH ∧
    (∃ cmd, CreateCommand ("kill -9 1 ".toList ++ [quote] ++ "a|b".toList ++ [quote]) =
        .ok (some cmd) ∧
      cmd.kind = classifyScan ("kill -9 1 ".toList ++ [quote] ++ "a|b".toList ++ [quote])) ∧
    classifyScan ("kill -9 1 ".toList ++ [quote] ++ "a|b".toList ++ [quote]) = .KillCommand ∧
    classify ("kill -9 1 ".toList ++ [quote] ++ "a|b".toList ++ [quote]) = .KillCommand :=
  ⟨by decide, by decide,
    (C4_CreateCommand_classification
      ("kill -9 1 ".toList ++ [quote] ++ "a|b".toList ++ [quote]) (by decide) (by decide)).1,
    by decide, by decide⟩

/-- Reading a word: the loop of `splitCommandLine` appends the characters of
`name`, none of them whitespace, to the word being read. -/
theorem splitCommandLine_go_word (name tail w : Str) (hname : ∀ c ∈ name, isspace c = false) :
    splitCommandLine.go (name ++ tail) w = splitCommandLine.go tail (w ++ name) := by
  induction name generalizing w with
  | nil => simp
  | cons c name ih =>
    have hc : isspace c = false := hname c (List.mem_cons_self _ _)
    show splitCommandLine.go (c :: (name ++ tail)) w = _
    rw [splitCommandLine.go]
    simp only [hc, Bool.false_eq_true, if_false]
    rw [ih _ (fun d hd => hname d (List.mem_cons_of_mem _ hd))]
    simp

/-- The tokens of a line made of whitespace, a word, and a tail that is empty
or starts with whitespace. -/
theorem tokens_first (ws name tail : Str) (hws : isBlank ws)
    (hname : ∀ c ∈ name, isspace c = false) (hne : name ≠ [])
    (htail : tail = [] ∨ ∃ c t, tail = c :: t ∧ isspace c = true) :
    tokens (ws ++ name ++ tail) = name :: tokens tail := by
  rw [← splitCommandLine_eq_tokens, ← splitCommandLine_eq_tokens]
  unfold splitCommandLine
  rw [List.append_assoc, splitCommandLine_go_blank_left _ _ hws,
    splitCommandLine_go_word name tail [] hname]
  rcases htail with rfl | ⟨c, t, rfl, hc⟩
  · simp [splitCommandLine.go, hne]
  · simp [splitCommandLine.go, hc, hne]

/-- A line with a first token is whitespace, that token, and a tail that is
empty or starts with whitespace. -/
theorem tokens_first_decomp (line name : Str) (rest : List Str)
    (h : tokens line = name :: rest) :
    ∃ ws tail, line = ws ++ name ++ tail ∧ isBlank ws ∧ (∀ c ∈ name, isspace c = false) ∧
      name ≠ [] ∧ (tail = [] ∨ ∃ c t, tail = c :: t ∧ isspace c = true) := by
  have h1 : line = line.takeWhile isspace ++ line.dropWhile isspace :=
    (List.takeWhile_append_dropWhile _ _).symm
  have h2 : line.dropWhile isspace =
      (line.dropWhile isspace).takeWhile (fun c => !isspace c) ++
        (line.dropWhile isspace).dropWhile (fun c => !isspace c) :=
    (List.takeWhile_append_dropWhile _ _).symm
  have hws : isBlank (line.takeWhile isspace) := fun c hc => List.mem_takeWhile_imp hc
  have hnm : ∀ c ∈ (line.dropWhile isspace).takeWhile (fun c => !isspace c),
      isspace c = false := by
    intro c hc
    have := List.mem_takeWhile_imp hc
    simpa using this
  have htail : (line.dropWhile isspace).dropWhile (fun c => !isspace c) = [] ∨
      ∃ c t, (line.dropWhile isspace).dropWhile (fun c => !isspace c) = c :: t ∧
        isspace c = true := by
    cases hd : (line.dropWhile isspace).dropWhile (fun c => !isspace c) with
    | nil => left; rfl
    | cons c t =>
      right
      refine ⟨c, t, rfl, ?_⟩
      have := List.head_dropWhile_not (fun c => !isspace c) (line.dropWhile isspace)
        (by rw [hd]; simp)
      simp only [hd, List.head_cons] at this
      simpa using this
  have hne : (line.dropWhile isspace).takeWhile (fun c => !isspace c) ≠ [] := by
    intro hnil
    rw [hnil, List.nil_append] at h2
    have hblank : isBlank line := by
      cases hd : line.dropWhile isspace with
      | nil =>
        intro c hc
        rw [List.dropWhile_eq_nil_iff] at hd
        exact hd c hc
      | cons c t =>
        exfalso
        have hc1 := List.head_dropWhile_not isspace line (by rw [hd]; simp)
        simp only [hd, List.head_cons] at hc1
        rw [hd] at hnil
        simp [List.takeWhile_cons, hc1] at hnil
    rw [(tokens_eq_nil line).2 hblank] at h
    cases h
  have hall : line = line.takeWhile isspace ++
      (line.dropWhile isspace).takeWhile (fun c => !isspace c) ++
      (line.dropWhile isspace).dropWhile (fun c => !isspace c) := by
    rw [List.append_assoc, ← h2, ← h1]
  have htok := tokens_first _ _ _ hws hnm hne htail
  rw [← hall, h] at htok
  injection htok with hhead _
  refine ⟨_, _, ?_, hws, ?_, ?_, htail⟩
  · rw [hhead]; exact hall
  · rw [hhead]; exact hnm
  · rw [hhead]; exact hne

/-- When a line that ends with the marker has a first token free of `&`, the
text before the marker has the same first token. -/
theorem tokens_before_marker (pre post name : Str) (rest : List Str) (hpost : isBlank post)
    (h : tokens (pre ++ '&' :: post) = name :: rest) (hamp : '&' ∉ name) :
    ∃ rest', tokens pre = name :: rest' := by
  obtain ⟨ws, tail, hline, hws, hname, hne, htail⟩ := tokens_first_decomp _ _ _ h
  have hsplit : pre ++ '&' :: post = (ws ++ name) ++ tail := hline
  have hnotsp : isspace '&' = false := by decide
  have htailamp : ∀ t, tail = '&' :: t → False := by
    intro t ht
    rcases htail with ht' | ⟨c, t', ht', hc⟩
    · rw [ht'] at ht; cases ht
    · rw [ht'] at ht
      injection ht with h3 _
      rw [h3, hnotsp] at hc
      cases hc
  rcases List.append_eq_append_iff.1 hsplit with ⟨a1, h1, h2⟩ | ⟨c1, h1, h2⟩
  · -- the marker would lie in the whitespace or in the token, or start the tail
    exfalso
    cases a1 with
    | nil => exact htailamp post (by simpa using h2.symm)
    | cons a a2 =>
      have ha : '&' = a := by
        simp only [List.cons_append, List.cons.injEq] at h2
        exact h2.1
      subst ha
      have hmem : '&' ∈ ws ++ name := by rw [h1]; simp
      rcases List.mem_append.1 hmem with hm | hm
      · rw [hws _ hm] at hnotsp; cases hnotsp
      · exact hamp hm
  · -- the marker lies in the tail
    cases c1 with
    | nil => exact absurd (by simpa using h2) (fun ht => htailamp post ht)
    | cons c c2 =>
      have hc : isspace c = true := by
        rcases htail with ht | ⟨d, t, ht, hd⟩
        · rw [ht] at h2; cases h2
        · rw [ht] at h2
          simp only [List.cons_append, List.cons.injEq] at h2
          rw [← h2.1]; exact hd
      refine ⟨tokens (c :: c2), ?_⟩
      rw [h1]
      exact tokens_first ws name (c :: c2) hws hname hne (Or.inr ⟨c, c2, rfl, hc⟩)

/-- An operator after an even number of quotes in the first part of a line is
after an even number of quotes in the line. -/
theorem containsAfterEvenQuotes_append (a b : Str) (ch : Char)
    (h : containsAfterEvenQuotes a ch) : containsAfterEvenQuotes (a ++ b) ch := by
  obtain ⟨i, hi, hc, ho⟩ := h
  refine ⟨i, by simp; omega, ?_, ?_⟩
  · rw [List.getElem?_append_left hi]; exact hc
  · unfold afterEvenQuotes at ho ⊢
    rw [List.take_append_of_le_length (Nat.le_of_lt hi)]
    exact ho

/-- A name found in a name table is one of its entries. -/
theorem lookup_mem (w : Str) (k : CommandKind) (l : List (Str × CommandKind))
    (h : List.lookup w l = some k) : (w, k) ∈ l := by
  induction l with
  | nil => cases h
  | cons p l ih =>
    obtain ⟨n, v⟩ := p
    rw [lookup_cons_name] at h
    split_ifs at h with hw
    · injection h with h
      rw [hw, h]; exact List.mem_cons_self _ _
    · exact List.mem_cons_of_mem _ (ih h)

/-- No builtin name contains `&`, and none names a pipe, a redirection or an
external command. -/
theorem builtinNames_facts :
    ∀ p ∈ builtinNames, '&' ∉ p.1 ∧ p.2 ≠ .PipeCommand ∧ p.2 ≠ .RedirectionCommand ∧
      p.2 ≠ .ExternalCommand := by
  decide

/-- `reproduceWithAlias` returns the line when the line has fewer than
`COMMAND_MAX_ARGS` tokens and its first token is not an alias name. -/
theorem reproduceWithAlias_not_alias (s : SmallShell) (line name : Str) (rest : List Str)
    (h : tokens line = name :: rest) (hlen : (tokens line).length < COMMAND_MAX_ARGS)
    (hno : s.isAlias name = false) :
    s.reproduceWithAlias line = .ok line := by
  unfold SmallShell.reproduceWithAlias
  rw [_parseCommandLine_ok COMMAND_MAX_ARGS line hlen, h]
  simp only [hno, Bool.false_eq_true, if_false]

/-- A line with a token is not blank. -/
theorem not_isBlank_of_tokens (line name : Str) (rest : List Str)
    (h : tokens line = name :: rest) : ¬ isBlank line := by
  intro hb
  rw [(tokens_eq_nil line).2 hb] at h
  cases h

/-- The class `CreateCommand` gives a line of fewer than `COMMAND_MAX_LENGTH`
tokens without operators after an even number of quotes whose first token is a
builtin name. -/
theorem CreateCommand_builtin (line name : Str) (rest : List Str) (kind : CommandKind)
    (h : tokens line = name :: rest) (hlen : (tokens line).length < COMMAND_MAX_LENGTH)
    (hkind : builtinNames.lookup name = some kind)
    (hbar : ¬ containsAfterEvenQuotes line '|') (hgt : ¬ containsAfterEvenQuotes line '>') :
    ∃ cmd, CreateCommand line = .ok (some cmd) ∧ cmd.kind = kind ∧
      cmd.m_args = tokens (if endsWithMarker line then withoutMarker line else line) := by
  have hnb := not_isBlank_of_tokens line name rest h
  obtain ⟨cmd, hcmd, hk⟩ := CreateCommand_kind line hnb hlen
  have hclass : classifyScan line = kind := by
    unfold classifyScan
    simp [hbar, hgt, h, hkind]
  refine ⟨cmd, hcmd, by rw [hk, hclass], ?_⟩
  -- the command was built by the constructor of `Command` on the line
  have hnew : ∃ k, Command.new k line = .ok cmd := by
    unfold CreateCommand at hcmd
    have htrim : _trim line ≠ [] := fun ht => hnb ((_trim_eq_nil line).1 ht)
    simp only [if_neg htrim] at hcmd
    split_ifs at hcmd
    · cases hn : Command.new .PipeCommand line with
      | error e => rw [hn] at hcmd; cases hcmd
      | ok c => rw [hn] at hcmd; cases hcmd; exact ⟨_, hn⟩
    · cases hn : Command.new .RedirectionCommand line with
      | error e => rw [hn] at hcmd; cases hcmd
      | ok c => rw [hn] at hcmd; cases hcmd; exact ⟨_, hn⟩
    · split at hcmd
      · cases hcmd
      · rename_i firstWord _ _
        cases hn : Command.new (kindOfFirstWord firstWord) line with
        | error e => rw [hn] at hcmd; cases hcmd
        | ok c => rw [hn] at hcmd; cases hcmd; exact ⟨_, hn⟩
  obtain ⟨k, hk'⟩ := hnew
  exact (Command_new_inv k line cmd hk').2.2.2

/-- A string is its `_rtrim` followed by something. -/
theorem _rtrim_prefix (s : Str) : ∃ q, s = _rtrim s ++ q := by
  rcases blank_or_last s with hb | ⟨pre, c, post, rfl, hc, hpost⟩
  · exact ⟨s, by rw [_rtrim_blank s hb]; rfl⟩
  · exact ⟨post, by rw [_rtrim_append pre post c hc hpost]; simp⟩

/-- The command `executeCommand` selects for a line of fewer than
`COMMAND_MAX_ARGS` tokens that ends with the marker, has no operator after an
even number of quotes, and whose first token is a builtin name that is not an
alias name. -/
theorem select_builtin_marker (s : SmallShell) (line name : Str) (kind : CommandKind)
    (hname : (tokens line).head? = some name)
    (hlen : (tokens line).length < COMMAND_MAX_ARGS)
    (hkind : builtinNames.lookup name = some kind)
    (hbar : ¬ containsAfterEvenQuotes line '|') (hgt : ¬ containsAfterEvenQuotes line '>')
    (hmark : endsWithMarker line) (halias : s.isAlias name = false) :
    ∃ cmd, selectCommand s line = .ok (some (cmd,
        if kind.isBuiltInCommand then Site.builtinStripped else Site.background)) ∧
      cmd.kind = kind ∧
      cmd.m_args =
        (if kind.isBuiltInCommand = true ∧ endsWithMarker (withoutMarker line) then
          tokens (withoutMarker (withoutMarker line))
        else tokens (withoutMarker line)) := by
  obtain ⟨rest, htok⟩ : ∃ rest, tokens line = name :: rest := by
    cases ht : tokens line with
    | nil => rw [ht] at hname; cases hname
    | cons a rest =>
      rw [ht] at hname
      simp only [List.head?_cons, Option.some.injEq] at hname
      exact ⟨rest, by rw [hname]⟩
  obtain ⟨hnoamp, -, -, -⟩ := builtinNames_facts _ (lookup_mem name kind _ hkind)
  obtain ⟨pre, post, hline, hpost⟩ := (endsWithMarker_iff line).1 hmark
  have hrepro := reproduceWithAlias_not_alias s line name rest htok hlen halias
  have hlen200 : (tokens line).length < COMMAND_MAX_LENGTH :=
    Nat.lt_trans hlen (by decide)
  have hbg : _isBackgroundComamnd line = .ok true := by
    rw [hline, _isBackgroundComamnd_append pre post '&' (by decide) hpost]; rfl
  obtain ⟨cmd1, hcmd1, hk1, hargs1⟩ :=
    CreateCommand_builtin line name rest kind htok hlen200 hkind hbar hgt
  rw [if_pos hmark] at hargs1
  unfold selectCommand
  simp only [hrepro, hbg, hcmd1, bind, Except.bind, pure, Except.pure, Bool.not_true,
    Bool.false_eq_true, if_false, hk1]
  cases hb : kind.isBuiltInCommand
  · simp only [Bool.false_eq_true, if_false, false_and]
    exact ⟨cmd1, rfl, hk1, hargs1⟩
  · simp only [if_true, true_and]
    rw [_removeBackgroundSignString_eq line hmark]
    have hwm : withoutMarker line = _rtrim pre := by
      rw [hline, withoutMarker_append pre post hpost]
    obtain ⟨rest2, htok2⟩ := tokens_before_marker pre post name rest hpost (hline ▸ htok) hnoamp
    have htokw : tokens (withoutMarker line) = name :: rest2 := by
      rw [hwm, tokens_rtrim, htok2]
    obtain ⟨q, hq⟩ := _rtrim_prefix pre
    have hpref : line = withoutMarker line ++ (q ++ '&' :: post) := by
      rw [hwm, ← List.append_assoc, ← hq, hline]
    have hbar2 : ¬ containsAfterEvenQuotes (withoutMarker line) '|' := fun hc =>
      hbar (by rw [hpref]; exact containsAfterEvenQuotes_append _ _ _ hc)
    have hgt2 : ¬ containsAfterEvenQuotes (withoutMarker line) '>' := fun hc =>
      hgt (by rw [hpref]; exact containsAfterEvenQuotes_append _ _ _ hc)
    obtain ⟨cmd2, hcmd2, hk2, hargs2⟩ :=
      CreateCommand_builtin (withoutMarker line) name rest2 kind htokw
        (Nat.lt_of_le_of_lt (tokens_withoutMarker_le line hmark) hlen200) hkind hbar2 hgt2
    simp only [hcmd2]
    refine ⟨cmd2, rfl, hk2, ?_⟩
    rw [hargs2]
    split_ifs <;> rfl

/-- The call of `executeCommand` with a given depth is its body, with
`executeCommand.nested` for the calls made from inside a command. -/
theorem executeCommand_unfold (os : OS) (depth : Nat) :
    executeCommand os depth = executeCommand.body os (executeCommand.nested os depth) := by
  cases depth <;> rfl

/-- What `executeCommand` does on a line that is not blank: the sweep of the
Job Table, the selection of the command, and its `execute`, to which the
nested `executeCommand` is handed. -/
theorem executeCommand_eq (os : OS) (depth : Nat) (s : SmallShell) (line : Str)
    (h : ¬ isBlank line) :
    executeCommand os depth s line =
      (s.removeFinishedJobs os >>= fun s1 =>
        match selectCommand s1 line with
        | .error f => .error (f, s1)
        | .ok none => .ok s1
        | .ok (some (cmd, site)) =>
          cmd.execute os (executeCommand.nested os depth)
            (if site = .background then { s1 with m_nextBGPrintCmdLine := line } else s1)) := by
  have htrim : _trim line ≠ [] := fun ht => h ((_trim_eq_nil line).1 ht)
  rw [executeCommand_unfold]
  unfold executeCommand.body
  rw [if_neg htrim]
  congr 1
  funext s1
  cases hsel : selectCommand s1 line with
  | error f => rfl
  | ok o =>
    cases o with
    | none => rfl
    | some p => obtain ⟨cmd, site⟩ := p; rfl

/-- A run that adds no `fork` to the log and only stopped records to the Job
Table leaves the forks of the log and the records that are not stopped as they
were. -/
theorem Frame.quiet {s t : SmallShell}
    (h : Frame (fun e => e.isFork = false) (fun j => j.m_isStopped = true) s t) :
    t.log.filter Event.isFork = s.log.filter Event.isFork ∧
    ∀ kv ∈ t.m_jobsMap, kv.2.obj.m_isStopped = false → kv ∈ s.m_jobsMap := by
  obtain ⟨⟨ext, hlog, hext⟩, hjobs⟩ := h
  constructor
  · rw [hlog, List.filter_append]
    have : ext.filter Event.isFork = [] := by
      rw [List.filter_eq_nil_iff]
      intro e he
      rw [hext e he]
      simp
    rw [this, List.append_nil]
  · intro kv hkv hst
    rcases hjobs kv hkv with h | h
    · exact h
    · rw [hst] at h; cases h

/-- C8, amended: for every line of fewer than `COMMAND_MAX_ARGS` (20) tokens
that ends with the background marker, has no `|` and no `>` outside
single-quote pairs, and whose first token is one of the 15 builtin names and
not an alias name, `executeCommand` selects a command of the class of that
builtin and executes it in the shell process after the sweep of the Job Table.
Its argument list is that of the line without the marker, except that a class
deriving from `BuiltInCommand` (all names but `du`, `whoami`, `netinfo`) loses
a second trailing `&` as well when the line without the marker still ends with
one. The run adds no `fork` to the log and no record that is not stopped to the
Job Table: the command is not registered as a background job. -/
theorem C8_builtin_with_marker (os : OS) (depth : Nat) (s : SmallShell) (line name : Str)
    (kind : CommandKind)
    (hname : (tokens line).head? = some name)
    (hlen : (tokens line).length < COMMAND_MAX_ARGS)
    (hkind : builtinNames.lookup name = some kind)
    (hbar : ¬ containsUnquoted line '|') (hgt : ¬ containsUnquoted line '>')
    (hmark : endsWithMarker line) (halias : s.isAlias name = false) :
    (∃ cmd site,
      selectCommand s line = .ok (some (cmd, site)) ∧
      cmd.kind = kind ∧
      cmd.m_args =
        (if kind.isBuiltInCommand = true ∧ endsWithMarker (withoutMarker line) then
          tokens (withoutMarker (withoutMarker line))
        else tokens (withoutMarker line)) ∧
      executeCommand os depth s line =
        (s.removeFinishedJobs os >>= fun s1 =>
          cmd.execute os (executeCommand.nested os depth)
            (if site = .background then { s1 with m_nextBGPrintCmdLine := line } else s1))) ∧
    (executeCommand os depth s line).state.log.filter Event.isFork =
      s.log.filter Event.isFork ∧
    (∀ kv ∈ (executeCommand os depth s line).state.m_jobsMap,
      kv.2.obj.m_isStopped = false → kv ∈ s.m_jobsMap) := by
  have hbar' : ¬ containsAfterEvenQuotes line '|' :=
    fun hc => hbar (containsUnquoted_of_afterEven line '|' hc)
  have hgt' : ¬ containsAfterEvenQuotes line '>' :=
    fun hc => hgt (containsUnquoted_of_afterEven line '>' hc)
  obtain ⟨cmd, hsel, hk, hargs⟩ :=
    select_builtin_marker s line name kind hname hlen hkind hbar' hgt' hmark halias
  have hnb : ¬ isBlank line := by
    intro hb
    rw [(tokens_eq_nil line).2 hb] at hname
    cases hname
  have hexec := executeCommand_eq os depth s line hnb
  obtain ⟨-, hk1, hk2, hk3⟩ := builtinNames_facts _ (lookup_mem name kind _ hkind)
  simp only at hk1 hk2 hk3
  have hrun : executeCommand os depth s line =
      (s.removeFinishedJobs os >>= fun s1 =>
        cmd.execute os (executeCommand.nested os depth)
          (if (if kind.isBuiltInCommand then Site.builtinStripped else Site.background)
              = .background
            then { s1 with m_nextBGPrintCmdLine := line } else s1)) := by
    rw [hexec]
    cases hrf : s.removeFinishedJobs os with
    | error e => rfl
    | ok s1 =>
      have hal := SmallShell.removeFinishedJobs_aliases os s s1 hrf
      simp only [bind, Except.bind]
      rw [selectCommand_congr s1 s line hal, hsel]
  have hframe : Frame (fun e => e.isFork = false) (fun j => j.m_isStopped = true) s
      (executeCommand os depth s line).state := by
    rw [hrun]
    apply Frame.bind _ _ (SmallShell.frame_removeFinishedJobs (fun e he => he) os s)
    intro s1 _
    refine Frame.trans (b := if (if kind.isBuiltInCommand then Site.builtinStripped
        else Site.background) = .background
      then { s1 with m_nextBGPrintCmdLine := line } else s1) ?_ ?_
    · split_ifs <;> exact Frame.of_eq rfl rfl
    · exact frame_builtin_execute (fun e he => he) os (executeCommand.nested os depth) _ cmd
        (by rw [hk]; exact hk1) (by rw [hk]; exact hk2) (by rw [hk]; exact hk3)
  exact ⟨⟨cmd, _, hsel, hk, hargs, hrun⟩, hframe.quiet⟩

/-- C8, amended, at the line `kill -9 1 &` in the initial shell: the line has
four tokens, the first token `kill` is a builtin name and no alias, the line
has no operator and ends with the marker; the `kill` builtin is selected with
the arguments `kill`, `-9`, `1` and the run adds no `fork` and no record. -/
theorem C8_witness :
    (tokens "kill -9 1 &".toList).length = 4 ∧
    selected (selectCommand SmallShell.init "kill -9 1 &".toList) =
      .ok (some (.KillCommand, ["kill", "-9", "1"], .builtinStripped)) ∧
    (executeCommand plainOS 0 SmallShell.init "kill -9 1 &".toList).state.log.filter
      Event.isFork = SmallShell.init.log.filter Event.isFork ∧
    (∀ kv ∈ (executeCommand plainOS 0 SmallShell.init "kill -9 1 &".toList).state.m_jobsMap,
      kv.2.obj.m_isStopped = false → kv ∈ SmallShell.init.m_jobsMap) :=
  ⟨by decide, by decide!,
   (C8_builtin_with_marker plainOS 0 SmallShell.init "kill -9 1 &".toList "kill".toList
      .KillCommand (by decide) (by decide) (by decide) (by decide) (by decide) (by decide)
      (by decide)).2⟩

/-! ## Pipes and redirections with the marker -/

/-- `find` finds a character that the string contains. -/
theorem find_char_ne_none (s : Str) (ch : Char) (h : ch ∈ s) : find_char s ch ≠ none := by
  induction s with
  | nil => cases h
  | cons c cs ih =>
    unfold find_char
    by_cases hc : c = ch
    · simp [hc]
    · rw [if_neg hc]
      have : ch ∈ cs := by
        rcases List.mem_cons.1 h with h | h
        · exact absurd h.symm hc
        · exact h
      cases hf : find_char cs ch with
      | none => exact absurd hf (ih this)
      | some i => simp

/-- On a trimmed string `_isBackgroundComamnd` returns. -/
theorem _isBackgroundComamnd_trim (x : Str) : ∃ b, _isBackgroundComamnd (_trim x) = .ok b := by
  by_cases h : _trim x = []
  · rw [h]; exact ⟨false, rfl⟩
  · apply _isBackgroundComamnd_ok
    intro hb
    apply h
    unfold _trim at hb ⊢
    rcases blank_or_last (_ltrim x) with hl | ⟨pre, c, post, hp, hc, hpost⟩
    · exact _rtrim_blank _ hl
    · exfalso
      rw [hp, _rtrim_append pre post c hc hpost] at hb
      have := hb c (by simp)
      rw [hc] at this
      cases this

/-- `PipeCommand::execute` finds an operator to split at in every text that
contains `|`. -/
theorem PipeCommand_parse_some (text : Str) (h : '|' ∈ text) :
    ∃ r, PipeCommand.parse text = .ok (some r) := by
  unfold PipeCommand.parse
  have hfc := find_char_ne_none text '|' h
  have hfound : ∃ bar st, (match find_str text "|&".toList with
      | some bar => some (bar, true)
      | none =>
        match find_char text '|' with
        | some bar => some (bar, false)
        | none => none) = some (bar, st) := by
    cases find_str text "|&".toList with
    | some bar => exact ⟨bar, true, rfl⟩
    | none =>
      cases hf : find_char text '|' with
      | none => exact absurd hf hfc
      | some bar => exact ⟨bar, false, rfl⟩
  obtain ⟨bar, st, hfound⟩ := hfound
  simp only [hfound]
  obtain ⟨b1, hb1⟩ := _isBackgroundComamnd_trim (text.take bar)
  obtain ⟨b2, hb2⟩ := _isBackgroundComamnd_trim (text.drop (bar + (if st = true then 2 else 1)))
  simp only [hb1, hb2, bind, Except.bind, pure, Except.pure]
  exact ⟨_, rfl⟩

/-- A character after an even number of quotes in a string is a character of
the string. -/
theorem mem_of_containsAfterEvenQuotes (s : Str) (ch : Char)
    (h : containsAfterEvenQuotes s ch) : ch ∈ s := by
  obtain ⟨i, hi, hc, -⟩ := h
  rw [List.getElem?_eq_some_iff] at hc
  obtain ⟨hi', hc⟩ := hc
  rw [← hc]
  exact List.getElem_mem _

/-- The command object `CreateCommand` returns was built by the constructor of
`Command` on the line; it is a pipe only when the line contains `|` after an
even number of quotes, and a redirection only when it contains `>` after an
even number of quotes. -/
theorem CreateCommand_inv (line : Str) (cmd : Command)
    (h : CreateCommand line = .ok (some cmd)) :
    ¬ isBlank line ∧ Command.new cmd.kind line = .ok cmd ∧
      (cmd.kind = .PipeCommand → containsAfterEvenQuotes line '|') ∧
      (cmd.kind = .RedirectionCommand → containsAfterEvenQuotes line '>') := by
  unfold CreateCommand at h
  by_cases htrim : _trim line = []
  · simp only [htrim, if_true] at h
    cases h
  · have hnb : ¬ isBlank line := fun hb => htrim ((_trim_eq_nil line).2 hb)
    have hbar := findOutsideQuotes_trim '|' (by decide) (by decide) line
    have hgt := findOutsideQuotes_trim '>' (by decide) (by decide) line
    simp only [if_neg htrim] at h
    have key : ∀ k, Command.new k line = .ok cmd → cmd.kind = k := by
      intro k hk
      exact (Command_new_inv k line cmd hk).1
    split_ifs at h with h1 h2
    · cases hn : Command.new .PipeCommand line with
      | error e => rw [hn] at h; cases h
      | ok c =>
        rw [hn] at h; cases h
        have hk := key _ hn
        refine ⟨hnb, by rw [hk]; exact hn, fun _ => hbar.1 h1, ?_⟩
        intro hr; rw [hk] at hr; cases hr
    · cases hn : Command.new .RedirectionCommand line with
      | error e => rw [hn] at h; cases h
      | ok c =>
        rw [hn] at h; cases h
        have hk := key _ hn
        refine ⟨hnb, by rw [hk]; exact hn, ?_, fun _ => hgt.1 h2⟩
        intro hr; rw [hk] at hr; cases hr
    · split at h
      · cases h
      · rename_i firstWord _ _
        cases hn : Command.new (kindOfFirstWord firstWord) line with
        | error e => rw [hn] at h; cases h
        | ok c =>
          rw [hn] at h; cases h
          have hk := key _ hn
          refine ⟨hnb, by rw [hk]; exact hn, ?_, ?_⟩
          · intro hr; rw [hk] at hr; exact absurd hr (kindOfFirstWord_ne firstWord).1
          · intro hr; rw [hk] at hr; exact absurd hr (kindOfFirstWord_ne firstWord).2

/-- The command `executeCommand` selects was returned by `CreateCommand` on some
line. -/
theorem selectCommand_inv (s : SmallShell) (line : Str) (cmd : Command) (site : Site)
    (h : selectCommand s line = .ok (some (cmd, site))) :
    ∃ p, CreateCommand p = .ok (some cmd) := by
  unfold selectCommand at h
  cases hr : s.reproduceWithAlias line with
  | error e => rw [hr] at h; cases h
  | ok p =>
    rw [hr] at h
    simp only [bind, Except.bind] at h
    cases hb : _isBackgroundComamnd p with
    | error e => rw [hb] at h; cases h
    | ok b =>
      rw [hb] at h
      simp only at h
      cases hc : CreateCommand p with
      | error e => rw [hc] at h; cases b <;> cases h
      | ok o =>
        rw [hc] at h
        cases o with
        | none => cases b <;> cases h
        | some c1 =>
          cases b
          · simp only [Bool.not_false, if_true, pure, Except.pure] at h
            cases h
            exact ⟨p, hc⟩
          · simp only [Bool.not_true, Bool.false_eq_true, if_false] at h
            split_ifs at h
            · cases hc2 : CreateCommand (_removeBackgroundSignString p) with
              | error e => rw [hc2] at h; cases h
              | ok o2 =>
                rw [hc2] at h
                cases o2 with
                | none => cases h
                | some c2 =>
                  simp only [pure, Except.pure] at h
                  cases h
                  exact ⟨_, hc2⟩
            · simp only [pure, Except.pure] at h
              cases h
              exact ⟨p, hc⟩

/-- What `selectCommand` has done when it selects a command for the background
call site: the line after alias substitution ends with the marker, and
`CreateCommand` gave it a class that is no `BuiltInCommand`. -/
theorem selectCommand_background (s : SmallShell) (line : Str) (cmd : Command)
    (h : selectCommand s line = .ok (some (cmd, .background))) :
    ∃ e, s.reproduceWithAlias line = .ok e ∧ _isBackgroundComamnd e = .ok true ∧
      CreateCommand e = .ok (some cmd) ∧ cmd.kind.isBuiltInCommand = false := by
  unfold selectCommand at h
  cases he : s.reproduceWithAlias line with
  | error f => rw [he] at h; cases h
  | ok e =>
    rw [he] at h
    simp only [bind, Except.bind, pure, Except.pure] at h
    cases hb : _isBackgroundComamnd e with
    | error f => rw [hb] at h; cases h
    | ok b =>
      rw [hb] at h
      cases hc : CreateCommand e with
      | error f => rw [hc] at h; cases b <;> cases h
      | ok oc =>
        rw [hc] at h
        cases b with
        | false =>
          cases oc with
          | none => cases h
          | some c => simp at h
        | true =>
          cases oc with
          | none => cases h
          | some c =>
            simp only [Bool.not_true, Bool.false_eq_true, ↓reduceIte] at h
            by_cases hk : c.kind.isBuiltInCommand = true
            · rw [if_pos hk] at h
              cases hc2 : CreateCommand (_removeBackgroundSignString e) with
              | error f => rw [hc2] at h; cases h
              | ok oc2 =>
                rw [hc2] at h
                cases oc2 with
                | none => cases h
                | some c2 => simp at h
            · rw [if_neg hk] at h
              simp only [Except.ok.injEq, Option.some.injEq, Prod.mk.injEq, and_true] at h
              subst h
              exact ⟨e, rfl, hb, hc, by simpa using hk⟩

/-- The constructor `Command::Command` on a line that ends with the marker sets
the background flag and keeps, as command text, what `_removeBackgroundSign`
leaves of the line. -/
theorem Command_new_background (kind : CommandKind) (e : Str) (cmd : Command)
    (hb : _isBackgroundComamnd e = .ok true) (h : Command.new kind e = .ok cmd) :
    cmd.m_isBackground = true ∧ cmd.m_cmd_line = _removeBackgroundSign e := by
  unfold Command.new at h
  rw [hb] at h
  simp only [bind, Except.bind, ↓reduceIte] at h
  cases hp : _parseCommandLine COMMAND_MAX_LENGTH (_removeBackgroundSign e) with
  | error f => rw [hp] at h; cases h
  | ok l =>
    rw [hp] at h
    simp only [pure, Except.pure, Except.ok.injEq] at h
    subst h
    exact ⟨rfl, rfl⟩

/-- A line for which `selectCommand` selects a command is not blank. -/
theorem selectCommand_not_blank (s : SmallShell) (line : Str) (cmd : Command) (site : Site)
    (h : selectCommand s line = .ok (some (cmd, site))) : ¬ isBlank line := by
  intro hb
  unfold selectCommand SmallShell.reproduceWithAlias at h
  rw [_parseCommandLine_blank COMMAND_MAX_ARGS line ((tokens_eq_nil line).2 hb)] at h
  simp only [bind, Except.bind] at h
  have htrim : _trim line = [] := (_trim_eq_nil line).2 hb
  cases hbk : _isBackgroundComamnd line with
  | error e => rw [hbk] at h; cases h
  | ok b =>
    rw [hbk] at h
    have hcc : CreateCommand line = .ok none := by
      unfold CreateCommand; simp [htrim]
    cases b <;> simp [hcc, pure, Except.pure] at h

/-- The text of a selected pipe command contains `|`, and the text of a
selected redirection contains `>`. -/
theorem operator_text_mem (s : SmallShell) (line : Str) (cmd : Command) (site : Site)
    (h : selectCommand s line = .ok (some (cmd, site))) :
    (cmd.kind = .PipeCommand → '|' ∈ cmd.m_cmd_line) ∧
    (cmd.kind = .RedirectionCommand → '>' ∈ cmd.m_cmd_line) := by
  obtain ⟨p, hp⟩ := selectCommand_inv s line cmd site h
  obtain ⟨hnb, hnew, hbar, hgt⟩ := CreateCommand_inv p cmd hp
  have key : ∀ ch : Char, ch ≠ '&' → isspace ch = false → ch ∈ p → ch ∈ cmd.m_cmd_line := by
    intro ch hamp hsp hmem
    rw [(Command_new_inv cmd.kind p cmd hnew).2.2.1]
    by_cases hm : endsWithMarker p
    · rw [if_pos hm]
      obtain ⟨pre, post, rfl, hpost⟩ := (endsWithMarker_iff p).1 hm
      rw [_removeBackgroundSign_append pre post hpost]
      have : ch ∈ pre := by
        rcases List.mem_append.1 hmem with h1 | h1
        · exact h1
        · rcases List.mem_cons.1 h1 with h2 | h2
          · exact absurd h2 hamp
          · rw [hpost _ h2] at hsp; cases hsp
      exact List.mem_append_left _ this
    · rw [if_neg hm]; exact hmem
  exact ⟨fun hk => key '|' (by decide) (by decide) (mem_of_containsAfterEvenQuotes p '|' (hbar hk)),
    fun hk => key '>' (by decide) (by decide) (mem_of_containsAfterEvenQuotes p '>' (hgt hk))⟩

/-- A frame keeps the events of the log. -/
theorem Frame.log_mono {P : Event → Prop} {Q : JobEntry → Prop} {s t : SmallShell}
    (h : Frame P Q s t) (e : Event) (he : e ∈ s.log) : e ∈ t.log := by
  obtain ⟨⟨ext, hlog, -⟩, -⟩ := h
  rw [hlog]
  exact List.mem_append_left _ he

/-- A frame that admits no new record keeps the Job Table within the old one. -/
theorem Frame.jobs_subset {P : Event → Prop} {s t : SmallShell}
    (h : Frame P (fun _ => False) s t) : ∀ kv ∈ t.m_jobsMap, kv ∈ s.m_jobsMap := by
  intro kv hkv
  rcases h.2 kv hkv with h1 | h1
  · exact h1
  · exact absurd h1 id

/-- A blocking wait that returns has logged itself, with the answer of the
operating system at the tick of the call. -/
theorem waitpidBlocking_ok (os : OS) (s s2 : SmallShell) (pid : Int) (options : WaitOptions)
    (a : Answer) (h : s.waitpidBlocking os pid options = .ok (a, s2)) :
    a = os s.tick ∧ Event.waitpid pid options a.ret a.stopped ∈ s2.log := by
  unfold SmallShell.waitpidBlocking at h
  simp only [SmallShell.sys, bind, Except.bind, pure, Except.pure] at h
  by_cases hs : (os s.tick).sigint = true
  · simp only [hs, if_true] at h
    cases hc : SmallShell.ctrlCHandler os { s with tick := s.tick + 1 } with
    | error e => rw [hc] at h; cases h
    | ok s1 =>
      rw [hc] at h
      injection h with h
      injection h with ha hs2
      subst ha hs2
      exact ⟨rfl, by simp [SmallShell.emit]⟩
  · simp only [hs, if_false] at h
    injection h with h
    injection h with ha hs2
    subst ha hs2
    exact ⟨rfl, by simp [SmallShell.emit]⟩

theorem frame_launchProcessWithPipe (os : OS) (s : SmallShell) :
    Frame (fun _ => True) (fun _ => False) s (launchProcessWithPipe os s).state₂ := by
  unfold launchProcessWithPipe
  simp only
  repeat' split
  all_goals (apply SmallShell.frame_leaf <;>
    simp [SmallShell.cerr, SmallShell.emit, SmallShell.sys, SmallShell.raise, Run.state₂])

theorem frame_close (P : Event → Prop) (Q : JobEntry → Prop) (hP : ∀ e, e.isFork = false → P e)
    (s : SmallShell) (fd : Int) : Frame P Q s (s.close fd) := by
  apply SmallShell.frame_leaf <;> simp [SmallShell.close, SmallShell.emit, hP, Event.isFork]

theorem frame_pipe (os : OS) (s : SmallShell) :
    Frame (fun _ => True) (fun _ => False) s (s.pipe os).2 := by
  unfold SmallShell.pipe
  simp only
  split
  · apply SmallShell.frame_leaf <;> simp [SmallShell.emit, SmallShell.sys]
  · apply SmallShell.frame_leaf <;> simp [SmallShell.emit, SmallShell.sys, SmallShell.fdSet]

theorem frame_waitBoth (os : OS) (s : SmallShell) (l r : Int) :
    Frame (fun _ => True) (fun _ => False) s (PipeCommand.waitBoth os s l r).state := by
  have hT : ∀ e : Event, e.isFork = false → (fun _ : Event => True) e := fun _ _ => trivial
  unfold PipeCommand.waitBoth
  apply Frame.bind₂ _ _ (SmallShell.frame_waitpidBlocking hT os _ _ _)
  intro a1 s3 _
  apply Frame.bind₂ _ _ (SmallShell.frame_waitpidBlocking hT os _ _ _)
  intro a2 s4 _
  exact Frame.refl s4

theorem frame_launchBoth (os : OS) (s : SmallShell) (fd0 fd1 : Int) :
    Frame (fun _ => True) (fun _ => False) s (PipeCommand.launchBoth os s fd0 fd1).state := by
  have hT : ∀ e : Event, e.isFork = false → (fun _ : Event => True) e := fun _ _ => trivial
  unfold PipeCommand.launchBoth
  apply Frame.bind₂ _ _ (frame_launchProcessWithPipe os _)
  intro left_pid s1 _
  simp only
  split
  · exact Frame.trans (frame_close _ _ hT s1 fd0) (frame_close _ _ hT _ fd1)
  · apply Frame.bind₂ _ _ (frame_launchProcessWithPipe os _)
    intro right_pid s2 _
    simp only
    split
    · exact Frame.trans (frame_close _ _ hT s2 fd0) (frame_close _ _ hT _ fd1)
    · exact Frame.trans (b := (s2.close fd0).close fd1)
        (Frame.trans (frame_close _ _ hT s2 fd0) (frame_close _ _ hT _ fd1))
        (frame_waitBoth os _ _ _)

/-- `PipeCommand::execute` adds no record to the Job Table. -/
theorem frame_PipeCommand (os : OS) (s : SmallShell) (cmd : Command) :
    Frame (fun _ => True) (fun _ => False) s (PipeCommand.execute os s cmd).state := by
  have hT : ∀ e : Event, e.isFork = false → (fun _ : Event => True) e := fun _ _ => trivial
  unfold PipeCommand.execute
  cases hp : PipeCommand.parse cmd.m_cmd_line with
  | error e => exact Frame.refl s
  | ok o =>
    simp only [SmallShell.lift, bind, Except.bind]
    cases o with
    | none => exact SmallShell.frame_cerr_step hT s _
    | some r =>
      simp only
      have hpipe := frame_pipe os s
      cases hq : s.pipe os with
      | mk o t =>
        rw [hq] at hpipe
        cases o with
        | none => exact Frame.trans hpipe (SmallShell.frame_cerr_step hT t _)
        | some fds =>
          obtain ⟨fd0, fd1⟩ := fds
          exact Frame.trans hpipe (frame_launchBoth os t fd0 fd1)

/-- A `fork` in the shell process that returns has the answer of the operating
system as its value and costs one tick. -/
theorem launchProcessWithPipe_ok (os : OS) (s s1 : SmallShell) (pid : Int)
    (h : launchProcessWithPipe os s = .ok (pid, s1)) :
    pid = (os s.tick).ret ∧ s1.tick = s.tick + 1 := by
  unfold launchProcessWithPipe at h
  simp only [SmallShell.sys] at h
  split_ifs at h with hm
  · injection h with h
    injection h with h1 h2
    subst h1 h2
    exact ⟨hm.symm, rfl⟩
  · cases h
  · injection h with h
    injection h with h1 h2
    subst h1 h2
    exact ⟨rfl, rfl⟩

/-- The two blocking waits, when they return, are in the log. -/
theorem waitBoth_ok (os : OS) (s s' : SmallShell) (l r : Int)
    (h : PipeCommand.waitBoth os s l r = .ok s') :
    (∃ a : Answer, Event.waitpid l .zero a.ret a.stopped ∈ s'.log) ∧
    (∃ a : Answer, Event.waitpid r .zero a.ret a.stopped ∈ s'.log) := by
  have hT : ∀ e : Event, e.isFork = false → (fun _ : Event => True) e := fun _ _ => trivial
  unfold PipeCommand.waitBoth at h
  cases hw1 : s.waitpidBlocking os l .zero with
  | error e => rw [hw1] at h; cases h
  | ok v1 =>
    obtain ⟨a1, s3⟩ := v1
    rw [hw1] at h
    simp only [bind, Except.bind] at h
    cases hw2 : s3.waitpidBlocking os r .zero with
    | error e => rw [hw2] at h; cases h
    | ok v2 =>
      obtain ⟨a2, s4⟩ := v2
      rw [hw2] at h
      simp only [pure, Except.pure] at h
      injection h with h
      subst h
      obtain ⟨-, he1⟩ := waitpidBlocking_ok os _ _ _ _ _ hw1
      obtain ⟨-, he2⟩ := waitpidBlocking_ok os _ _ _ _ _ hw2
      have hfr := SmallShell.frame_waitpidBlocking (P := fun _ => True)
        (Q := fun _ => False) hT os s3 r .zero
      rw [hw2] at hfr
      exact ⟨⟨a1, hfr.log_mono _ he1⟩, ⟨a2, he2⟩⟩

/-- When the two `fork`s succeed, the shell returns from the pipe only after a
blocking `waitpid` on each of the two children. -/
theorem launchBoth_waits (os : OS) (t s' : SmallShell) (fd0 fd1 : Int)
    (h : PipeCommand.launchBoth os t fd0 fd1 = .ok s')
    (h1 : (os t.tick).ret ≠ -1) (h2 : (os (t.tick + 1)).ret ≠ -1) :
    (∃ a : Answer, Event.waitpid (os t.tick).ret .zero a.ret a.stopped ∈ s'.log) ∧
    (∃ a : Answer, Event.waitpid (os (t.tick + 1)).ret .zero a.ret a.stopped ∈ s'.log) := by
  unfold PipeCommand.launchBoth at h
  cases hl : launchProcessWithPipe os t with
  | error e => rw [hl] at h; cases h
  | ok v =>
    obtain ⟨l, s1⟩ := v
    obtain ⟨hlv, hlt⟩ := launchProcessWithPipe_ok os t s1 l hl
    rw [hl] at h
    simp only [bind, Except.bind] at h
    rw [if_neg (by rw [hlv]; exact h1)] at h
    cases hr : launchProcessWithPipe os s1 with
    | error e => rw [hr] at h; cases h
    | ok v2 =>
      obtain ⟨r, s2⟩ := v2
      obtain ⟨hrv, -⟩ := launchProcessWithPipe_ok os s1 s2 r hr
      rw [hr] at h
      simp only at h
      rw [if_neg (by rw [hrv, hlt]; exact h2)] at h
      have := waitBoth_ok os _ _ _ _ h
      rw [hlv, hrv, hlt] at this
      exact this

/-- When the `pipe` call and the two `fork`s succeed, `PipeCommand::execute`
returns only after a blocking `waitpid` on each of the two children. -/
theorem PipeCommand_execute_waits (os : OS) (t s' : SmallShell) (cmd : Command)
    (hparse : ∃ r, PipeCommand.parse cmd.m_cmd_line = .ok (some r))
    (h : PipeCommand.execute os t cmd = .ok s')
    (h0 : (os t.tick).ret ≠ -1) (h1 : (os (t.tick + 1)).ret ≠ -1)
    (h2 : (os (t.tick + 2)).ret ≠ -1) :
    (∃ a : Answer, Event.waitpid (os (t.tick + 1)).ret .zero a.ret a.stopped ∈ s'.log) ∧
    (∃ a : Answer, Event.waitpid (os (t.tick + 2)).ret .zero a.ret a.stopped ∈ s'.log) := by
  obtain ⟨r, hr⟩ := hparse
  unfold PipeCommand.execute at h
  simp only [hr, SmallShell.lift, bind, Except.bind] at h
  have htick : (t.pipe os).2.tick = t.tick + 1 := by
    unfold SmallShell.pipe
    simp only [SmallShell.sys]
    split_ifs <;> rfl
  have hsome : (t.pipe os).1 ≠ none := by
    unfold SmallShell.pipe
    simp only [SmallShell.sys, h0, if_false]
    simp
  cases hq : t.pipe os with
  | mk o u =>
    rw [hq] at h htick hsome
    cases o with
    | none => exact absurd rfl hsome
    | some fds =>
      obtain ⟨fd0, fd1⟩ := fds
      simp only at h htick
      have := launchBoth_waits os u s' fd0 fd1 h (by rw [htick]; exact h1)
        (by rw [htick]; exact h2)
      rw [htick] at this
      exact this

/-- The text of a redirection that contains `>` is split by
`RedirectionCommand::execute`. -/
theorem RedirectionCommand_parse_some (text : Str) (h : '>' ∈ text) :
    ∃ arrow append leftPart filePart,
      RedirectionCommand.parse text = some (arrow, append, leftPart, filePart) := by
  unfold RedirectionCommand.parse
  cases hs : find_str text ">>".toList with
  | some a => exact ⟨_, _, _, _, rfl⟩
  | none =>
    cases hc : find_char text '>' with
    | none => exact absurd hc (find_char_ne_none text '>' h)
    | some a => exact ⟨_, _, _, _, rfl⟩

/-- `RedirectionCommand::execute` adds no record of its own to the Job Table.
When it returns, either it has returned on one of its error paths, without a
nested call (the result does not depend on the nested `executeCommand`) and
with the table it was called with, or the nested `executeCommand` was called on
the command part, from the table it was called with, and has returned, and the
table is the one that call returned. -/
theorem RedirectionCommand_execute_nested (os : OS)
    (nested : SmallShell → Str → Run SmallShell) (t s' : SmallShell) (cmd : Command)
    (arrow : Nat) (append : Bool) (leftPart filePart : Str)
    (hp : RedirectionCommand.parse cmd.m_cmd_line = some (arrow, append, leftPart, filePart))
    (h : RedirectionCommand.execute os nested t cmd = .ok s') :
    (s'.m_jobsMap = t.m_jobsMap ∧
      ∀ other : SmallShell → Str → Run SmallShell,
        RedirectionCommand.execute os other t cmd = .ok s') ∨
      ∃ t1 t2, nested t1 leftPart = .ok t2 ∧ t1.m_jobsMap = t.m_jobsMap ∧
        s'.m_jobsMap = t2.m_jobsMap := by
  have hopen : ∀ (w : SmallShell) (p : Str) (a : Bool),
      (w.openForWrite os p a).2.m_jobsMap = w.m_jobsMap := by
    intro w p a
    unfold SmallShell.openForWrite
    simp only [SmallShell.sys]
    split_ifs <;> rfl
  have hdup : ∀ (w : SmallShell) (a : Int), (w.dup os a).2.m_jobsMap = w.m_jobsMap := by
    intro w a
    unfold SmallShell.dup
    simp only [SmallShell.sys]
    split
    · rfl
    · split_ifs <;> rfl
  have hdup2 : ∀ (w : SmallShell) (a b : Int), (w.dup2 os a b).2.m_jobsMap = w.m_jobsMap := by
    intro w a b
    unfold SmallShell.dup2
    simp only [SmallShell.sys]
    split
    · rfl
    · split_ifs <;> rfl
  have hclose : ∀ (w : SmallShell) (a : Int), (w.close a).m_jobsMap = w.m_jobsMap :=
    fun _ _ => rfl
  have hcerr : ∀ (w : SmallShell) (a : Str), (w.cerr a).m_jobsMap = w.m_jobsMap :=
    fun _ _ => rfl
  have hexec : ∀ n : SmallShell → Str → Run SmallShell,
      RedirectionCommand.execute os n t cmd =
        (if filePart = [] then
          .ok (t.cerr "smash error: redirection: missing output file".toList)
        else
          if (t.openForWrite os filePart append).1 = -1 then
            .ok ((t.openForWrite os filePart append).2.cerr "smash error: open failed".toList)
          else
            if ((t.openForWrite os filePart append).2.dup os 1).1 = -1 then
              .ok ((((t.openForWrite os filePart append).2.dup os 1).2.cerr
                "smash error: dup failed".toList).close (t.openForWrite os filePart append).1)
            else
              if ((((t.openForWrite os filePart append).2.dup os 1).2.dup2 os
                  (t.openForWrite os filePart append).1 1).1) = -1 then
                .ok ((((((t.openForWrite os filePart append).2.dup os 1).2.dup2 os
                  (t.openForWrite os filePart append).1 1).2.cerr
                    "smash error: dup2 failed".toList).close
                      ((t.openForWrite os filePart append).2.dup os 1).1).close
                        (t.openForWrite os filePart append).1)
              else
                (n (((((t.openForWrite os filePart append).2.dup os 1).2.dup2 os
                    (t.openForWrite os filePart append).1 1).2).close
                    (t.openForWrite os filePart append).1) leftPart >>= fun s2 =>
                  .ok ((if (s2.dup2 os ((t.openForWrite os filePart append).2.dup os 1).1 1).1
                        = -1 then
                      (s2.dup2 os ((t.openForWrite os filePart append).2.dup os 1).1 1).2.cerr
                        "smash error: dup2 failed".toList
                    else (s2.dup2 os ((t.openForWrite os filePart append).2.dup os 1).1 1).2).close
                      ((t.openForWrite os filePart append).2.dup os 1).1))) := by
    intro n
    unfold RedirectionCommand.execute
    rw [hp]
    simp only
    split_ifs <;> rfl
  rw [hexec nested] at h
  split_ifs at h with hf hfd hsv hr
  · injection h with h; subst h
    exact Or.inl ⟨rfl, fun other => by rw [hexec other, if_pos hf]⟩
  · injection h with h; subst h
    exact Or.inl ⟨by rw [hcerr, hopen],
      fun other => by rw [hexec other, if_neg hf, if_pos hfd]⟩
  · injection h with h; subst h
    exact Or.inl ⟨by rw [hclose, hcerr, hdup, hopen],
      fun other => by rw [hexec other, if_neg hf, if_neg hfd, if_pos hsv]⟩
  · injection h with h; subst h
    exact Or.inl ⟨by rw [hclose, hclose, hcerr, hdup2, hdup, hopen],
      fun other => by rw [hexec other, if_neg hf, if_neg hfd, if_neg hsv, if_pos hr]⟩
  · cases hn : nested (((((t.openForWrite os filePart append).2.dup os 1).2.dup2 os
        (t.openForWrite os filePart append).1 1).2).close
        (t.openForWrite os filePart append).1) leftPart with
    | error e => rw [hn] at h; cases h
    | ok t2 =>
      rw [hn] at h
      simp only [bind, Except.bind] at h
      injection h with h
      subst h
      right
      refine ⟨_, t2, hn, ?_, ?_⟩
      · rw [hclose, hdup2, hdup, hopen]
      · rw [hclose]
        split_ifs
        · rw [hcerr, hdup2]
        · rw [hdup2]

/-- C9, amended: a Pipe or Redirection command that `executeCommand` selects
for the background call site (the line, after alias substitution, ends with the
marker) has its background flag set, and is executed as without the flag. A
pipe adds no record to the Job Table and, when the `pipe` call and the two
`fork`s succeed, returns only after a blocking `waitpid` on each of its two
children. A redirection splits its text into a command part and a file part
and adds no record of its own to the Job Table: when it returns, either it has
returned on an error path without a nested call, the table being the one left
by the sweep, or it has handed the command part to the nested `executeCommand`,
that call has returned, and the table is the one that call returned. For
`sleep 5 > f &` the nested command `sleep 5` runs in the foreground (blocking
`waitpid`) and nothing is registered. -/
theorem C9_marker_not_honored (os : OS) (depth : Nat) (s : SmallShell) (line : Str)
    (cmd : Command)
    (hsel : selectCommand s line = .ok (some (cmd, .background))) :
    cmd.m_isBackground = true ∧
    (cmd.kind = .PipeCommand →
      (∀ t, PipeCommand.execute os t cmd =
        PipeCommand.execute os t { cmd with m_isBackground := false }) ∧
      (∀ kv ∈ (executeCommand os depth s line).state.m_jobsMap, kv ∈ s.m_jobsMap) ∧
      (∀ s1 s', s.removeFinishedJobs os = .ok s1 → executeCommand os depth s line = .ok s' →
        (os s1.tick).ret ≠ -1 → (os (s1.tick + 1)).ret ≠ -1 → (os (s1.tick + 2)).ret ≠ -1 →
        (∃ a : Answer,
          Event.waitpid (os (s1.tick + 1)).ret .zero a.ret a.stopped ∈ s'.log) ∧
        (∃ a : Answer,
          Event.waitpid (os (s1.tick + 2)).ret .zero a.ret a.stopped ∈ s'.log))) ∧
    (cmd.kind = .RedirectionCommand →
      (∀ t, RedirectionCommand.execute os (executeCommand.nested os depth) t cmd =
        RedirectionCommand.execute os (executeCommand.nested os depth) t
          { cmd with m_isBackground := false }) ∧
      ∃ arrow append leftPart filePart,
        RedirectionCommand.parse cmd.m_cmd_line = some (arrow, append, leftPart, filePart) ∧
        ∀ s1 s', s.removeFinishedJobs os = .ok s1 → executeCommand os depth s line = .ok s' →
          (s'.m_jobsMap = s1.m_jobsMap ∧
            ∀ other : SmallShell → Str → Run SmallShell,
              RedirectionCommand.execute os other
                { s1 with m_nextBGPrintCmdLine := line } cmd = .ok s') ∨
            ∃ t1 t2, executeCommand.nested os depth t1 leftPart = .ok t2 ∧
              t1.m_jobsMap = s1.m_jobsMap ∧ s'.m_jobsMap = t2.m_jobsMap) ∧
    ((executeCommand plainOS 1 SmallShell.init "sleep 5 > f &".toList).state.log =
        [.open "f".toList false 3, .dup 1 4, .dup2 3 1 1, .close 3, .fork 103,
         .waitpid 103 .WUNTRACED 104 false, .dup2 4 1 1, .close 4] ∧
      (executeCommand plainOS 1 SmallShell.init "sleep 5 > f &".toList).state.m_jobsMap = []) := by
  have hnb : ¬ isBlank line := selectCommand_not_blank s line cmd _ hsel
  have hflag : cmd.m_isBackground = true := by
    obtain ⟨e, -, hbg, hcc, -⟩ := selectCommand_background s line cmd hsel
    obtain ⟨-, hnew, -, -⟩ := CreateCommand_inv e cmd hcc
    exact (Command_new_background cmd.kind e cmd hbg hnew).1
  have hexec := executeCommand_eq os depth s line hnb
  have hrun : ∀ s1, s.removeFinishedJobs os = .ok s1 →
      executeCommand os depth s line = cmd.execute os (executeCommand.nested os depth)
        { s1 with m_nextBGPrintCmdLine := line } := by
    intro s1 hrf
    rw [hexec, hrf]
    have hal := SmallShell.removeFinishedJobs_aliases os s s1 hrf
    simp only [bind, Except.bind]
    rw [selectCommand_congr s1 s line hal, hsel]
    simp only [if_true]
  refine ⟨hflag, ?_, ?_, by decide!, by decide!⟩
  · intro hk
    refine ⟨fun t => rfl, ?_, ?_⟩
    · have hT : ∀ e : Event, e.isFork = false → (fun _ : Event => True) e := fun _ _ => trivial
      have hfr : Frame (fun _ => True) (fun _ => False) s
          (executeCommand os depth s line).state := by
        have h1 := SmallShell.frame_removeFinishedJobs (P := fun _ => True)
          (Q := fun _ => False) hT os s
        cases hrf : s.removeFinishedJobs os with
        | error e =>
          rw [hexec, hrf]
          rw [hrf] at h1
          exact h1
        | ok s1 =>
          rw [hrun s1 hrf]
          rw [hrf] at h1
          refine Frame.trans h1 (Frame.trans (b :=
            { s1 with m_nextBGPrintCmdLine := line }) (Frame.of_eq rfl rfl) ?_)
          unfold Command.execute
          rw [hk]
          exact frame_PipeCommand os _ cmd
      exact hfr.jobs_subset
    · intro s1 s' hrf hok h0 h1 h2
      rw [hrun s1 hrf] at hok
      unfold Command.execute at hok
      rw [hk] at hok
      simp only at hok
      exact PipeCommand_execute_waits os { s1 with m_nextBGPrintCmdLine := line } s' cmd
        (PipeCommand_parse_some _ ((operator_text_mem s line cmd _ hsel).1 hk)) hok h0 h1 h2
  · intro hk
    obtain ⟨arrow, append, leftPart, filePart, hparse⟩ :=
      RedirectionCommand_parse_some _ ((operator_text_mem s line cmd _ hsel).2 hk)
    refine ⟨fun t => rfl, arrow, append, leftPart, filePart, hparse, ?_⟩
    intro s1 s' hrf hok
    rw [hrun s1 hrf] at hok
    unfold Command.execute at hok
    rw [hk] at hok
    simp only at hok
    exact RedirectionCommand_execute_nested os _ _ s' cmd arrow append leftPart filePart
      hparse hok

/-- The theorem `C9_marker_not_honored` at the line `a | b &`: the pipe object
is selected for the background call site, with the background flag set, and
the run leaves the Job Table of the initial shell without a record. -/
theorem C9_witness :
    selectCommand SmallShell.init "a | b &".toList =
      .ok (some ({ kind := .PipeCommand, m_args := ["a".toList, "|".toList, "b".toList],
                   m_cmd_line := "a | b  ".toList, m_args_num := 3,
                   m_isBackground := true }, .background)) ∧
    (∀ kv ∈ (executeCommand plainOS 0 SmallShell.init "a | b &".toList).state.m_jobsMap,
      kv ∈ SmallShell.init.m_jobsMap) :=
  ⟨by decide!,
   ((C9_marker_not_honored plainOS 0 SmallShell.init "a | b &".toList
      { kind := .PipeCommand, m_args := ["a".toList, "|".toList, "b".toList],
        m_cmd_line := "a | b  ".toList, m_args_num := 3, m_isBackground := true }
      (by decide!)).2.1 rfl).2.1⟩

/-! ## Foreground promotion -/

open SmallShell

/-- A digit is no whitespace and no sign. -/
theorem isDigit_facts (c : Char) (h : c.isDigit = true) :
    isspace c = false ∧ c ≠ '-' ∧ c ≠ '+' := by
  have hv : 48 ≤ c.val ∧ c.val ≤ 57 := by
    simpa [Char.isDigit] using h
  refine ⟨?_, ?_, ?_⟩
  · unfold isspace
    simp only [Bool.or_eq_false_iff, beq_eq_false_iff_ne, ne_eq]
    refine ⟨⟨⟨⟨⟨?_, ?_⟩, ?_⟩, ?_⟩, ?_⟩, ?_⟩ <;> (intro hc; rw [hc] at hv; revert hv; decide)
  · intro hc; rw [hc] at hv; revert hv; decide
  · intro hc; rw [hc] at hv; revert hv; decide

/-- `std::stoi` reads a decimal numeral that fits an `int` as its value. -/
theorem stoi_of_decimal (w : Str) (n : Nat) (h : decimalValue w = some n)
    (hn : n ≤ 2147483647) : stoi w = some (n : Int) := by
  unfold decimalValue at h
  split_ifs at h with hw
  obtain ⟨hne, hall⟩ := hw
  injection h with h
  have hall' : ∀ c ∈ w, c.isDigit = true := by simpa [List.all_eq_true] using hall
  cases w with
  | nil => exact absurd rfl hne
  | cons c cs =>
    obtain ⟨hsp, hm, hp⟩ := isDigit_facts c (hall' c (List.mem_cons_self _ _))
    have htw : (c :: cs).takeWhile Char.isDigit = c :: cs := by
      rw [List.takeWhile_eq_self_iff]; exact hall'
    have hdw : (c :: cs).dropWhile isspace = c :: cs := by
      simp [List.dropWhile, hsp]
    have hmatch : stoi.match_1 (fun _ => Bool × Str) (c :: cs) (fun r => (true, r))
        (fun r => (false, r)) (fun _ => (false, c :: cs)) = (false, c :: cs) := by
      split
      · rename_i heq; injection heq with h1 h2; exact absurd h1 hm
      · rename_i heq; injection heq with h1 h2; exact absurd h1 hp
      · rfl
    unfold stoi
    simp only [hdw, hmatch, htw]
    rw [if_neg (by simp)]
    simp only [Bool.false_eq_true, if_false]
    rw [h]
    rw [if_neg (by omega)]

/-- `isNumber` accepts a decimal numeral that fits an `int`. -/
theorem isNumber_of_decimal (w : Str) (n : Nat) (h : decimalValue w = some n)
    (hn : n ≤ 2147483647) : isNumber w = some (n : Int) := by
  unfold isNumber
  have : w ≠ [] := by
    intro hw; rw [hw] at h; simp [decimalValue] at h
  rw [if_neg this]
  exact stoi_of_decimal w n h hn

/-- `isNumber` rejects a decimal numeral that does not fit an `int`: `stoi`
throws `out_of_range`, which `isNumber` catches. -/
theorem isNumber_of_decimal_large (w : Str) (n : Nat) (h : decimalValue w = some n)
    (hn : 2147483647 < n) : isNumber w = none := by
  have hw0 : w ≠ [] := by
    intro hw; rw [hw] at h; simp [decimalValue] at h
  unfold isNumber
  rw [if_neg hw0]
  unfold decimalValue at h
  split_ifs at h with hw
  obtain ⟨hne, hall⟩ := hw
  injection h with h
  have hall' : ∀ c ∈ w, c.isDigit = true := by simpa [List.all_eq_true] using hall
  cases w with
  | nil => exact absurd rfl hne
  | cons c cs =>
    obtain ⟨hsp, hm, hp⟩ := isDigit_facts c (hall' c (List.mem_cons_self _ _))
    have htw : (c :: cs).takeWhile Char.isDigit = c :: cs := by
      rw [List.takeWhile_eq_self_iff]; exact hall'
    have hdw : (c :: cs).dropWhile isspace = c :: cs := by
      simp [List.dropWhile, hsp]
    have hmatch : stoi.match_1 (fun _ => Bool × Str) (c :: cs) (fun r => (true, r))
        (fun r => (false, r)) (fun _ => (false, c :: cs)) = (false, c :: cs) := by
      split
      · rename_i heq; injection heq with h1 h2; exact absurd h1 hm
      · rename_i heq; injection heq with h1 h2; exact absurd h1 hp
      · rfl
    unfold stoi
    simp only [hdw, hmatch, htw]
    rw [if_neg (by simp)]
    simp only [Bool.false_eq_true, if_false]
    rw [h]
    rw [if_pos (by omega)]

/-- In a map with strictly ascending keys, `find` returns the entry stored under
the key. -/
theorem mapFind_of_mem (m : List (Int × JobPtr)) (hp : m.Pairwise (fun a b => a.1 < b.1))
    (j : Int) (ptr : JobPtr) (h : (j, ptr) ∈ m) : mapFind m j = some ptr := by
  induction m with
  | nil => cases h
  | cons kv m ih =>
    obtain ⟨k, v⟩ := kv
    rw [List.pairwise_cons] at hp
    rcases List.mem_cons.1 h with h | h
    · injection h with h1 h2
      subst h1; subst h2
      simp [mapFind, List.find?]
    · have hk : k ≠ j := by
        have := hp.1 _ h
        simp only at this
        omega
      have := ih hp.2 h
      unfold mapFind at this ⊢
      simp only [List.find?, beq_iff_eq, hk, ↓reduceIte]
      have hkj : ((k, v).1 == j) = false := by simpa using hk
      simp only [hkj]
      exact this

/-- `find` returns an entry exactly when the key is in the map. -/
theorem mapFind_eq_none (m : List (Int × JobPtr)) (j : Int) :
    mapFind m j = none ↔ ∀ kv ∈ m, kv.1 ≠ j := by
  unfold mapFind
  simp [List.find?_eq_none]

/-- The last entry of a map with ascending keys has the greatest key. -/
theorem getLast_max (m : List (Int × JobPtr)) (hp : m.Pairwise (fun a b => a.1 < b.1))
    (hne : m ≠ []) : ∃ kv, m.getLast? = some kv ∧ kv ∈ m ∧ ∀ x ∈ m, x.1 ≤ kv.1 := by
  induction m with
  | nil => exact absurd rfl hne
  | cons a m ih =>
    rw [List.pairwise_cons] at hp
    by_cases hm : m = []
    · subst hm
      exact ⟨a, rfl, List.mem_cons_self _ _, by simp⟩
    · obtain ⟨kv, h1, h2, h3⟩ := ih hp.2 hm
      refine ⟨kv, ?_, List.mem_cons_of_mem _ h2, ?_⟩
      · cases m with
        | nil => exact absurd rfl hm
        | cons b m => rw [List.getLast?_cons_cons]; exact h1
      · intro x hx
        rcases List.mem_cons.1 hx with hx | hx
        · subst hx; exact le_of_lt (hp.1 _ h2)
        · exact h3 x hx

/-- What `ForegroundCommand::execute` has done when it reaches its `waitpid`, for
a job id the map holds: the slot holds the entry, the entry is out of the map
and of the queues, a stopped job was sent `SIGCONT`, and the allocator is as
before. -/
theorem promote_spec (os : OS) (s : SmallShell) (j : Int) (ptr : JobPtr)
    (h : s.getJobById j = some ptr) :
    ∃ t, ForegroundCommand.promote os s j = .ok t ∧
      t.m_cJobId = j ∧ t.m_cJPid = ptr.obj.m_pid ∧
      t.m_cJCommandLine = ptr.obj.m_procecced_commandLine ∧
      t.m_cJPrintCommandLine = ptr.obj.m_org_commandLine ∧
      t.m_cJisStopped = ptr.obj.m_isStopped ∧
      t.m_cJinsertionTime = ptr.obj.m_insertionTime ∧
      t.m_jobsMap = mapErase s.m_jobsMap j ∧
      t.m_runningJobsQueue = queueRemove s.m_runningJobsQueue ptr ∧
      t.m_stoppedJobsQueue = queueRemove s.m_stoppedJobsQueue ptr ∧
      t.m_jobIDArray = s.m_jobIDArray ∧ t.heap = s.heap ∧ t.fds = s.fds ∧
      t.tick = s.tick + (if ptr.obj.m_isStopped then 1 else 0) ∧
      t.log = s.log ++
        (if ptr.obj.m_isStopped then [Event.kill ptr.obj.m_pid SIGCONT (os s.tick).ret] else []) ++
        [Event.stdout (ptr.obj.m_org_commandLine ++ " ".toList ++ showInt ptr.obj.m_pid)] := by
  unfold getJobById at h
  unfold ForegroundCommand.promote setBGJobToFGbyJID getJobById
  rw [h]
  simp only [bind, Except.bind, pure, Except.pure]
  cases hst : ptr.obj.m_isStopped
  · refine ⟨_, rfl, ?_⟩
    simp [removeBGjobByJID, cout, emit, h, hst]
  · refine ⟨_, rfl, ?_⟩
    simp [removeBGjobByJID, cout, emit, sys, h, hst]

/-- C11, where it fails: with job 1 (pid 4242) in the Job Table, the argument
of `fg 99999999999` is a decimal numeral and no id of the table, yet the line
written is `invalid arguments`, not `job-id 99999999999 does not exist`;
`fg 7` writes `job-id 7 does not exist`. -/
theorem C11_counterexample :
    afterStop.state.jobsShown = [(1, 4242, "sleep 100")] ∧
    decimalValue "99999999999".toList = some 99999999999 ∧
    afterStop.state.getJobById 99999999999 = none ∧
    (executeCommand stoppingOS 0 afterStop.state "fg 99999999999".toList).fault = none ∧
    (executeCommand stoppingOS 0 afterStop.state "fg 99999999999".toList).state.log.drop
        afterStop.state.log.length =
      [.waitpid 4242 .WNOHANG 0 false,
       .stderr "smash error: fg: invalid arguments".toList] ∧
    (executeCommand stoppingOS 0 afterStop.state "fg 7".toList).state.log.drop
        afterStop.state.log.length =
      [.waitpid 4242 .WNOHANG 0 false,
       .stderr "smash error: fg: job-id 7 does not exist".toList] := by
  decide!

/-- C11, amended: the target of `fg`. Without an argument and with a non-empty
Job Table the id selected is the greatest key of the table; with one decimal
argument `n` that fits an `int` (at most 2147483647) and that the table holds
it is `n`; in both cases the entry under that id is then promoted (the slot
takes its pid and the entry leaves the table) before the blocking wait. With an
empty table and no argument, with a decimal argument that fits an `int` and
that the table does not hold, with a decimal argument that does not fit an
`int`, and with more than one argument, `execute` returns having written one
line to standard error (`jobs list is empty`, `job-id n does not exist`,
`invalid arguments`, `invalid arguments`) and nothing else: no signal is sent
and no field of the state but the log differs. -/
theorem C11_fg_target_selection (os : OS) (s : SmallShell) (cmd : Command) :
    (cmd.m_args_num < 2 → s.m_jobsMap ≠ [] → tableWellFormed s.m_jobsMap →
      ∃ j ptr t, (j, ptr) ∈ s.m_jobsMap ∧ (∀ kv ∈ s.m_jobsMap, kv.1 ≤ j) ∧
        ForegroundCommand.select s cmd = .ok (some j, s) ∧
        ForegroundCommand.promote os s j = .ok t ∧ t.m_cJobId = j ∧
        t.m_cJPid = ptr.obj.m_pid ∧ t.m_jobsMap = mapErase s.m_jobsMap j ∧
        ForegroundCommand.execute os s cmd =
          (t.waitpidBlocking os ptr.obj.m_pid .WUNTRACED >>= fun r =>
            ForegroundCommand.afterWait os r.2 r.1)) ∧
    (∀ w arg n ptr, cmd.m_args_num = 2 → cmd.m_args = [w, arg] → decimalValue arg = some n →
      n ≤ 2147483647 → s.getJobById n = some ptr →
      ∃ t, ForegroundCommand.select s cmd = .ok (some (n : Int), s) ∧
        ForegroundCommand.promote os s n = .ok t ∧ t.m_cJobId = n ∧
        t.m_cJPid = ptr.obj.m_pid ∧ t.m_jobsMap = mapErase s.m_jobsMap n ∧
        ForegroundCommand.execute os s cmd =
          (t.waitpidBlocking os ptr.obj.m_pid .WUNTRACED >>= fun r =>
            ForegroundCommand.afterWait os r.2 r.1)) ∧
    (cmd.m_args_num < 2 → s.m_jobsMap = [] →
      ForegroundCommand.execute os s cmd =
        .ok (s.cerr "smash error: fg: jobs list is empty".toList)) ∧
    (∀ w arg n, cmd.m_args_num = 2 → cmd.m_args = [w, arg] → decimalValue arg = some n →
      n ≤ 2147483647 → s.getJobById n = none →
      ForegroundCommand.execute os s cmd =
        .ok (s.cerr ("smash error: fg: job-id ".toList ++ showInt n ++
          " does not exist".toList))) ∧
    (∀ w arg n, cmd.m_args_num = 2 → cmd.m_args = [w, arg] → decimalValue arg = some n →
      2147483647 < n →
      ForegroundCommand.execute os s cmd =
        .ok (s.cerr "smash error: fg: invalid arguments".toList)) ∧
    (cmd.m_args_num > 2 →
      ForegroundCommand.execute os s cmd =
        .ok (s.cerr "smash error: fg: invalid arguments".toList)) ∧
    (∀ msg, s.sameButLog (s.cerr msg) ∧ (s.cerr msg).log = s.log ++ [Event.stderr msg]) := by
  have hexec : ∀ (j : Int) (ptr : JobPtr) (t : SmallShell),
      ForegroundCommand.select s cmd = .ok (some j, s) →
      ForegroundCommand.promote os s j = .ok t → t.m_cJPid = ptr.obj.m_pid →
      ForegroundCommand.execute os s cmd =
        (t.waitpidBlocking os ptr.obj.m_pid .WUNTRACED >>= fun r =>
          ForegroundCommand.afterWait os r.2 r.1) := by
    intro j ptr t hsel hpro hpid
    unfold ForegroundCommand.execute
    rw [hsel]
    simp only [bind, Except.bind]
    rw [hpro]
    simp only [hpid]
  refine ⟨?_, ?_, ?_, ?_, ?_, ?_, ?_⟩
  · intro hnum hne hwf
    obtain ⟨kv, hlast, hmem, hmax⟩ := getLast_max s.m_jobsMap hwf.1 hne
    obtain ⟨k, ptr⟩ := kv
    have hfind : s.getJobById k = some ptr := mapFind_of_mem _ hwf.1 k ptr hmem
    have hid : ptr.obj.m_jobId = k := (hwf.2 _ hmem).1
    obtain ⟨t, hpro, h1, h2, _, _, _, _, h3, _⟩ := promote_spec os s k ptr hfind
    have hsel : ForegroundCommand.select s cmd = .ok (some k, s) := by
      unfold ForegroundCommand.select
      have hb : s.isBGNotEmpty = true := by
        unfold isBGNotEmpty
        cases hm : s.m_jobsMap with
        | nil => exact absurd hm hne
        | cons a l => rfl
      have hl : s.getLastJob = some ptr := by
        unfold getLastJob; rw [hlast]; rfl
      rw [if_neg (by omega), if_neg (by omega), if_pos hb, hl]
      simp only [hid]
      rfl
    exact ⟨k, ptr, t, hmem, hmax, hsel, hpro, h1, h2, h3, hexec k ptr t hsel hpro h2⟩
  · intro w arg n ptr hnum hargs hdec hn hfind
    obtain ⟨t, hpro, h1, h2, _, _, _, _, h3, _⟩ := promote_spec os s n ptr hfind
    have hsel : ForegroundCommand.select s cmd = .ok (some (n : Int), s) := by
      unfold ForegroundCommand.select
      have hb : s.isBGNotEmpty = true := by
        unfold isBGNotEmpty
        cases hm : s.m_jobsMap with
        | nil => simp [getJobById, mapFind, hm] at hfind
        | cons a l => rfl
      have hc : s.isContainsBGJob n = true := by
        unfold isContainsBGJob; unfold getJobById at hfind; rw [hfind]; rfl
      have harg : cmd.getArg 1 = .ok arg := by
        unfold Command.getArg
        rw [if_neg (by omega), hargs]; rfl
      rw [if_neg (by omega), if_pos hnum, harg]
      simp only [lift, bind, Except.bind, isNumber_of_decimal arg n hdec hn, hb, hc]
      rfl
    exact ⟨t, hsel, hpro, h1, h2, h3, hexec n ptr t hsel hpro h2⟩
  · intro hnum hempty
    unfold ForegroundCommand.execute ForegroundCommand.select
    have hb : s.isBGNotEmpty = false := by
      unfold isBGNotEmpty; rw [hempty]; rfl
    rw [if_neg (by omega), if_neg (by omega), hb]
    rfl
  · intro w arg n hnum hargs hdec hn hfind
    unfold ForegroundCommand.execute ForegroundCommand.select
    have hc : s.isContainsBGJob n = false := by
      unfold isContainsBGJob; unfold getJobById at hfind; rw [hfind]; rfl
    have harg : cmd.getArg 1 = .ok arg := by
      unfold Command.getArg
      rw [if_neg (by omega), hargs]; rfl
    rw [if_neg (by omega), if_pos hnum, harg]
    simp only [lift, bind, Except.bind, isNumber_of_decimal arg n hdec hn, hc]
    cases s.isBGNotEmpty <;> rfl
  · intro w arg n hnum hargs hdec hn
    unfold ForegroundCommand.execute ForegroundCommand.select
    have harg : cmd.getArg 1 = .ok arg := by
      unfold Command.getArg
      rw [if_neg (by omega), hargs]; rfl
    rw [if_neg (by omega), if_pos hnum, harg]
    simp only [lift, bind, Except.bind, isNumber_of_decimal_large arg n hdec hn]
    rfl
  · intro hnum
    unfold ForegroundCommand.execute ForegroundCommand.select
    rw [if_pos hnum]
    rfl
  · intro msg
    exact ⟨⟨rfl, rfl, rfl, rfl, rfl, rfl, rfl, rfl, rfl, rfl, rfl, rfl, rfl, rfl, rfl, rfl, rfl⟩,
      rfl⟩

/-! ## The `kill` builtin -/

/-- C14 as stated fails at `kill -9x 1` and at `kill -+9 1x`, with job 1 (pid
4242) in the Job Table: `9x` and `+9` are no decimal numerals and `1x` is none,
yet no error is reported and signal 9 is sent to pid 4242. -/
theorem C14_counterexample :
    decimalValue "9x".toList = none ∧ decimalValue "+9".toList = none ∧
    decimalValue "1x".toList = none ∧
    afterStop.state.jobsShown = [(1, 4242, "sleep 100")] ∧
    (executeCommand stoppingOS 0 afterStop.state "kill -9x 1".toList).state.log.drop
        afterStop.state.log.length =
      [.waitpid 4242 .WNOHANG 0 false,
       .stdout "signal number 9 was sent to pid 4242".toList, .kill 4242 9 0] ∧
    (executeCommand stoppingOS 0 afterStop.state "kill -+9 1x".toList).state.log.drop
        afterStop.state.log.length =
      [.waitpid 4242 .WNOHANG 0 false,
       .stdout "signal number 9 was sent to pid 4242".toList, .kill 4242 9 0] := by
  decide!

/-- C14, amended: `KillCommand::execute` writes `smash error: kill: invalid
arguments` when the argument count is not 3, when the second token does not
begin with `-`, when `std::stoi` rejects the text after that `-` or rejects the
third token, and when the job id it reads is negative; it writes `job-id <id>
does not exist` when the job id it reads is 0 or is no key of the Job Table,
whatever the foreground slot holds. In each of these cases it returns with that
one line on standard error and nothing else: no signal is sent and no field of
the state but the log differs. -/
theorem C14_kill_rejections (os : OS) (s : SmallShell) (cmd : Command) :
    (cmd.m_args_num ≠ 3 → KillCommand.execute os s cmd = .ok (s.cerr KillCommand.invalid)) ∧
    (∀ w a1 a2, cmd.m_args_num = 3 → cmd.m_args = [w, a1, a2] →
      (a1.head? ≠ some '-' → KillCommand.execute os s cmd = .ok (s.cerr KillCommand.invalid)) ∧
      (∀ rest, a1 = '-' :: rest →
        (stoi rest = none → KillCommand.execute os s cmd = .ok (s.cerr KillCommand.invalid)) ∧
        (∀ sig_num, stoi rest = some sig_num →
          (stoi a2 = none →
            KillCommand.execute os s cmd = .ok (s.cerr KillCommand.invalid)) ∧
          (∀ job_id, stoi a2 = some job_id →
            (job_id < 0 →
              KillCommand.execute os s cmd = .ok (s.cerr KillCommand.invalid)) ∧
            (job_id = 0 ∨ (0 < job_id ∧ s.getJobById job_id = none) →
              KillCommand.execute os s cmd =
                .ok (s.cerr ("smash error: kill: job-id ".toList ++ showInt job_id ++
                  " does not exist".toList))))))) ∧
    (∀ msg, s.sameButLog (s.cerr msg) ∧ (s.cerr msg).log = s.log ++ [Event.stderr msg]) := by
  refine ⟨?_, ?_, ?_⟩
  · intro hnum
    unfold KillCommand.execute
    rw [if_pos hnum]; rfl
  · intro w a1 a2 hnum hargs
    have harg1 : cmd.getArg 1 = .ok a1 := by
      unfold Command.getArg
      rw [if_neg (by omega), hargs]; rfl
    have harg2 : cmd.getArg 2 = .ok a2 := by
      unfold Command.getArg
      rw [if_neg (by omega), hargs]; rfl
    have h3 : ¬ cmd.m_args_num ≠ 3 := by omega
    refine ⟨?_, ?_⟩
    · intro hhead
      unfold KillCommand.execute
      rw [if_neg h3, harg1]
      cases a1 with
      | nil => rfl
      | cons c r =>
        have hc : c ≠ '-' := by
          intro hc; apply hhead; rw [hc]; rfl
        simp only [lift, bind, Except.bind, hc, ne_eq, not_false_eq_true, ↓reduceIte]
        rfl
    · intro rest ha1
      subst ha1
      refine ⟨?_, ?_⟩
      · intro hsig
        unfold KillCommand.execute
        rw [if_neg h3, harg1]
        simp only [lift, bind, Except.bind, ne_eq, not_true_eq_false, ↓reduceIte, hsig]
        rfl
      · intro sig_num hsig
        refine ⟨?_, ?_⟩
        · intro hid
          unfold KillCommand.execute
          rw [if_neg h3, harg1, harg2]
          simp only [lift, bind, Except.bind, ne_eq, not_true_eq_false, ↓reduceIte, hsig, hid]
          rfl
        · intro job_id hid
          refine ⟨?_, ?_⟩
          · intro hneg
            unfold KillCommand.execute
            rw [if_neg h3, harg1, harg2]
            simp only [lift, bind, Except.bind, ne_eq, not_true_eq_false, ↓reduceIte, hsig, hid,
              hneg]
            rfl
          · intro hcase
            have hnn : ¬ job_id < 0 := by
              rcases hcase with h | h <;> omega
            have hcond : job_id = 0 ∨ (!s.isContainsBGJob job_id) = true := by
              rcases hcase with h | h
              · left; exact h
              · right
                unfold isContainsBGJob; unfold getJobById at h; rw [h.2]; rfl
            unfold KillCommand.execute
            rw [if_neg h3, harg1, harg2]
            simp only [lift, bind, Except.bind, ne_eq, not_true_eq_false, ↓reduceIte, hsig, hid,
              hnn, hcond]
            rfl
  · intro msg
    exact ⟨⟨rfl, rfl, rfl, rfl, rfl, rfl, rfl, rfl, rfl, rfl, rfl, rfl, rfl, rfl, rfl, rfl, rfl⟩,
      rfl⟩

/-- C15: `KillCommand::execute` writes the line `signal number <n> was sent to
pid <p>` before it calls `kill`, whatever `kill` then returns. For every state,
every well-formed `kill -<n> <id>` and every entry under `id`, the log grows by
that line, then by the call, then by `smash error: kill failed` when the call
returned -1. With job 1 (pid 4242) in the Job Table and a `kill` call that
fails, `kill -9999 1` writes `signal number 9999 was sent to pid 4242` and then
the error. -/
theorem C15_success_line_written_before_kill (os : OS) (s : SmallShell) (cmd : Command) :
    (∀ w rest a2 sig_num job_id ptr, cmd.m_args_num = 3 → cmd.m_args = [w, '-' :: rest, a2] →
      stoi rest = some sig_num → stoi a2 = some job_id → 0 < job_id →
      s.getJobById job_id = some ptr →
      ∃ t, KillCommand.execute os s cmd = .ok t ∧
        t.log = s.log ++
          [Event.stdout ("signal number ".toList ++ showInt sig_num ++
              " was sent to pid ".toList ++ showInt ptr.obj.m_pid),
           Event.kill ptr.obj.m_pid sig_num (os s.tick).ret] ++
          (if (os s.tick).ret = -1 then [Event.stderr "smash error: kill failed".toList]
           else [])) ∧
    (afterStop.state.jobsShown = [(1, 4242, "sleep 100")] ∧
      (executeCommand killFailOS 0 afterStop.state "kill -9999 1".toList).state.log.drop
          afterStop.state.log.length =
        [.waitpid 4242 .WNOHANG 0 false,
         .stdout "signal number 9999 was sent to pid 4242".toList,
         .kill 4242 9999 (-1),
         .stderr "smash error: kill failed".toList]) := by
  refine ⟨?_, by decide!⟩
  intro w rest a2 sig_num job_id ptr hnum hargs hsig hid hpos hfind
  have harg1 : cmd.getArg 1 = .ok ('-' :: rest) := by
    unfold Command.getArg
    rw [if_neg (by omega), hargs]; rfl
  have harg2 : cmd.getArg 2 = .ok a2 := by
    unfold Command.getArg
    rw [if_neg (by omega), hargs]; rfl
  have h3 : ¬ cmd.m_args_num ≠ 3 := by omega
  have hnn : ¬ job_id < 0 := by omega
  have hcond : ¬ (job_id = 0 ∨ (!s.isContainsBGJob job_id) = true) := by
    have : s.isContainsBGJob job_id = true := by
      unfold isContainsBGJob; unfold getJobById at hfind; rw [hfind]; rfl
    rw [this]
    simp only [Bool.not_true, Bool.false_eq_true, or_false]
    omega
  unfold KillCommand.execute
  rw [if_neg h3, harg1, harg2]
  simp only [lift, bind, Except.bind, ne_eq, not_true_eq_false, ↓reduceIte, hsig, hid, hnn,
    hcond, hfind]
  have htick : (s.cout ("signal number ".toList ++ showInt sig_num ++
      " was sent to pid ".toList ++ showInt ptr.obj.m_pid)).tick = s.tick := rfl
  simp only [sys, htick]
  by_cases hret : (os s.tick).ret = -1
  · rw [if_pos hret, if_pos hret]
    exact ⟨_, rfl, by simp [cerr, cout, emit, hret]⟩
  · rw [if_neg hret, if_neg hret]
    exact ⟨_, rfl, by simp [cout, emit]⟩

/-! ## The Job Table -/

/-- Inserting under a key the map does not hold adds the entry and keeps the
others. -/
theorem mem_mapInsert_iff (key : Int) (value : JobPtr) (m : List (Int × JobPtr))
    (hfresh : ∀ kv ∈ m, kv.1 ≠ key) (kv : Int × JobPtr) :
    kv ∈ mapInsert key value m ↔ kv = (key, value) ∨ kv ∈ m := by
  induction m with
  | nil => simp [mapInsert]
  | cons a m ih =>
    obtain ⟨k, v⟩ := a
    have hk : k ≠ key := hfresh (k, v) (List.mem_cons_self _ _)
    have ih' := ih (fun kv h => hfresh kv (List.mem_cons_of_mem _ h))
    simp only [mapInsert]
    split_ifs with h1 h2
    · simp
    · exact absurd h2.symm hk
    · simp only [List.mem_cons, ih']
      tauto

theorem mem_mapInsert_self (key : Int) (value : JobPtr) (m : List (Int × JobPtr))
    (hfresh : ∀ kv ∈ m, kv.1 ≠ key) : (key, value) ∈ mapInsert key value m :=
  (mem_mapInsert_iff key value m hfresh _).2 (Or.inl rfl)

/-- Insertion keeps the keys in strictly ascending order. -/
theorem mapInsert_pairwise (key : Int) (value : JobPtr) (m : List (Int × JobPtr))
    (hp : m.Pairwise (fun a b => a.1 < b.1)) :
    (mapInsert key value m).Pairwise (fun a b => a.1 < b.1) := by
  induction m with
  | nil => simp [mapInsert]
  | cons a m ih =>
    obtain ⟨k, v⟩ := a
    rw [List.pairwise_cons] at hp
    simp only [mapInsert]
    split_ifs with h1 h2
    · rw [List.pairwise_cons]
      refine ⟨?_, List.pairwise_cons.2 hp⟩
      intro b hb
      rcases List.mem_cons.1 hb with hb | hb
      · rw [hb]; exact h1
      · exact lt_trans h1 (hp.1 b hb)
    · exact List.pairwise_cons.2 hp
    · rw [List.pairwise_cons]
      refine ⟨?_, ih hp.2⟩
      intro b hb
      rcases mem_mapInsert hb with hb | hb
      · rw [hb]; simp only; omega
      · exact hp.1 b hb

/-- Erasure keeps the keys in strictly ascending order. -/
theorem mapErase_pairwise (j : Int) (m : List (Int × JobPtr))
    (hp : m.Pairwise (fun a b => a.1 < b.1)) :
    (mapErase m j).Pairwise (fun a b => a.1 < b.1) :=
  hp.sublist (List.filter_sublist _)

/-- `JobsList::addJob` with an id that `setJobIdUsed` accepts: the entry built
by the constructor of `JobEntry` is inserted under that id, the id is marked in
use, and the entry is appended to the queue of its kind. -/
theorem addJob_spec (os : OS) (s : SmallShell) (pid : Int) (line : Str) (isStopped : Bool)
    (jobId : Int) (text : Str) (id : Int)
    (hid : id = if jobId = -1 then s.getNextFreeJobId else jobId)
    (hr : 0 < id ∧ id < (MAX_BG_JOBS : Int)) :
    ∃ t, s.addJob os pid line isStopped jobId text = .ok t ∧
      t.m_jobsMap = mapInsert id
        ⟨s.heap, JobEntry.new pid id line isStopped text (os s.tick).ret⟩ s.m_jobsMap ∧
      t.m_jobIDArray = (s.jobIDArraySet id.toNat true).m_jobIDArray ∧
      t.m_runningJobsQueue = s.m_runningJobsQueue ++
        (if isStopped then []
         else [⟨s.heap, JobEntry.new pid id line isStopped text (os s.tick).ret⟩]) ∧
      t.m_stoppedJobsQueue = s.m_stoppedJobsQueue ++
        (if isStopped then [⟨s.heap, JobEntry.new pid id line isStopped text (os s.tick).ret⟩]
         else []) ∧
      t.m_cJobId = s.m_cJobId ∧ t.m_cJPid = s.m_cJPid ∧
      t.m_cJCommandLine = s.m_cJCommandLine ∧
      t.m_cJPrintCommandLine = s.m_cJPrintCommandLine ∧
      t.m_cJisStopped = s.m_cJisStopped ∧ t.m_cJinsertionTime = s.m_cJinsertionTime ∧
      t.m_aliasesMap = s.m_aliasesMap ∧ t.m_nextBGPrintCmdLine = s.m_nextBGPrintCmdLine ∧
      t.heap = s.heap + 1 ∧ t.fds = s.fds ∧ t.tick = s.tick + 1 ∧ t.log = s.log := by
  have h1 : ¬ id = -1 := by omega
  have h2 : ¬ (id ≤ 0 ∨ id ≥ (MAX_BG_JOBS : Int)) := by omega
  unfold addJob
  simp only [← hid, sys, setJobIdUsed, h1, h2, ↓reduceIte, bind, Except.bind, JobEntry.new]
  cases isStopped
  · exact ⟨_, rfl, by simp [jobIDArraySet, JobEntry.new]⟩
  · exact ⟨_, rfl, by simp [jobIDArraySet, JobEntry.new]⟩

/-- The display text the constructor of `JobEntry` stores. -/
theorem JobEntry_new_display (pid jobId : Int) (cmdText : Str) (stopped : Bool)
    (printText : Str) (now : Int) :
    (JobEntry.new pid jobId cmdText stopped printText now).m_org_commandLine =
      (if printText ≠ [] then printText else cmdText) := by
  unfold JobEntry.new
  by_cases h : printText = [] <;> simp [h]

/-- The log after `printJobsList` over any list of entries. -/
theorem JobsCommand_foldl (m : List (Int × JobPtr)) (s : SmallShell) :
    (m.foldl (fun s job => s.cout job.2.obj.print) s).log =
        s.log ++ m.map (fun kv => Event.stdout kv.2.obj.print) ∧
      s.sameButLog (m.foldl (fun s job => s.cout job.2.obj.print) s) := by
  induction m generalizing s with
  | nil =>
    exact ⟨by simp, ⟨rfl, rfl, rfl, rfl, rfl, rfl, rfl, rfl, rfl, rfl, rfl, rfl, rfl, rfl, rfl,
      rfl, rfl⟩⟩
  | cons kv m ih =>
    obtain ⟨hl, hs⟩ := ih (s.cout kv.2.obj.print)
    refine ⟨?_, ?_⟩
    · simp only [List.foldl_cons, hl, List.map_cons]
      simp [cout, emit]
    · simp only [List.foldl_cons]
      exact hs

/-- C16: `printJobsList` writes one line for each entry of the map, in the order
of the map, which is the strictly ascending order of the job ids; the line of
an entry is `[<jobId>] <displayText>`, followed by ` (stopped)` exactly when the
entry is stopped; nothing else of the state changes. The display text of an
entry is the print text its constructor was given when that text is not empty,
and the command text otherwise, for the constructor itself and for the entry
`addJob` inserts. -/
theorem C16_printJobsList_format (s : SmallShell) :
    (JobsCommand.execute s).log = s.log ++ s.m_jobsMap.map (fun kv =>
      Event.stdout ("[".toList ++ showInt kv.2.obj.m_jobId ++ "] ".toList ++
        kv.2.obj.m_org_commandLine ++
        (if kv.2.obj.m_isStopped then " (stopped)".toList else []))) ∧
    s.sameButLog (JobsCommand.execute s) ∧
    (tableWellFormed s.m_jobsMap →
      (s.m_jobsMap.map (fun kv => kv.2.obj.m_jobId)).Pairwise (fun a b => a < b)) ∧
    (∀ (pid jobId : Int) (cmdText : Str) (stopped : Bool) (printText : Str) (now : Int),
      (JobEntry.new pid jobId cmdText stopped printText now).m_org_commandLine =
        (if printText ≠ [] then printText else cmdText)) ∧
    (∀ (os : OS) (pid jobId : Int) (cmdText : Str) (stopped : Bool) (printText : Str),
      0 < jobId → jobId < (MAX_BG_JOBS : Int) → (∀ kv ∈ s.m_jobsMap, kv.1 ≠ jobId) →
      ∃ t ptr, s.addJob os pid cmdText stopped jobId printText = .ok t ∧
        (jobId, ptr) ∈ t.m_jobsMap ∧ ptr.obj.m_jobId = jobId ∧
        ptr.obj.m_isStopped = stopped ∧
        ptr.obj.m_org_commandLine = (if printText ≠ [] then printText else cmdText)) := by
  refine ⟨?_, ?_, ?_, JobEntry_new_display, ?_⟩
  · exact (JobsCommand_foldl s.m_jobsMap s).1
  · exact (JobsCommand_foldl s.m_jobsMap s).2
  · intro hwf
    rw [List.pairwise_map]
    refine hwf.1.imp_of_mem ?_
    intro a b ha hb hab
    rw [(hwf.2 a ha).1, (hwf.2 b hb).1]
    exact hab
  · intro os pid jobId cmdText stopped printText h0 h1 hfresh
    have hne : jobId ≠ -1 := by omega
    obtain ⟨t, ht, hmap, _⟩ := addJob_spec os s pid cmdText stopped jobId printText jobId
      (by rw [if_neg hne]) ⟨h0, h1⟩
    refine ⟨t, ⟨s.heap, JobEntry.new pid jobId cmdText stopped printText (os s.tick).ret⟩, ht,
      ?_, rfl, rfl, JobEntry_new_display _ _ _ _ _ _⟩
    rw [hmap]
    exact mem_mapInsert_self _ _ _ hfresh

/-! ## The interrupt handler -/

/-- `setJobIdFree` with an index of the array: the element is cleared, the others
are kept. -/
theorem setJobIdFree_spec (s : SmallShell) (jobId : Int) (h0 : 0 < jobId)
    (h1 : jobId < (MAX_BG_JOBS : Int)) :
    s.setJobIdFree jobId = .ok (s.jobIDArraySet jobId.toNat false) ∧
    (s.jobIDArraySet jobId.toNat false).jobIDArrayAt jobId.toNat = false ∧
    ∀ i, i ≠ jobId.toNat →
      (s.jobIDArraySet jobId.toNat false).jobIDArrayAt i = s.jobIDArrayAt i := by
  refine ⟨?_, ?_, ?_⟩
  · unfold setJobIdFree
    rw [if_neg (by omega), if_neg (by omega)]
  · unfold jobIDArrayAt jobIDArraySet
    split_ifs with h
    · simp
    · rfl
  · intro i hi
    unfold jobIDArrayAt jobIDArraySet
    split_ifs with h
    · simp [hi]
    · rfl

/-- `updateSmashAfterCjFinished` with a slot whose job id is an index of the
array. -/
theorem updateSmashAfterCjFinished_spec (u : SmallShell) (h0 : 0 < u.m_cJobId)
    (h1 : u.m_cJobId < (MAX_BG_JOBS : Int)) :
    u.updateSmashAfterCjFinished = .ok { (u.jobIDArraySet u.m_cJobId.toNat false) with
      m_cJobId := -1
      m_cJPid := -1
      m_cJCommandLine := []
      m_cJisStopped := false
      m_cJinsertionTime := 0
      m_cJPrintCommandLine := [] } := by
  unfold updateSmashAfterCjFinished
  rw [(setJobIdFree_spec u u.m_cJobId h0 h1).1]
  rfl

/-- C19: `ctrlCHandler` with an empty slot writes its first line and nothing
else happens. With an occupied slot whose job id is an index of the allocator
(1 to 100) and a `kill` that succeeds, it sends `SIGKILL` to the pid of the
slot, empties the slot, frees that id and leaves the Job Table and both queues
as they were. With an occupied slot whose job id is no index of the allocator
it ends in `out_of_range` with the slot still occupied; that happens after 100
background launches have brought job id 100 into use, when `sleep 5` runs in
the foreground under job id 101 and the interrupt arrives during its wait. -/
theorem C19_ctrlCHandler_slot_101 (os : OS) (s : SmallShell) :
    (s.m_cJobId = -1 → s.ctrlCHandler os = .ok (s.cout "smash: got ctrl-C".toList) ∧
      s.sameButLog (s.cout "smash: got ctrl-C".toList)) ∧
    (s.m_cJobId ≠ -1 → (os s.tick).ret ≠ -1 → 0 < s.m_cJobId →
      s.m_cJobId < (MAX_BG_JOBS : Int) →
      ∃ t, s.ctrlCHandler os = .ok t ∧
        t.log = s.log ++ [Event.stdout "smash: got ctrl-C".toList,
          Event.kill s.m_cJPid SIGKILL (os s.tick).ret,
          Event.stdout ("smash: process ".toList ++ showInt s.m_cJPid ++
            " was killed".toList)] ∧
        t.m_cJobId = -1 ∧ t.m_cJPid = -1 ∧ t.m_cJCommandLine = [] ∧
        t.jobIDArrayAt s.m_cJobId.toNat = false ∧
        (∀ i, i ≠ s.m_cJobId.toNat → t.jobIDArrayAt i = s.jobIDArrayAt i) ∧
        t.m_jobsMap = s.m_jobsMap ∧ t.m_runningJobsQueue = s.m_runningJobsQueue ∧
        t.m_stoppedJobsQueue = s.m_stoppedJobsQueue) ∧
    (s.m_cJobId ≠ -1 → (os s.tick).ret ≠ -1 →
      (s.m_cJobId ≤ 0 ∨ (MAX_BG_JOBS : Int) ≤ s.m_cJobId) →
      (s.ctrlCHandler os).fault = some Fault.out_of_range ∧
      (s.ctrlCHandler os).state.m_cJobId = s.m_cJobId ∧
      (s.ctrlCHandler os).state.m_cJPid = s.m_cJPid) ∧
    ((chain (chainOS ⟨1399, false, true⟩) 100).jobsShown =
        [(99, 1391, "sleep 9 &"), (100, 1395, "sleep 9 &")] ∧
      (chain (chainOS ⟨1399, false, true⟩) 100).m_cJobId = -1 ∧
      (executeCommand (chainOS ⟨1399, false, true⟩) 0
        (chain (chainOS ⟨1399, false, true⟩) 100) "sleep 5".toList).fault =
          some Fault.out_of_range ∧
      (executeCommand (chainOS ⟨1399, false, true⟩) 0
        (chain (chainOS ⟨1399, false, true⟩) 100) "sleep 5".toList).state.m_cJobId = 101 ∧
      (executeCommand (chainOS ⟨1399, false, true⟩) 0
        (chain (chainOS ⟨1399, false, true⟩) 100) "sleep 5".toList).state.m_cJPid = 1399 ∧
      (executeCommand (chainOS ⟨1399, false, true⟩) 0
        (chain (chainOS ⟨1399, false, true⟩) 100) "sleep 5".toList).state.log.drop 299 =
          [.fork 1399, .stdout "smash: got ctrl-C".toList, .kill 1399 9 0,
           .stdout "smash: process 1399 was killed".toList]) := by
  refine ⟨?_, ?_, ?_, ?_⟩
  · intro h
    refine ⟨?_, ⟨rfl, rfl, rfl, rfl, rfl, rfl, rfl, rfl, rfl, rfl, rfl, rfl, rfl, rfl, rfl, rfl,
      rfl⟩⟩
    unfold ctrlCHandler
    have : (s.cout "smash: got ctrl-C".toList).isFGrunning = false := by
      simp [isFGrunning, cout, emit, h]
    simp only [this, Bool.not_false, ↓reduceIte]
    rfl
  · intro h hret h0 h1
    unfold ctrlCHandler
    have hfg : (s.cout "smash: got ctrl-C".toList).isFGrunning = true := by
      simp [isFGrunning, cout, emit, h]
    simp only [hfg, Bool.not_true, Bool.false_eq_true, ↓reduceIte, sys]
    have hret' : ¬ (os (s.cout "smash: got ctrl-C".toList).tick).ret = -1 := hret
    rw [if_neg hret', updateSmashAfterCjFinished_spec]
    · obtain ⟨_, hbit, hothers⟩ := setJobIdFree_spec s s.m_cJobId h0 h1
      refine ⟨_, rfl, ?_, rfl, rfl, rfl, hbit, hothers, rfl, rfl, rfl⟩
      simp [jobIDArraySet, cout, emit, showInt]
    · exact h0
    · exact h1
  · intro h hret hrange
    unfold ctrlCHandler
    have hfg : (s.cout "smash: got ctrl-C".toList).isFGrunning = true := by
      simp [isFGrunning, cout, emit, h]
    simp only [hfg, Bool.not_true, Bool.false_eq_true, ↓reduceIte, sys]
    have hret' : ¬ (os (s.cout "smash: got ctrl-C".toList).tick).ret = -1 := hret
    rw [if_neg hret']
    unfold updateSmashAfterCjFinished setJobIdFree
    simp only [cout, emit]
    rw [if_neg h, if_pos hrange]
    exact ⟨rfl, rfl, rfl⟩
  · decide!

/-! ## `quit kill` -/

/-- For an id between 1 and `MAX_BG_JOBS - 1`, `isJobIdUsed` returns the mark
of the id. -/
theorem isJobIdUsed_of_range (s : SmallShell) (i : Nat) (h1 : 1 ≤ i) (h2 : i < MAX_BG_JOBS) :
    s.isJobIdUsed (i : Int) = .ok (s.jobIDArrayAt i) := by
  unfold isJobIdUsed
  have hne : ¬ ((i : Int) = -1) := by omega
  have hin : ¬ ((i : Int) ≤ 0 ∨ (i : Int) ≥ (MAX_BG_JOBS : Int)) := by omega
  rw [if_neg hne, if_neg hin]
  simp

/-- The loop of `QuitCommand::execute` over ids between 1 and `MAX_BG_JOBS - 1`,
when the ids marked in use are the keys of the Job Table: it returns, having
written the identification line of the entry under each of the ids that is a
key, in the order of the ids. -/
theorem printLoop_spec (ids : List Nat) (s : SmallShell)
    (hids : ∀ i ∈ ids, 1 ≤ i ∧ i < MAX_BG_JOBS) (hm : marksAreKeys s) :
    QuitCommand.printLoop ids s =
      .ok { s with log := s.log ++ ids.filterMap (fun (i : Nat) =>
        (mapFind s.m_jobsMap (i : Int)).map (fun p => Event.stdout (identificationLine p))) } := by
  induction ids generalizing s with
  | nil => simp [QuitCommand.printLoop]
  | cons i ids ih =>
    obtain ⟨h1, h2⟩ := hids i (List.mem_cons_self _ _)
    have hrest : ∀ k ∈ ids, 1 ≤ k ∧ k < MAX_BG_JOBS :=
      fun k hk => hids k (List.mem_cons_of_mem _ hk)
    have hmark := hm i h2 h1
    unfold QuitCommand.printLoop
    rw [isJobIdUsed_of_range s i h1 h2]
    simp only [bind, Except.bind]
    cases hb : s.jobIDArrayAt i
    · rw [hb] at hmark
      have hnone : mapFind s.m_jobsMap (i : Int) = none := by
        unfold isContainsBGJob at hmark
        cases hf : mapFind s.m_jobsMap (i : Int) with
        | none => rfl
        | some p => rw [hf] at hmark; cases hmark
      simp only [Bool.not_false, if_true]
      rw [ih s hrest hm, List.filterMap_cons, hnone]
      rfl
    · rw [hb] at hmark
      obtain ⟨p, hp⟩ : ∃ p, mapFind s.m_jobsMap (i : Int) = some p := by
        unfold isContainsBGJob at hmark
        cases hf : mapFind s.m_jobsMap (i : Int) with
        | none => rw [hf] at hmark; cases hmark
        | some p => exact ⟨p, rfl⟩
      simp only [Bool.not_true, Bool.false_eq_true, if_false, ← hmark, if_true, getJobById, hp]
      rw [ih (s.cout (showInt p.obj.m_pid ++ ": ".toList ++ p.obj.m_org_commandLine)) hrest
        (fun k hk1 hk2 => hm k hk1 hk2), List.filterMap_cons, hp]
      simp [cout, emit, identificationLine]

/-- The entries of a map with ascending keys, found by looking up the keys of
a range that holds them all, are the entries of the map in its order. -/
theorem range_filterMap_mapFind {β : Type} (g : JobPtr → β) (n : Nat) :
    ∀ (a : Nat) (m : List (Int × JobPtr)), m.Pairwise (fun x y => x.1 < y.1) →
      (∀ kv ∈ m, (a : Int) ≤ kv.1 ∧ kv.1 < (a : Int) + n) →
      (List.range' a n).filterMap (fun (i : Nat) => (mapFind m (i : Int)).map g) =
        m.map (fun kv => g kv.2) := by
  induction n with
  | zero =>
    intro a m _ hk
    cases m with
    | nil => rfl
    | cons kv rest =>
      have := hk kv (List.mem_cons_self _ _)
      omega
  | succ n ih =>
    intro a m hp hk
    rw [List.range'_succ, List.filterMap_cons]
    cases m with
    | nil =>
      have := ih (a + 1) [] List.Pairwise.nil (fun kv hkv => by cases hkv)
      simp only [List.map_nil] at this
      simp only [mapFind, List.find?_nil, Option.map_none'] at this ⊢
      exact this
    | cons kv rest =>
      obtain ⟨k, p⟩ := kv
      rw [List.pairwise_cons] at hp
      obtain ⟨hlt, hprest⟩ := hp
      have hkk := hk (k, p) (List.mem_cons_self _ _)
      simp only at hkk
      by_cases hka : k = (a : Int)
      · subst hka
        have hfind : mapFind (((a : Int), p) :: rest) (a : Int) = some p := by
          simp [mapFind, List.find?]
        rw [hfind]
        simp only [Option.map_some', List.map_cons]
        congr 1
        have hcongr : (List.range' (a + 1) n).filterMap
            (fun (i : Nat) => (mapFind (((a : Int), p) :: rest) (i : Int)).map g) =
            (List.range' (a + 1) n).filterMap (fun (i : Nat) => (mapFind rest (i : Int)).map g) := by
          apply List.filterMap_congr
          intro i hi
          have hia : a + 1 ≤ i := (List.mem_range'_1.1 hi).1
          have hne : ((a : Int) == (i : Int)) = false := by
            rw [beq_eq_false_iff_ne]; omega
          simp [mapFind, List.find?, hne]
        rw [hcongr]
        apply ih (a + 1) rest hprest
        intro kv hkv
        have h1 := hlt kv hkv
        have h2 := hk kv (List.mem_cons_of_mem _ hkv)
        simp only at h1
        push_cast
        omega
      · have hnone : mapFind ((k, p) :: rest) (a : Int) = none := by
          have hall : ∀ kv ∈ (k, p) :: rest, (kv.1 == (a : Int)) = false := by
            intro kv hkv
            rw [beq_eq_false_iff_ne]
            rcases List.mem_cons.1 hkv with h | h
            · rw [h]; exact hka
            · have := hlt kv h
              simp only at this
              omega
          unfold mapFind
          rw [List.find?_eq_none.2 (fun kv hkv => by simp [hall kv hkv])]
          rfl
        rw [hnone]
        simp only [Option.map_none']
        apply ih (a + 1) ((k, p) :: rest) (List.pairwise_cons.2 ⟨hlt, hprest⟩)
        intro kv hkv
        have h2 := hk kv hkv
        rcases List.mem_cons.1 hkv with h | h
        · rw [h]; simp only; push_cast; omega
        · have := hlt kv h
          simp only at this
          push_cast
          omega

/-- C18: where the lines of `quit kill` are the tracked jobs, and where they
are not. In every state in which the ids marked in use are the keys of the Job
Table (whose keys ascend and lie between 1 and 100), the loop of
`QuitCommand::execute` returns and writes exactly one identification line for
each entry of the Job Table, in ascending order of the job ids; with the
background jobs `sleep 100 &` and `sleep 200 &` and the job of `sleep 300`,
stopped in the foreground, `quit kill` writes three identification lines.
After `sleep 100` (pid 4242) was stopped in the foreground and the interrupt
arrived at the prompt, the interrupt handler has freed id 1 while the entry of
job 1 is still in the Job Table; if the sweep of `quit kill` does not yet find
pid 4242 terminated, the Job Table holds that entry when the loop runs, the
header announces 1 job, and no identification line is written. -/
theorem C18_quit_kill_lines :
    (∀ s : SmallShell, tableWellFormed s.m_jobsMap → marksAreKeys s →
      QuitCommand.printLoop (List.range' 1 (MAX_BG_JOBS - 1)) s =
        .ok { s with log := s.log ++
          s.m_jobsMap.map (fun kv => Event.stdout (identificationLine kv.2)) }) ∧
    (threeJobs.state.jobsShown =
        [(1, 1000, "sleep 100 &"), (2, 1003, "sleep 200 &"), (3, 5000, "sleep 300")] ∧
      tableWellFormed threeJobs.state.m_jobsMap ∧ marksAreKeys threeJobs.state ∧
      (executeCommand liveOS 0 threeJobs.state "quit kill".toList).fault =
        some (Fault.exit 0) ∧
      (executeCommand liveOS 0 threeJobs.state "quit kill".toList).state.log.drop
          threeJobs.state.log.length =
        [.waitpid 1000 .WNOHANG 0 false, .waitpid 1003 .WNOHANG 0 false,
         .waitpid 5000 .WNOHANG 0 false, .kill 5000 9 0,
         .stdout "smash: sending SIGKILL signal to 4 jobs:".toList,
         .stdout "1000: sleep 100 &".toList, .stdout "1003: sleep 200 &".toList,
         .stdout "5000: sleep 300".toList,
         .kill 1000 9 0, .kill 1003 9 0, .kill 5000 9 0]) ∧
    (afterStopInterrupt.fault = none ∧
      afterStopInterrupt.state.jobsShown = [(1, 4242, "sleep 100")] ∧
      afterStopInterrupt.state.usedIds = [] ∧
      afterStopInterrupt.state.m_cJobId = -1 ∧
      ¬ marksAreKeys afterStopInterrupt.state ∧
      (afterStopInterrupt.state.removeFinishedJobs unreapedOS).state.jobsShown =
        [(1, 4242, "sleep 100")] ∧
      (executeCommand unreapedOS 0 afterStopInterrupt.state "quit kill".toList).fault =
        some (Fault.exit 0) ∧
      (executeCommand unreapedOS 0 afterStopInterrupt.state "quit kill".toList).state.log.drop
          afterStopInterrupt.state.log.length =
        [.waitpid 4242 .WNOHANG 0 false,
         .stdout "smash: sending SIGKILL signal to 1 jobs:".toList,
         .kill 4242 9 0]) := by
  refine ⟨?_, ?_, ?_⟩
  · intro s hwf hm
    have hids : ∀ i ∈ List.range' 1 (MAX_BG_JOBS - 1), 1 ≤ i ∧ i < MAX_BG_JOBS := by
      intro i hi
      have := List.mem_range'_1.1 hi
      have h101 : MAX_BG_JOBS = 101 := rfl
      omega
    rw [printLoop_spec _ s hids hm]
    rw [range_filterMap_mapFind (fun p => Event.stdout (identificationLine p))
      (MAX_BG_JOBS - 1) 1 s.m_jobsMap hwf.1
      (fun kv hkv => by
        have := (hwf.2 kv hkv).2
        have h101 : (MAX_BG_JOBS : Int) = 101 := rfl
        have h100 : MAX_BG_JOBS - 1 = 100 := rfl
        rw [h100]
        push_cast
        omega)]
  · refine ⟨?_, ?_, ?_, ?_, ?_⟩ <;> decide!
  · refine ⟨?_, ?_, ?_, ?_, ?_, ?_, ?_, ?_⟩ <;> decide!

/-! ## The wait of `fg` -/

/-- C13: two runs in which the job of a stopped foreground command is not the
one a following `fg` promotes. After 100 background launches job id 100 is in
use; `sleep 5` then runs in the foreground under job id 101, and when its
child (pid 1399) is stopped `addJob` ends in `out_of_range` at
`setJobIdUsed(101)`: no record is inserted and the shell process ends. After
`sleep 100` (pid 4242) was stopped and the interrupt arrived at the prompt, id 1
is free while the record of job 1 is still in the Job Table; if the next sweep
does not yet find pid 4242 terminated, `sleep 200` runs in the foreground under
job id 1 as well, and when its child (pid 4300) is stopped the insertion under
the key 1 has no effect: the Job Table holds the record of pid 4242 alone, and
the `fg` that follows finds the Job Table empty after its sweep. -/
theorem C13_stopped_job_not_promoted :
    ((chain (chainOS ⟨1399, true, false⟩) 100).jobsShown =
        [(99, 1391, "sleep 9 &"), (100, 1395, "sleep 9 &")] ∧
      (executeCommand (chainOS ⟨1399, true, false⟩) 0
        (chain (chainOS ⟨1399, true, false⟩) 100) "sleep 5".toList).fault =
          some Fault.out_of_range ∧
      (executeCommand (chainOS ⟨1399, true, false⟩) 0
        (chain (chainOS ⟨1399, true, false⟩) 100) "sleep 5".toList).state.m_cJobId = 101 ∧
      (executeCommand (chainOS ⟨1399, true, false⟩) 0
        (chain (chainOS ⟨1399, true, false⟩) 100) "sleep 5".toList).state.jobsShown =
          [(100, 1395, "sleep 9 &")] ∧
      (executeCommand (chainOS ⟨1399, true, false⟩) 0
        (chain (chainOS ⟨1399, true, false⟩) 100) "sleep 5".toList).state.log.drop 299 =
          [.fork 1399, .waitpid 1399 .WUNTRACED 1399 true]) ∧
    (afterSecondStop.fault = none ∧
      afterSecondStop.state.log =
        [.fork 4242, .waitpid 4242 .WUNTRACED 4242 true,
         .stdout "smash: got ctrl-C".toList, .kill 4242 9 0,
         .stdout "smash: process 4242 was killed".toList,
         .waitpid 4242 .WNOHANG 0 false,
         .fork 4300, .waitpid 4300 .WUNTRACED 4300 true] ∧
      afterSecondStop.state.records = [(1, 4242, "sleep 100", "sleep 100", true)] ∧
      afterSecondStop.state.m_cJobId = 1 ∧ afterSecondStop.state.m_cJPid = 4300 ∧
      (executeCommand collideOS 0 afterSecondStop.state "fg".toList).state.log.drop
          afterSecondStop.state.log.length =
        [.waitpid 4242 .WNOHANG 4242 false,
         .stderr "smash error: fg: jobs list is empty".toList]) := by
  refine ⟨?_, ?_⟩ <;> decide!

/-! ## The sweep of the Job Table -/

/-- The first loop of `removeFinishedJobs` collects the entries whose wait, the
call at the tick of their position, reported termination. -/
theorem scan_fst (os : OS) (m : List (Int × JobPtr)) (s : SmallShell) (p : JobPtr) :
    p ∈ (removeFinishedJobs.scan os m s).1 ↔
      ∃ i kv, m[i]? = some kv ∧ kv.2 = p ∧ (os (s.tick + i)).terminated := by
  induction m generalizing s with
  | nil => simp [removeFinishedJobs.scan]
  | cons a m ih =>
    obtain ⟨k, q⟩ := a
    have hshift : ∀ (s1 : SmallShell), s1.tick = s.tick + 1 →
        ((∃ i kv, m[i]? = some kv ∧ kv.2 = p ∧ (os (s1.tick + i)).terminated) ↔
          ∃ i kv, ((k, q) :: m)[i + 1]? = some kv ∧ kv.2 = p ∧
            (os (s.tick + (i + 1))).terminated) := by
      intro s1 h1
      constructor
      · rintro ⟨i, kv, h, hp, ht⟩
        exact ⟨i, kv, by simpa using h, hp, by rw [h1] at ht; rwa [show s.tick + (i + 1) = s.tick + 1 + i by omega]⟩
      · rintro ⟨i, kv, h, hp, ht⟩
        exact ⟨i, kv, by simpa using h, hp, by rw [h1]; rwa [show s.tick + (i + 1) = s.tick + 1 + i by omega] at ht⟩
    have hsplit : (∃ i kv, ((k, q) :: m)[i]? = some kv ∧ kv.2 = p ∧
          (os (s.tick + i)).terminated) ↔
        ((q = p ∧ (os s.tick).terminated) ∨
          ∃ i kv, ((k, q) :: m)[i + 1]? = some kv ∧ kv.2 = p ∧
            (os (s.tick + (i + 1))).terminated) := by
      constructor
      · rintro ⟨i, kv, h, hp, ht⟩
        cases i with
        | zero =>
          left
          simp only [List.getElem?_cons_zero, Option.some.injEq] at h
          subst h
          exact ⟨hp, by simpa using ht⟩
        | succ i => right; exact ⟨i, kv, h, hp, ht⟩
      · rintro (⟨hp, ht⟩ | ⟨i, kv, h, hp, ht⟩)
        · exact ⟨0, (k, q), by simp, hp, by simpa using ht⟩
        · exact ⟨i + 1, kv, h, hp, ht⟩
    rw [hsplit]
    simp only [removeFinishedJobs.scan, sys]
    by_cases h1 : (os s.tick).ret = -1
    · rw [if_pos h1, ih, hshift _ rfl]
      simp [Answer.terminated, h1]
    · rw [if_neg h1]
      by_cases h0 : (os s.tick).ret = 0
      · rw [if_pos h0, ih, hshift _ rfl]
        simp [Answer.terminated, h0]
      · rw [if_neg h0]
        simp only [List.mem_cons]
        rw [ih, hshift _ rfl]
        simp only [Answer.terminated, ne_eq, h1, not_false_eq_true, h0, and_self, and_true]
        constructor
        · rintro (h | h)
          · left; exact h.symm
          · right; exact h
        · rintro (h | h)
          · left; exact h.symm
          · right; exact h

/-- The first loop of `removeFinishedJobs` changes the tick and the log only. -/
theorem scan_snd (os : OS) (m : List (Int × JobPtr)) (s : SmallShell) :
    (removeFinishedJobs.scan os m s).2.m_jobsMap = s.m_jobsMap ∧
    (removeFinishedJobs.scan os m s).2.m_runningJobsQueue = s.m_runningJobsQueue ∧
    (removeFinishedJobs.scan os m s).2.m_stoppedJobsQueue = s.m_stoppedJobsQueue ∧
    (removeFinishedJobs.scan os m s).2.m_jobIDArray = s.m_jobIDArray ∧
    (removeFinishedJobs.scan os m s).2.m_cJobId = s.m_cJobId ∧
    (removeFinishedJobs.scan os m s).2.m_cJPid = s.m_cJPid := by
  induction m generalizing s with
  | nil => simp [removeFinishedJobs.scan]
  | cons a m ih =>
    obtain ⟨k, q⟩ := a
    simp only [removeFinishedJobs.scan, sys]
    split_ifs
    · exact ih _
    · exact ih _
    · exact ih _

/-- The second loop of `removeFinishedJobs`, over entries whose ids are indices
of the allocator: the entries under those ids leave the map, the pointers leave
both queues, and those ids are freed. -/
theorem remove_spec (F : List JobPtr) (s : SmallShell)
    (hF : ∀ p ∈ F, 0 < p.obj.m_jobId ∧ p.obj.m_jobId < (MAX_BG_JOBS : Int)) :
    ∃ s', removeFinishedJobs.remove F s = .ok s' ∧
      s'.m_jobsMap = s.m_jobsMap.filter (fun kv => F.all (fun p => kv.1 != p.obj.m_jobId)) ∧
      s'.m_runningJobsQueue =
        s.m_runningJobsQueue.filter (fun q => F.all (fun p => q.addr != p.addr)) ∧
      s'.m_stoppedJobsQueue =
        s.m_stoppedJobsQueue.filter (fun q => F.all (fun p => q.addr != p.addr)) ∧
      (∀ j, s'.jobIDArrayAt j =
        if ∃ p ∈ F, p.obj.m_jobId.toNat = j then false else s.jobIDArrayAt j) ∧
      s'.m_cJobId = s.m_cJobId ∧ s'.m_cJPid = s.m_cJPid := by
  induction F generalizing s with
  | nil =>
    exact ⟨s, rfl, by simp, by simp, by simp, by simp, rfl, rfl⟩
  | cons p F ih =>
    have hp := hF p (List.mem_cons_self _ _)
    obtain ⟨hfree, hbit, hothers⟩ := setJobIdFree_spec s p.obj.m_jobId hp.1 hp.2
    simp only [removeFinishedJobs.remove, hfree, bind, Except.bind]
    obtain ⟨s', hs', h1, h2, h3, h4, h5, h6⟩ := ih
      { (s.jobIDArraySet p.obj.m_jobId.toNat false) with
        m_jobsMap := mapErase (s.jobIDArraySet p.obj.m_jobId.toNat false).m_jobsMap
          p.obj.m_jobId
        m_runningJobsQueue :=
          queueRemove (s.jobIDArraySet p.obj.m_jobId.toNat false).m_runningJobsQueue p
        m_stoppedJobsQueue :=
          queueRemove (s.jobIDArraySet p.obj.m_jobId.toNat false).m_stoppedJobsQueue p }
      (fun q hq => hF q (List.mem_cons_of_mem _ hq))
    refine ⟨s', hs', ?_, ?_, ?_, ?_, h5, h6⟩
    · rw [h1]
      simp only [mapErase, jobIDArraySet, List.filter_filter, List.all_cons]
      congr 1
      funext kv
      rw [Bool.and_comm]
    · rw [h2]
      simp only [queueRemove, jobIDArraySet, List.filter_filter, List.all_cons]
      congr 1
      funext kv
      rw [Bool.and_comm]
    · rw [h3]
      simp only [queueRemove, jobIDArraySet, List.filter_filter, List.all_cons]
      congr 1
      funext kv
      rw [Bool.and_comm]
    · intro j
      rw [h4]
      by_cases hj : p.obj.m_jobId.toNat = j
      · have : ∃ q ∈ p :: F, q.obj.m_jobId.toNat = j := ⟨p, List.mem_cons_self _ _, hj⟩
        rw [if_pos this]
        split_ifs
        · rfl
        · rw [← hj]
          exact hbit
      · have hiff : (∃ q ∈ p :: F, q.obj.m_jobId.toNat = j) ↔ ∃ q ∈ F, q.obj.m_jobId.toNat = j := by
          simp [hj]
        by_cases hF' : ∃ q ∈ F, q.obj.m_jobId.toNat = j
        · rw [if_pos hF', if_pos (hiff.2 hF')]
        · rw [if_neg hF', if_neg (fun h => hF' (hiff.1 h))]
          exact hothers j (fun h => hj h.symm)

/-- In a map with strictly ascending keys, entries at different positions have
different keys. -/
theorem keys_inj (m : List (Int × JobPtr)) (hp : m.Pairwise (fun a b => a.1 < b.1))
    (i i2 : Nat) (kv kv2 : Int × JobPtr) (h : m[i]? = some kv) (h2 : m[i2]? = some kv2)
    (hk : kv.1 = kv2.1) : i = i2 := by
  rw [List.pairwise_iff_getElem] at hp
  obtain ⟨hi, e⟩ := List.getElem?_eq_some_iff.1 h
  obtain ⟨hi2, e2⟩ := List.getElem?_eq_some_iff.1 h2
  rcases Nat.lt_trichotomy i i2 with hlt | heq | hgt
  · have := hp i i2 hi hi2 hlt
    rw [e, e2] at this
    omega
  · exact heq
  · have := hp i2 i hi2 hi hgt
    rw [e, e2] at this
    omega

/-- C17: `removeFinishedJobs` on a well-formed Job Table returns, whatever the
waits answer. The wait of the entry at position `i` of the map is the call at
tick `s.tick + i`. An entry whose wait reported termination is out of the map
afterwards, its job id is free, and no pointer of either queue refers to it; an
entry whose wait reported anything else (still running, or an error) is in the
map as it was, with its allocator bit unchanged. No entry is added, every id
that belongs to no removed entry keeps its bit, each queue keeps exactly its
pointers to entries that were not removed, and the foreground slot is
untouched. -/
theorem C17_removeFinishedJobs (os : OS) (s : SmallShell)
    (hwf : tableWellFormed s.m_jobsMap) :
    ∃ s', s.removeFinishedJobs os = .ok s' ∧
      (∀ i kv, s.m_jobsMap[i]? = some kv →
        ((os (s.tick + i)).terminated →
          kv ∉ s'.m_jobsMap ∧ s'.getJobById kv.1 = none ∧
          s'.jobIDArrayAt kv.1.toNat = false ∧
          (∀ q ∈ s'.m_runningJobsQueue, q.addr ≠ kv.2.addr) ∧
          (∀ q ∈ s'.m_stoppedJobsQueue, q.addr ≠ kv.2.addr)) ∧
        (¬ (os (s.tick + i)).terminated →
          kv ∈ s'.m_jobsMap ∧ s'.jobIDArrayAt kv.1.toNat = s.jobIDArrayAt kv.1.toNat)) ∧
      (∀ kv ∈ s'.m_jobsMap, kv ∈ s.m_jobsMap) ∧
      (∀ j, (∀ i kv, s.m_jobsMap[i]? = some kv → (os (s.tick + i)).terminated →
          kv.1.toNat ≠ j) → s'.jobIDArrayAt j = s.jobIDArrayAt j) ∧
      (∀ q, q ∈ s'.m_runningJobsQueue ↔ q ∈ s.m_runningJobsQueue ∧
        ∀ i kv, s.m_jobsMap[i]? = some kv → (os (s.tick + i)).terminated →
          q.addr ≠ kv.2.addr) ∧
      (∀ q, q ∈ s'.m_stoppedJobsQueue ↔ q ∈ s.m_stoppedJobsQueue ∧
        ∀ i kv, s.m_jobsMap[i]? = some kv → (os (s.tick + i)).terminated →
          q.addr ≠ kv.2.addr) ∧
      s'.m_cJobId = s.m_cJobId ∧ s'.m_cJPid = s.m_cJPid := by
  obtain ⟨hmap, hrq, hsq, harr, hcj, hcp⟩ := scan_snd os s.m_jobsMap s
  have hF : ∀ p, p ∈ (removeFinishedJobs.scan os s.m_jobsMap s).1 ↔
      ∃ i kv, s.m_jobsMap[i]? = some kv ∧ kv.2 = p ∧ (os (s.tick + i)).terminated :=
    scan_fst os s.m_jobsMap s
  have hmem : ∀ i kv, s.m_jobsMap[i]? = some kv → kv ∈ s.m_jobsMap :=
    fun i kv h => List.mem_iff_getElem?.2 ⟨i, h⟩
  have hrange : ∀ p ∈ (removeFinishedJobs.scan os s.m_jobsMap s).1,
      0 < p.obj.m_jobId ∧ p.obj.m_jobId < (MAX_BG_JOBS : Int) := by
    intro p hp
    obtain ⟨i, kv, h, hkv, _⟩ := (hF p).1 hp
    obtain ⟨h1, h2, h3⟩ := hwf.2 kv (hmem i kv h)
    rw [← hkv, h1]
    exact ⟨h2, h3⟩
  obtain ⟨s', hs', h1, h2, h3, h4, h5, h6⟩ :=
    remove_spec (removeFinishedJobs.scan os s.m_jobsMap s).1
      (removeFinishedJobs.scan os s.m_jobsMap s).2 hrange
  rw [hmap] at h1
  rw [hrq] at h2
  rw [hsq] at h3
  have h4' : ∀ j, s'.jobIDArrayAt j =
      if ∃ p ∈ (removeFinishedJobs.scan os s.m_jobsMap s).1, p.obj.m_jobId.toNat = j then false
      else s.jobIDArrayAt j := by
    intro j
    rw [h4 j]
    have : (removeFinishedJobs.scan os s.m_jobsMap s).2.jobIDArrayAt j = s.jobIDArrayAt j := by
      unfold jobIDArrayAt; rw [harr]
    rw [this]
  -- the id of a collected pointer is the key of a terminated entry
  have hFid : ∀ p ∈ (removeFinishedJobs.scan os s.m_jobsMap s).1,
      ∃ i kv, s.m_jobsMap[i]? = some kv ∧ kv.2 = p ∧ (os (s.tick + i)).terminated ∧
        p.obj.m_jobId = kv.1 := by
    intro p hp
    obtain ⟨i, kv, h, hkv, ht⟩ := (hF p).1 hp
    exact ⟨i, kv, h, hkv, ht, by rw [← hkv]; exact (hwf.2 kv (hmem i kv h)).1⟩
  have hkept : ∀ kv, kv ∈ s'.m_jobsMap ↔ kv ∈ s.m_jobsMap ∧
      ∀ p ∈ (removeFinishedJobs.scan os s.m_jobsMap s).1, kv.1 ≠ p.obj.m_jobId := by
    intro kv
    rw [h1]
    simp [List.mem_filter, List.all_eq_true]
  have hq : ∀ (Q : List JobPtr) (q : JobPtr),
      q ∈ Q.filter (fun q => (removeFinishedJobs.scan os s.m_jobsMap s).1.all
        (fun p => q.addr != p.addr)) ↔
      q ∈ Q ∧ ∀ i kv, s.m_jobsMap[i]? = some kv → (os (s.tick + i)).terminated →
        q.addr ≠ kv.2.addr := by
    intro Q q
    simp only [List.mem_filter, List.all_eq_true, bne_iff_ne, ne_eq]
    constructor
    · rintro ⟨hq, hall⟩
      refine ⟨hq, fun i kv h ht => hall kv.2 ((hF kv.2).2 ⟨i, kv, h, rfl, ht⟩)⟩
    · rintro ⟨hq, hall⟩
      refine ⟨hq, fun p hp => ?_⟩
      obtain ⟨i, kv, h, hkv, ht⟩ := (hF p).1 hp
      rw [← hkv]
      exact hall i kv h ht
  refine ⟨s', ?_, ?_, ?_, ?_, ?_, ?_, h5.trans hcj, h6.trans hcp⟩
  · unfold removeFinishedJobs
    exact hs'
  · intro i kv h
    have hid := hwf.2 kv (hmem i kv h)
    refine ⟨?_, ?_⟩
    · intro ht
      have hin : kv.2 ∈ (removeFinishedJobs.scan os s.m_jobsMap s).1 :=
        (hF kv.2).2 ⟨i, kv, h, rfl, ht⟩
      have hgone : ∀ x ∈ s'.m_jobsMap, x.1 ≠ kv.1 := by
        intro x hx
        have := ((hkept x).1 hx).2 kv.2 hin
        rwa [hid.1] at this
      refine ⟨fun hkv => hgone kv hkv rfl, ?_, ?_, ?_, ?_⟩
      · unfold getJobById
        exact (mapFind_eq_none _ _).2 hgone
      · rw [h4']
        rw [if_pos ⟨kv.2, hin, by rw [hid.1]⟩]
      · intro q hq'
        rw [h2] at hq'
        exact ((hq _ q).1 hq').2 i kv h ht
      · intro q hq'
        rw [h3] at hq'
        exact ((hq _ q).1 hq').2 i kv h ht
    · intro hnt
      have hne : ∀ p ∈ (removeFinishedJobs.scan os s.m_jobsMap s).1, kv.1 ≠ p.obj.m_jobId := by
        intro p hp heq
        obtain ⟨i2, kv2, h2', _, ht2, hid2⟩ := hFid p hp
        have := keys_inj s.m_jobsMap hwf.1 i i2 kv kv2 h h2' (heq.trans hid2)
        subst this
        exact hnt ht2
      refine ⟨(hkept kv).2 ⟨hmem i kv h, hne⟩, ?_⟩
      rw [h4']
      rw [if_neg]
      rintro ⟨p, hp, hpj⟩
      apply hne p hp
      have hp0 := (hrange p hp).1
      have hk0 := hid.2.1
      omega
  · intro kv hkv
    exact ((hkept kv).1 hkv).1
  · intro j hj
    rw [h4']
    rw [if_neg]
    rintro ⟨p, hp, hpj⟩
    obtain ⟨i, kv, h, _, ht, hid⟩ := hFid p hp
    exact hj i kv h ht (by rw [← hid]; exact hpj)
  · intro q
    rw [h2]
    exact hq _ q
  · intro q
    rw [h3]
    exact hq _ q

/-- The theorem `C17_removeFinishedJobs` at the Job Table that holds job 1
(`sleep 100 &`, pid 4242) alone: when the wait reports termination the entry is
gone and id 1 is free, when it reports the child running the entry stays. -/
theorem C17_witness :
    tableWellFormed afterBg.state.m_jobsMap ∧
    (∃ s', afterBg.state.removeFinishedJobs plainOS = .ok s' ∧
      s'.getJobById 1 = none ∧ s'.jobIDArrayAt 1 = false) ∧
    (∃ s', afterBg.state.removeFinishedJobs raceOS = .ok s' ∧
      (1, bgRecord) ∈ s'.m_jobsMap ∧ s'.jobIDArrayAt 1 = afterBg.state.jobIDArrayAt 1) :=
  ⟨by decide!,
   (let ⟨s', h, hall, _⟩ := C17_removeFinishedJobs plainOS afterBg.state (by decide!)
    ⟨s', h, ((hall 0 (1, bgRecord) (by decide!)).1 (by decide!)).2.1,
      ((hall 0 (1, bgRecord) (by decide!)).1 (by decide!)).2.2.1⟩),
   (let ⟨s', h, hall, _⟩ := C17_removeFinishedJobs raceOS afterBg.state (by decide!)
    ⟨s', h, ((hall 0 (1, bgRecord) (by decide!)).2 (by decide!)).1,
      ((hall 0 (1, bgRecord) (by decide!)).2 (by decide!)).2⟩)⟩

/-! ## Descriptors -/

/-- Removing the entries of one key does not change what another key refers
to. -/
theorem lookup_filter_ne (l : List (Int × FdTarget)) (fd x : Int) (h : x ≠ fd) :
    (l.filter (fun e => e.1 != fd)).lookup x = l.lookup x := by
  induction l with
  | nil => rfl
  | cons a l ih =>
    obtain ⟨k, t⟩ := a
    by_cases hk : k = fd
    · subst hk
      have hx : (x == k) = false := by simpa using h
      simp [List.filter, List.lookup, hx, ih]
    · have hk' : (k != fd) = true := by simpa using hk
      simp only [List.filter, hk', List.lookup]
      split
      · rfl
      · exact ih

/-- After the entries of a key are removed the key refers to nothing. -/
theorem lookup_filter_self (l : List (Int × FdTarget)) (fd : Int) :
    (l.filter (fun e => e.1 != fd)).lookup fd = none := by
  induction l with
  | nil => rfl
  | cons a l ih =>
    obtain ⟨k, t⟩ := a
    by_cases hk : k = fd
    · subst hk
      simp [List.filter, ih]
    · have hk' : (k != fd) = true := by simpa using hk
      have hfk : (fd == k) = false := by simpa using (fun h : fd = k => hk h.symm)
      simp only [List.filter, hk', List.lookup, hfk]
      exact ih

theorem fdAt_fdSet (s : SmallShell) (fd : Int) (t : FdTarget) (x : Int) :
    (s.fdSet fd t).fdAt x = if x = fd then some t else s.fdAt x := by
  unfold fdSet fdAt
  by_cases h : x = fd
  · subst h
    simp [List.lookup]
  · rw [if_neg h]
    have hx : (x == fd) = false := by simpa using h
    simp only [List.lookup, hx]
    exact lookup_filter_ne _ _ _ h

theorem fdAt_close (s : SmallShell) (fd x : Int) :
    (s.close fd).fdAt x = if x = fd then none else s.fdAt x := by
  unfold close fdAt
  by_cases h : x = fd
  · subst h
    rw [if_pos rfl]
    exact lookup_filter_self _ _
  · rw [if_neg h]
    exact lookup_filter_ne _ _ _ h

/-- The descriptor `lowestFreeFd` returns is not open. -/
theorem lowestFreeFd_free (fds : List (Int × FdTarget)) :
    fds.lookup (lowestFreeFd fds) = none := by
  unfold lowestFreeFd
  cases hf : (List.range (fds.length + 1)).find? (fun n => (fds.lookup (Int.ofNat n)).isNone) with
  | some n =>
    have := List.find?_some hf
    simpa using this
  | none =>
    exfalso
    rw [List.find?_eq_none] at hf
    have hsub : (Finset.range (fds.length + 1)).image (fun n : Nat => (n : Int)) ⊆
        (fds.map Prod.fst).toFinset := by
      intro x hx
      obtain ⟨n, hn, rfl⟩ := Finset.mem_image.1 hx
      have h := hf n (List.mem_range.2 (Finset.mem_range.1 hn))
      simp only [Option.isNone_iff_eq_none, List.lookup_eq_none_iff, bne_iff_ne, ne_eq,
        not_forall, Classical.not_imp, not_not] at h
      obtain ⟨p, hp, hpe⟩ := h
      rw [List.mem_toFinset, List.mem_map]
      exact ⟨p, hp, hpe.symm⟩
    have hc := Finset.card_le_card hsub
    rw [Finset.card_image_of_injective _ Nat.cast_injective, Finset.card_range] at hc
    have hl := List.toFinset_card_le (fds.map Prod.fst)
    rw [List.length_map] at hl
    omega

/-- `open`: on failure the descriptor table is as before; on success the
descriptor returned was not open and now refers to the file. -/
theorem openForWrite_spec (os : OS) (s : SmallShell) (path : Str) (append : Bool) :
    ((s.openForWrite os path append).1 = -1 →
      ∀ x, (s.openForWrite os path append).2.fdAt x = s.fdAt x) ∧
    ((s.openForWrite os path append).1 ≠ -1 →
      s.fdAt (s.openForWrite os path append).1 = none ∧
      ∀ x, (s.openForWrite os path append).2.fdAt x =
        if x = (s.openForWrite os path append).1 then some (.file path append)
        else s.fdAt x) := by
  unfold openForWrite
  simp only [sys]
  by_cases h : (os s.tick).ret = -1
  · simp only [h, ↓reduceIte]
    exact ⟨fun _ _ => rfl, fun hne => absurd rfl hne⟩
  · simp only [h, ↓reduceIte]
    refine ⟨fun he => ?_, fun _ => ⟨lowestFreeFd_free s.fds, fun x => ?_⟩⟩
    · exfalso
      have : (lowestFreeFd s.fds) ≥ 0 := by unfold lowestFreeFd; exact Int.ofNat_nonneg _
      have he' : lowestFreeFd s.fds = -1 := he
      omega
    · exact fdAt_fdSet _ _ _ _

/-- `dup`: on failure the descriptor table is as before; on success the
descriptor returned was not open and now refers to what `oldfd` refers to. -/
theorem dup_spec (os : OS) (s : SmallShell) (oldfd : Int) :
    ((s.dup os oldfd).1 = -1 → ∀ x, (s.dup os oldfd).2.fdAt x = s.fdAt x) ∧
    ((s.dup os oldfd).1 ≠ -1 →
      s.fdAt (s.dup os oldfd).1 = none ∧
      ∃ t, s.fdAt oldfd = some t ∧
        ∀ x, (s.dup os oldfd).2.fdAt x =
          if x = (s.dup os oldfd).1 then some t else s.fdAt x) := by
  unfold dup
  simp only [sys]
  cases hl : s.fds.lookup oldfd with
  | none =>
    simp only
    exact ⟨fun _ _ => rfl, fun hne => absurd rfl hne⟩
  | some t =>
    simp only
    by_cases h : (os s.tick).ret = -1
    · simp only [h, ↓reduceIte]
      exact ⟨fun _ _ => rfl, fun hne => absurd rfl hne⟩
    · simp only [h, ↓reduceIte]
      refine ⟨fun he => ?_, fun _ => ⟨lowestFreeFd_free s.fds, t, hl, fun x => ?_⟩⟩
      · exfalso
        have : (lowestFreeFd s.fds) ≥ 0 := by unfold lowestFreeFd; exact Int.ofNat_nonneg _
        have he' : lowestFreeFd s.fds = -1 := he
        omega
      · exact fdAt_fdSet _ _ _ _

/-- `dup2`: on failure the descriptor table is as before and the log ends with
the failed call; on success `newfd` refers to what `oldfd` refers to. -/
theorem dup2_spec (os : OS) (s : SmallShell) (oldfd newfd : Int) (hnew : newfd ≠ -1) :
    ((s.dup2 os oldfd newfd).1 = -1 →
      (∀ x, (s.dup2 os oldfd newfd).2.fdAt x = s.fdAt x) ∧
      (s.dup2 os oldfd newfd).2.log = s.log ++ [Event.dup2 oldfd newfd (-1)]) ∧
    ((s.dup2 os oldfd newfd).1 ≠ -1 →
      ∃ t, s.fdAt oldfd = some t ∧
        ∀ x, (s.dup2 os oldfd newfd).2.fdAt x = if x = newfd then some t else s.fdAt x) := by
  unfold dup2
  simp only [sys]
  cases hl : s.fds.lookup oldfd with
  | none =>
    simp only
    exact ⟨fun _ => ⟨fun _ => rfl, rfl⟩, fun hne => absurd rfl hne⟩
  | some t =>
    simp only
    by_cases h : (os s.tick).ret = -1
    · simp only [h, ↓reduceIte]
      exact ⟨fun _ => ⟨fun _ => rfl, rfl⟩, fun hne => absurd rfl hne⟩
    · simp only [h, ↓reduceIte]
      exact ⟨fun he => absurd he hnew, fun _ => ⟨t, hl, fun x => fdAt_fdSet _ _ _ _⟩⟩

/-- The empty map of the initial shell is well formed. -/
theorem tableWellFormed_init : tableWellFormed SmallShell.init.m_jobsMap :=
  ⟨List.Pairwise.nil, fun _ h => by cases h⟩

/-- Erasure keeps a map well formed. -/
theorem mapErase_wellFormed (m : List (Int × JobPtr)) (j : Int) (h : tableWellFormed m) :
    tableWellFormed (mapErase m j) :=
  ⟨mapErase_pairwise j m h.1, fun kv hkv => h.2 kv (mem_mapErase hkv)⟩

/-- When `addJob` returns, the map it leaves is well formed if the map it found
was: it has inserted under the id of the entry, which `setJobIdUsed` accepted. -/
theorem addJob_wellFormed (os : OS) (s t : SmallShell) (pid : Int) (line : Str)
    (isStopped : Bool) (jobId : Int) (text : Str) (hwf : tableWellFormed s.m_jobsMap)
    (h : s.addJob os pid line isStopped jobId text = .ok t) :
    tableWellFormed t.m_jobsMap := by
  have hpos : 0 < s.getNextFreeJobId := by
    unfold getNextFreeJobId; omega
  by_cases hr : 0 < (if jobId = -1 then s.getNextFreeJobId else jobId) ∧
      (if jobId = -1 then s.getNextFreeJobId else jobId) < (MAX_BG_JOBS : Int)
  · obtain ⟨t', ht', hmap, _⟩ := addJob_spec os s pid line isStopped jobId text _ rfl hr
    rw [ht'] at h
    injection h with h
    subst h
    rw [hmap]
    refine ⟨mapInsert_pairwise _ _ _ hwf.1, fun kv hkv => ?_⟩
    rcases mem_mapInsert hkv with hkv | hkv
    · rw [hkv]
      exact ⟨rfl, hr.1, hr.2⟩
    · exact hwf.2 kv hkv
  · exfalso
    have hne : (if jobId = -1 then s.getNextFreeJobId else jobId) ≠ -1 := by
      split_ifs with hj
      · omega
      · exact hj
    unfold addJob at h
    simp only [sys, setJobIdUsed, hne, ↓reduceIte, bind, Except.bind] at h
    have hout : (if jobId = -1 then s.getNextFreeJobId else jobId) ≤ 0 ∨
        (if jobId = -1 then s.getNextFreeJobId else jobId) ≥ (MAX_BG_JOBS : Int) := by
      by_contra hc
      apply hr
      constructor <;> omega
    rw [if_pos hout] at h
    cases h

/-- When `removeFinishedJobs` returns, the map it leaves is well formed if the
map it found was. -/
theorem removeFinishedJobs_wellFormed (os : OS) (s t : SmallShell)
    (hwf : tableWellFormed s.m_jobsMap) (h : s.removeFinishedJobs os = .ok t) :
    tableWellFormed t.m_jobsMap := by
  have hsub : ∀ (l : List JobPtr) (u v : SmallShell), removeFinishedJobs.remove l u = .ok v →
      v.m_jobsMap.Sublist u.m_jobsMap := by
    intro l
    induction l with
    | nil =>
      intro u v hv
      injection hv with hv
      rw [hv]
    | cons p l ih =>
      intro u v hv
      simp only [removeFinishedJobs.remove] at hv
      cases hf : u.setJobIdFree p.obj.m_jobId with
      | error e => rw [hf] at hv; cases hv
      | ok u1 =>
        rw [hf] at hv
        simp only [bind, Except.bind] at hv
        have hu1 : u1.m_jobsMap = u.m_jobsMap := by
          unfold setJobIdFree at hf
          split_ifs at hf
          · injection hf with hf; rw [← hf]
          · cases hf
          · injection hf with hf; rw [← hf]; rfl
        refine (ih _ v hv).trans ?_
        simp only [mapErase, hu1]
        exact List.filter_sublist _
  unfold removeFinishedJobs at h
  have := hsub _ _ t h
  rw [(scan_snd os s.m_jobsMap s).1] at this
  exact ⟨hwf.1.sublist this, fun kv hkv => hwf.2 kv (this.subset hkv)⟩

/-! ## The allocator, and what its declaration says -/

/-- The value `getNextFreeJobId` returns is at least 1, at most 101, and above
every id marked in use. -/
theorem getNextFreeJobId_bounds (s : SmallShell) :
    1 ≤ s.getNextFreeJobId ∧ s.getNextFreeJobId ≤ (MAX_BG_JOBS : Int) ∧
    ∀ i : Int, s.isJobIdUsed i = .ok true → i < s.getNextFreeJobId := by
  obtain ⟨hloop, hmax⟩ := getNextFreeJobId_loop_spec s
  refine ⟨?_, ?_, ?_⟩
  · unfold getNextFreeJobId; omega
  · unfold getNextFreeJobId
    rcases hloop with h0 | ⟨h1, h2, h3⟩
    · rw [h0]; simp [MAX_BG_JOBS]
    · omega
  · intro i hi
    obtain ⟨h1, h2, h3⟩ := (isJobIdUsed_eq_true s i).1 hi
    have := hmax i.toNat (by omega) (by omega) h3
    unfold getNextFreeJobId
    omega

/-- The value `getNextFreeJobId` returns is 1 or follows an id marked in
use. -/
theorem getNextFreeJobId_pred (s : SmallShell) :
    s.getNextFreeJobId = 1 ∨ s.isJobIdUsed (s.getNextFreeJobId - 1) = .ok true := by
  obtain ⟨hloop, -⟩ := getNextFreeJobId_loop_spec s
  rcases hloop with h0 | ⟨h1, h2, h3⟩
  · left; unfold getNextFreeJobId; rw [h0]; rfl
  · right
    rw [isJobIdUsed_eq_true]
    unfold getNextFreeJobId
    refine ⟨by omega, by omega, ?_⟩
    simpa using h3

/-- C25: the value `getNextFreeJobId` returns is the smallest positive integer
not marked in use exactly when the ids marked in use have no gap (every
positive id below an id in use is in use too). After three background launches
of which the first has been reaped, ids 2 and 3 are in use and id 1 is not, and
`getNextFreeJobId` returns 4, not 1. -/
theorem C25_getNextFreeJobId_not_smallest_unused :
    (∀ s : SmallShell,
      IsLeast {i : Int | 1 ≤ i ∧ s.isJobIdUsed i ≠ .ok true} s.getNextFreeJobId ↔
        ∀ j k : Int, 1 ≤ j → j < k → s.isJobIdUsed k = .ok true →
          s.isJobIdUsed j = .ok true) ∧
    ((chain (chainOS ⟨0, false, false⟩) 3).usedIds = [2, 3] ∧
      (chain (chainOS ⟨0, false, false⟩) 3).jobsShown =
        [(2, 1003, "sleep 9 &"), (3, 1007, "sleep 9 &")] ∧
      ((chain (chainOS ⟨0, false, false⟩) 3).isJobIdUsed 1).toOption = some false ∧
      (chain (chainOS ⟨0, false, false⟩) 3).getNextFreeJobId = 4) := by
  refine ⟨?_, ?_⟩
  · intro s
    obtain ⟨h1, h2, hlt⟩ := getNextFreeJobId_bounds s
    constructor
    · intro hleast j k hj hjk hk
      by_contra hnot
      have hmem : j ∈ {i : Int | 1 ≤ i ∧ s.isJobIdUsed i ≠ .ok true} := ⟨hj, hnot⟩
      have hle := hleast.2 hmem
      have := hlt k hk
      omega
    · intro hclosed
      refine ⟨⟨h1, ?_⟩, ?_⟩
      · intro hu
        have := hlt _ hu
        omega
      · rintro i ⟨hi1, hi2⟩
        by_contra hlt'
        rcases getNextFreeJobId_pred s with h | h
        · omega
        · by_cases hi : i = s.getNextFreeJobId - 1
          · rw [hi] at hi2; exact hi2 h
          · exact hi2 (hclosed i (s.getNextFreeJobId - 1) hi1 (by omega) h)
  · decide!

/-- C26: in every state of the allocator `getNextFreeJobId` returns an id
between 1 and 101 that is not marked in use. The id lies between 1 and 100, and
`setJobIdUsed`, `setJobIdFree` and `isJobIdUsed` return on it, exactly when id
100 is not in use; when id 100 is in use the id is 101, on which `setJobIdUsed`
and `setJobIdFree` end in `out_of_range`. -/
theorem C26_getNextFreeJobId_range (s : SmallShell) :
    (1 ≤ s.getNextFreeJobId ∧ s.getNextFreeJobId ≤ 101) ∧
    s.isJobIdUsed s.getNextFreeJobId ≠ .ok true ∧
    ((1 ≤ s.getNextFreeJobId ∧ s.getNextFreeJobId ≤ 100) ↔ s.isJobIdUsed 100 ≠ .ok true) ∧
    (((∃ t, s.setJobIdUsed s.getNextFreeJobId = .ok t) ∧
        (∃ t, s.setJobIdFree s.getNextFreeJobId = .ok t) ∧
        (∃ b, s.isJobIdUsed s.getNextFreeJobId = .ok b)) ↔
      s.isJobIdUsed 100 ≠ .ok true) ∧
    (s.isJobIdUsed 100 = .ok true →
      s.getNextFreeJobId = 101 ∧
      s.setJobIdUsed 101 = .error (Fault.out_of_range, s) ∧
      s.setJobIdFree 101 = .error (Fault.out_of_range, s)) := by
  obtain ⟨h1, h2, hlt⟩ := getNextFreeJobId_bounds s
  have h2' : s.getNextFreeJobId ≤ 101 := by simpa [MAX_BG_JOBS] using h2
  have hfree : s.isJobIdUsed s.getNextFreeJobId ≠ .ok true := by
    intro hu
    have := hlt _ hu
    omega
  have hrange : (1 ≤ s.getNextFreeJobId ∧ s.getNextFreeJobId ≤ 100) ↔
      s.isJobIdUsed 100 ≠ .ok true := by
    constructor
    · rintro ⟨-, h100⟩ hu
      have := hlt 100 hu
      omega
    · intro hnot
      refine ⟨h1, ?_⟩
      by_contra hgt
      have h101 : s.getNextFreeJobId = 101 := by omega
      rcases getNextFreeJobId_pred s with h | h
      · omega
      · rw [h101] at h
        exact hnot h
  refine ⟨⟨h1, h2'⟩, hfree, hrange, ?_, ?_⟩
  · rw [← hrange]
    constructor
    · rintro ⟨⟨t, ht⟩, -, -⟩
      refine ⟨h1, ?_⟩
      by_contra hgt
      have h101 : s.getNextFreeJobId = 101 := by omega
      rw [h101] at ht
      simp [setJobIdUsed, raise, MAX_BG_JOBS] at ht
    · rintro ⟨-, h100⟩
      have hne : s.getNextFreeJobId ≠ -1 := by omega
      have hin : ¬ (s.getNextFreeJobId ≤ 0 ∨ s.getNextFreeJobId ≥ (MAX_BG_JOBS : Int)) := by
        simp only [MAX_BG_JOBS]; push_cast; omega
      refine ⟨?_, ?_, ?_⟩
      · unfold setJobIdUsed; rw [if_neg hne, if_neg hin]; exact ⟨_, rfl⟩
      · unfold setJobIdFree; rw [if_neg hne, if_neg hin]; exact ⟨_, rfl⟩
      · unfold isJobIdUsed; rw [if_neg hne, if_neg hin]; exact ⟨_, rfl⟩
  · intro hu
    have := hlt 100 hu
    refine ⟨by omega, ?_, ?_⟩
    · simp [setJobIdUsed, raise, MAX_BG_JOBS]
    · simp [setJobIdFree, raise, MAX_BG_JOBS]

/-! ## The marker removed by `_removeBackgroundSign` -/

/-- `_removeBackgroundSign` returns a line that does not end with the marker as
it is. -/
theorem _removeBackgroundSign_no_marker (line : Str) (h : ¬ endsWithMarker line) :
    _removeBackgroundSign line = line := by
  rcases blank_or_last line with hb | ⟨pre, c, post, rfl, hc, hpost⟩
  · unfold _removeBackgroundSign
    simp only [(find_last_not_of_eq_none line).2 hb]
  · have hne : c ≠ '&' := by
      rintro rfl
      exact h ((endsWithMarker_iff _).2 ⟨pre, post, rfl, hpost⟩)
    unfold _removeBackgroundSign
    simp only [find_last_not_of_append pre post c hc hpost, getElem?_append_cons]
    simp [hne]

/-- The text `_removeBackgroundSign` returns for a line with the marker is
longer than the text before the marker, which its `_rtrim` is not. -/
theorem append_space_ne_rtrim (pre : Str) : pre ++ [' '] ≠ _rtrim pre := by
  obtain ⟨q, hq⟩ := _rtrim_prefix pre
  intro h
  have h1 : (pre ++ [' ']).length = (_rtrim pre).length := by rw [h]
  have h2 : pre.length = (_rtrim pre).length + q.length := by
    conv_lhs => rw [hq]
    simp
  simp only [List.length_append, List.length_singleton] at h1
  omega

/-- C24: for a line `pre ++ "&" ++ post` with `post` blank,
`_removeBackgroundSign` returns `pre` followed by one space, whatever whitespace
ends `pre`, while `_removeBackgroundSignString` returns `pre` without the
whitespace that ends it; so on every line that ends with the marker the result
of `_removeBackgroundSign` ends with a space and differs from that of
`_removeBackgroundSignString`. A line that does not end with the marker is
returned unchanged. -/
theorem C24_removeBackgroundSign_leaves_whitespace :
    (∀ pre post : Str, isBlank post →
      _removeBackgroundSign (pre ++ '&' :: post) = pre ++ [' '] ∧
      _removeBackgroundSignString (pre ++ '&' :: post) = _rtrim pre) ∧
    (∀ line : Str, endsWithMarker line →
      (_removeBackgroundSign line).getLast? = some ' ' ∧
      _removeBackgroundSign line ≠ _removeBackgroundSignString line ∧
      _removeBackgroundSignString line = withoutMarker line) ∧
    (∀ line : Str, ¬ endsWithMarker line → _removeBackgroundSign line = line) ∧
    (_removeBackgroundSign "sleep 100 &".toList = "sleep 100  ".toList ∧
      _removeBackgroundSignString "sleep 100 &".toList = "sleep 100".toList) := by
  refine ⟨?_, ?_, _removeBackgroundSign_no_marker, by decide!⟩
  · intro pre post hpost
    exact ⟨_removeBackgroundSign_append pre post hpost,
      _removeBackgroundSignString_append pre post hpost⟩
  · intro line h
    obtain ⟨pre, post, rfl, hpost⟩ := (endsWithMarker_iff _).1 h
    rw [_removeBackgroundSign_append pre post hpost,
      _removeBackgroundSignString_append pre post hpost, withoutMarker_append pre post hpost]
    exact ⟨by simp, append_space_ne_rtrim pre, rfl⟩

/-! ## Reserved words -/

/-- `AliasCommand::execute` refuses a name of `m_reservedWordsSet`: it writes
its error line and returns the shell otherwise unchanged. -/
theorem AliasCommand_reserved (s : SmallShell) (cmd : Command) (name body : Str)
    (hargs : cmd.m_args_num ≠ 1)
    (hm : AliasCommand.regex_match cmd.m_cmd_line = some (name, body))
    (hres : s.isReservedWord name = true) :
    AliasCommand.execute s cmd = .ok (s.cerr ("smash error: alias: ".toList ++ name ++
      " already exists or is a reserved command".toList)) := by
  unfold AliasCommand.execute
  rw [if_neg hargs, hm]
  simp [hres]

/-- C30: of the fifteen names `CreateCommand` dispatches as builtins, the set of
reserved words of the shell holds twelve: `unsetenv`, `watchproc` and `du` are
missing. `AliasCommand::execute` refuses a reserved word (as `alias cd='echo'`
shows) but accepts `alias du='ls'`, `alias unsetenv='echo'` and `alias
watchproc='echo'`; after the first, the line `du -h`, which `CreateCommand`
gives the class of the `du` builtin, becomes `ls -h` under alias substitution
and is run as an External command. -/
theorem C30_unreserved_builtin_names :
    (builtinNames.map (fun p => (String.mk p.1, SmallShell.init.isReservedWord p.1)) =
      [("chprompt", true), ("showpid", true), ("pwd", true), ("cd", true), ("jobs", true),
       ("fg", true), ("quit", true), ("kill", true), ("alias", true), ("unalias", true),
       ("unsetenv", false), ("watchproc", false), ("du", false), ("whoami", true),
       ("netinfo", true)]) ∧
    (∀ (s : SmallShell) (cmd : Command) (name body : Str), cmd.m_args_num ≠ 1 →
      AliasCommand.regex_match cmd.m_cmd_line = some (name, body) →
      s.isReservedWord name = true →
      AliasCommand.execute s cmd = .ok (s.cerr ("smash error: alias: ".toList ++ name ++
        " already exists or is a reserved command".toList))) ∧
    ((executeCommand plainOS 0 SmallShell.init "alias cd='echo'".toList).state.log =
        [.stderr "smash error: alias: cd already exists or is a reserved command".toList] ∧
      (executeCommand plainOS 0 SmallShell.init "alias cd='echo'".toList).state.m_aliasesMap
        = []) ∧
    (afterAliasDu.fault = none ∧
      afterAliasDu.state.m_aliasesMap = [("du".toList, "ls".toList)] ∧
      (executeCommand plainOS 0 SmallShell.init "alias unsetenv='echo'".toList).state.m_aliasesMap
        = [("unsetenv".toList, "echo".toList)] ∧
      (executeCommand plainOS 0 SmallShell.init
          "alias watchproc='echo'".toList).state.m_aliasesMap
        = [("watchproc".toList, "echo".toList)]) ∧
    (createdKind "du -h".toList = .ok (some .DiskUsageCommand) ∧
      (executeCommand plainOS 0 SmallShell.init "du -h".toList).state.log =
        [.untracked .DiskUsageCommand ["du".toList, "-h".toList]] ∧
      afterAliasDu.state.reproduceWithAlias "du -h".toList = .ok "ls -h".toList ∧
      selected (selectCommand afterAliasDu.state "du -h".toList) =
        .ok (some (.ExternalCommand, ["ls", "-h"], .foreground)) ∧
      (executeCommand plainOS 0 afterAliasDu.state "du -h".toList).state.log =
        [.fork 100, .waitpid 100 .WUNTRACED 101 false]) := by
  refine ⟨by decide!, ?_, by decide!, by decide!, by decide!⟩
  intro s cmd name body hargs hm hres
  exact AliasCommand_reserved s cmd name body hargs hm hres

/-! ## Exceptions that leave `executeCommand` -/

/-- With id 100 in use the allocator returns 101. -/
theorem getNextFreeJobId_eq_101 (s : SmallShell) (h : s.isJobIdUsed 100 = .ok true) :
    s.getNextFreeJobId = 101 := by
  obtain ⟨hloop, hmax⟩ := getNextFreeJobId_loop_spec s
  obtain ⟨-, -, h3⟩ := (isJobIdUsed_eq_true s 100).1 h
  have h100 := hmax 100 (by omega) (by simp [MAX_BG_JOBS]) (by simpa using h3)
  unfold getNextFreeJobId
  rcases hloop with h0 | ⟨-, h2, -⟩
  · omega
  · simp only [MAX_BG_JOBS] at h2
    omega

/-- A foreground External command that is run while id 100 is in use, and whose
child ends, ends the shell with `out_of_range`: the slot holds id 101 and
`updateSmashAfterCjFinished` calls `setJobIdFree(101)`. -/
theorem ExternalCommand_foreground_101 (os : OS) (s : SmallShell) (cmd : Command)
    (hfg : cmd.m_isBackground = false) (h100 : s.isJobIdUsed 100 = .ok true)
    (hfork1 : (os s.tick).ret ≠ -1) (hfork0 : (os s.tick).ret ≠ 0)
    (hstop : (os (s.tick + 1)).stopped = false) (hint : (os (s.tick + 1)).sigint = false) :
    (ExternalCommand.execute os s cmd).fault = some Fault.out_of_range ∧
    (ExternalCommand.execute os s cmd).state.m_cJobId = 101 := by
  have hid := getNextFreeJobId_eq_101 s h100
  unfold ExternalCommand.execute
  simp only [sys, emit, bind, Except.bind, pure, Except.pure]
  rw [if_neg hfork1, if_neg hfork0, hfg]
  simp only [Bool.false_eq_true, ↓reduceIte, waitpidBlocking, sys, hint, bind, Except.bind,
    pure, Except.pure, ExternalCommand.afterWait, hstop, emit]
  have hid' : getNextFreeJobId
      { s with tick := s.tick + 1, log := s.log ++ [Event.fork (os s.tick).ret],
               m_cJPid := (os s.tick).ret } = 101 := hid
  simp only [hid', updateSmashAfterCjFinished, setJobIdFree, raise, bind, Except.bind]
  simp [MAX_BG_JOBS, Run.fault, Run.state]

/-- C21: a foreground External command run while job id 100 is in use ends the
shell when its child ends: the slot is given job id 101 and the cleanup of the
slot calls `setJobIdFree(101)`, whose `out_of_range` nothing catches. After 100
background launches (of which jobs 99 and 100 are still tracked) the line
`sleep 5`, whose child (pid 1399) exits, ends `executeCommand` with
`out_of_range` and not by a return; so does a further `sleep 9 &`, at
`setJobIdUsed(101)`. -/
theorem C21_out_of_range_ends_the_shell :
    (∀ (os : OS) (s : SmallShell) (cmd : Command), cmd.m_isBackground = false →
      s.isJobIdUsed 100 = .ok true → (os s.tick).ret ≠ -1 → (os s.tick).ret ≠ 0 →
      (os (s.tick + 1)).stopped = false → (os (s.tick + 1)).sigint = false →
      (ExternalCommand.execute os s cmd).fault = some Fault.out_of_range) ∧
    ((chain (chainOS ⟨1399, false, false⟩) 100).jobsShown =
        [(99, 1391, "sleep 9 &"), (100, 1395, "sleep 9 &")] ∧
      (chain (chainOS ⟨1399, false, false⟩) 100).usedIds = [99, 100] ∧
      (executeCommand (chainOS ⟨1399, false, false⟩) 0
        (chain (chainOS ⟨1399, false, false⟩) 100) "sleep 5".toList).fault =
          some Fault.out_of_range ∧
      (executeCommand (chainOS ⟨1399, false, false⟩) 0
        (chain (chainOS ⟨1399, false, false⟩) 100) "sleep 5".toList).state.log.drop 299 =
          [.fork 1399, .waitpid 1399 .WUNTRACED 1399 false] ∧
      (executeCommand (chainOS ⟨1399, false, false⟩) 0
        (chain (chainOS ⟨1399, false, false⟩) 100) "sleep 9 &".toList).fault =
          some Fault.out_of_range) := by
  refine ⟨?_, ?_⟩
  · intro os s cmd hfg h100 hfork1 hfork0 hstop hint
    exact (ExternalCommand_foreground_101 os s cmd hfg h100 hfork1 hfork0 hstop hint).1
  · decide!

/-! ## Background launches -/

/-- The background branch of `ExternalCommand::execute` when the id the
allocator returns is an index of the allocator: the run returns, and the map
is the old map with an insertion, under that id, of an entry holding the pid of
the child, the command text of the object, the pending display text and the
flag `stopped = false`. -/
theorem ExternalCommand_background_spec (os : OS) (s : SmallShell) (cmd : Command)
    (hbg : cmd.m_isBackground = true) (hfork1 : (os s.tick).ret ≠ -1)
    (hfork0 : (os s.tick).ret ≠ 0) (htext : s.m_nextBGPrintCmdLine ≠ [])
    (hid : s.getNextFreeJobId < (MAX_BG_JOBS : Int)) :
    ∃ t, ExternalCommand.execute os s cmd = .ok t ∧
      t.m_jobsMap = mapInsert s.getNextFreeJobId
        ⟨s.heap, { m_pid := (os s.tick).ret
                   m_procecced_commandLine := cmd.m_cmd_line
                   m_org_commandLine := s.m_nextBGPrintCmdLine
                   m_jobId := s.getNextFreeJobId
                   m_isStopped := false
                   m_insertionTime := (os (s.tick + 1)).ret }⟩ s.m_jobsMap ∧
      t.log = s.log ++ [Event.fork (os s.tick).ret] := by
  have hpos : 0 < s.getNextFreeJobId := by unfold getNextFreeJobId; omega
  unfold ExternalCommand.execute
  simp only [sys, emit, bind, Except.bind, pure, Except.pure]
  rw [if_neg hfork1, if_neg hfork0, hbg]
  simp only [↓reduceIte, takeNextBGPrint, if_neg htext, addBGJob]
  obtain ⟨t, ht, hmap, -, -, -, -, -, -, -, -, -, -, -, -, -, -, hlog⟩ :=
    addJob_spec os
      { s with tick := s.tick + 1, log := s.log ++ [Event.fork (os s.tick).ret],
               m_nextBGPrintCmdLine := [] }
      (os s.tick).ret cmd.m_cmd_line false s.getNextFreeJobId s.m_nextBGPrintCmdLine
      s.getNextFreeJobId
      (by
        have hne : s.getNextFreeJobId ≠ -1 := by omega
        rw [if_neg hne])
      ⟨hpos, hid⟩
  have hget : getNextFreeJobId
      { s with tick := s.tick + 1, log := s.log ++ [Event.fork (os s.tick).ret],
               m_nextBGPrintCmdLine := [] } = s.getNextFreeJobId := rfl
  rw [hget, ht]
  have hne : s.getNextFreeJobId ≠ -1 := by omega
  have hin : ¬ (s.getNextFreeJobId ≤ 0 ∨ s.getNextFreeJobId ≥ (MAX_BG_JOBS : Int)) := by omega
  refine ⟨t.jobIDArraySet s.getNextFreeJobId.toNat true, ?_, ?_, ?_⟩
  · unfold setJobIdUsed; simp only [if_neg hne, if_neg hin]
  · show t.m_jobsMap = _
    rw [hmap]
    simp only [JobEntry.new, if_neg htext]
  · show t.log = _
    rw [hlog]

/-- C23, where it holds and where it fails. When the sweep of `executeCommand`
returns and the line `L` is then selected as an External command for the
background call site, the `fork` succeeds, id 100 is not in use and the id the
allocator returns is no key of the map, `executeCommand` returns and the
records of the Job Table are those the sweep left and one more: its id is the
value of `getNextFreeJobId` (above every id in use), its pid the result of
`fork`, its flag `stopped = false`, its display text `L` and its command text
what `_removeBackgroundSign` leaves of the line after alias substitution. So
after `alias s='sleep'` the line `  s  100   &  ` is recorded with that display
text and the command text `sleep 100  `. The claim fails when id 100 is in use
(after 100 background launches a further `sleep 9 &` ends in `out_of_range` and
the Job Table gains nothing) and when the id returned is a key of the map
(`sleep 100` stopped, the interrupt at the prompt, then `sleep 200 &` while the
sweep finds pid 4242 not yet terminated: the insertion under key 1 has no
effect, the Job Table gains nothing and the new entry is in the running queue
only). -/
theorem C23_background_record :
    (∀ (os : OS) (depth : Nat) (s s1 : SmallShell) (L : Str) (cmd : Command),
      s.removeFinishedJobs os = .ok s1 →
      selectCommand s1 L = .ok (some (cmd, .background)) →
      cmd.kind = .ExternalCommand →
      (os s1.tick).ret ≠ -1 → (os s1.tick).ret ≠ 0 →
      s1.isJobIdUsed 100 ≠ .ok true →
      (∀ kv ∈ s1.m_jobsMap, kv.1 ≠ s1.getNextFreeJobId) →
      ∃ t e, executeCommand os depth s L = .ok t ∧
        s1.reproduceWithAlias L = .ok e ∧
        (∀ i : Int, s1.isJobIdUsed i = .ok true → i < s1.getNextFreeJobId) ∧
        ∀ kv, kv ∈ t.m_jobsMap ↔
          (kv = (s1.getNextFreeJobId,
              ⟨s1.heap, { m_pid := (os s1.tick).ret
                          m_procecced_commandLine := _removeBackgroundSign e
                          m_org_commandLine := L
                          m_jobId := s1.getNextFreeJobId
                          m_isStopped := false
                          m_insertionTime := (os (s1.tick + 1)).ret }⟩) ∨
            kv ∈ s1.m_jobsMap)) ∧
    (((executeCommand plainOS 0 SmallShell.init "alias s='sleep'".toList).state.reproduceWithAlias
          "  s  100   &  ".toList = .ok "sleep 100 &".toList ∧
      (executeCommand raceOS 0
          (executeCommand plainOS 0 SmallShell.init "alias s='sleep'".toList).state
          "  s  100   &  ".toList).state.records =
        [(1, 4242, "sleep 100  ", "  s  100   &  ", false)]) ∧
    ((chain (chainOS ⟨1399, false, false⟩) 100).records =
        [(99, 1391, "sleep 9  ", "sleep 9 &", false),
         (100, 1395, "sleep 9  ", "sleep 9 &", false)] ∧
      (executeCommand (chainOS ⟨1399, false, false⟩) 0
        (chain (chainOS ⟨1399, false, false⟩) 100) "sleep 9 &".toList).fault =
          some Fault.out_of_range ∧
      (executeCommand (chainOS ⟨1399, false, false⟩) 0
        (chain (chainOS ⟨1399, false, false⟩) 100) "sleep 9 &".toList).state.records =
          [(100, 1395, "sleep 9  ", "sleep 9 &", false)] ∧
      (executeCommand (chainOS ⟨1399, false, false⟩) 0
        (chain (chainOS ⟨1399, false, false⟩) 100) "sleep 9 &".toList).state.log.drop 299 =
          [.fork 1399]) ∧
    ((SmallShell.ctrlCHandler collideOS
          (executeCommand collideOS 0 SmallShell.init "sleep 100".toList).state).state.records =
        [(1, 4242, "sleep 100", "sleep 100", true)] ∧
      (executeCommand collideOS 0
        (SmallShell.ctrlCHandler collideOS
          (executeCommand collideOS 0 SmallShell.init "sleep 100".toList).state).state
        "sleep 200 &".toList).fault = none ∧
      (executeCommand collideOS 0
        (SmallShell.ctrlCHandler collideOS
          (executeCommand collideOS 0 SmallShell.init "sleep 100".toList).state).state
        "sleep 200 &".toList).state.records = [(1, 4242, "sleep 100", "sleep 100", true)] ∧
      (executeCommand collideOS 0
        (SmallShell.ctrlCHandler collideOS
          (executeCommand collideOS 0 SmallShell.init "sleep 100".toList).state).state
        "sleep 200 &".toList).state.m_runningJobsQueue.map
          (fun p => (p.obj.m_jobId, p.obj.m_pid, String.mk p.obj.m_org_commandLine)) =
        [(1, 4300, "sleep 200 &")])) := by
  refine ⟨?_, by decide!, by decide!, by decide!⟩
  intro os depth s s1 L cmd hsweep hsel hkind hfork1 hfork0 h100 hfresh
  have hnb := selectCommand_not_blank s1 L cmd _ hsel
  have hne : L ≠ [] := by
    rintro rfl
    exact hnb (fun c hc => by cases hc)
  obtain ⟨e, he, hbg, hcreate, -⟩ := selectCommand_background s1 L cmd hsel
  obtain ⟨-, hnew, -, -⟩ := CreateCommand_inv e cmd hcreate
  obtain ⟨hflag, htext⟩ := Command_new_background cmd.kind e cmd hbg hnew
  obtain ⟨h1, h2, hlt⟩ := getNextFreeJobId_bounds s1
  have hid : s1.getNextFreeJobId < (MAX_BG_JOBS : Int) := by
    by_contra hge
    have h101 : s1.getNextFreeJobId = 101 := by
      simp only [MAX_BG_JOBS] at h2 hge; push_cast at h2 hge; omega
    rcases getNextFreeJobId_pred s1 with h | h
    · omega
    · rw [h101] at h; exact h100 h
  obtain ⟨t, ht, hmap, -⟩ := ExternalCommand_background_spec os
    { s1 with m_nextBGPrintCmdLine := L } cmd hflag hfork1 hfork0 hne hid
  have hex := executeCommand_eq os depth s L hnb
  refine ⟨t, e, ?_, he, hlt, ?_⟩
  · rw [hex, hsweep]
    simp only [bind, Except.bind, hsel, ↓reduceIte]
    unfold Command.execute
    rw [hkind]
    exact ht
  · intro kv
    rw [hmap, ← htext]
    exact mem_mapInsert_iff _ _ _ hfresh kv

/-! ## The stores of `_parseCommandLine` -/

/-- The array after the stores of the loop of `_parseCommandLine` over the
words `toks`, begun at the counter value `i`: the words stand in the slots `i`
to `i + n - 1`, `NULL` in slot `i + n`, and no other slot has changed; with no
word nothing is stored. -/
theorem storeAll_go (toks : List Str) (i : Nat) (a : Nat → Option (Option Str)) (k : Nat) :
    storeAll (_parseCommandLine.stores.go toks i) a k =
      if toks = [] then a k
      else if i ≤ k ∧ k < i + toks.length then some (some (toks.getD (k - i) []))
      else if k = i + toks.length then some none
      else a k := by
  induction toks generalizing i a with
  | nil => simp [_parseCommandLine.stores.go, storeAll]
  | cons t rest ih =>
    have hstep : storeAll (_parseCommandLine.stores.go (t :: rest) i) a =
        storeAll (_parseCommandLine.stores.go rest (i + 1))
          (fun k => if k = i + 1 then some none else if k = i then some (some t) else a k) := by
      simp [_parseCommandLine.stores.go, storeAll]
    rw [hstep, ih]
    simp only [reduceCtorEq, ↓reduceIte, List.length_cons]
    by_cases hr : rest = []
    · subst hr
      simp only [↓reduceIte, List.length_nil, Nat.zero_add]
      by_cases h1 : k = i + 1
      · subst h1; simp
      · by_cases h2 : k = i
        · subst h2; simp
        · have h3 : ¬ (i ≤ k ∧ k < i + 1) := by omega
          simp [h1, h2, h3]
    · simp only [hr, ↓reduceIte]
      by_cases h1 : i + 1 ≤ k ∧ k < i + 1 + rest.length
      · have h2 : i ≤ k ∧ k < i + (rest.length + 1) := by omega
        rw [if_pos h1, if_pos h2]
        have h3 : k - i = (k - (i + 1)) + 1 := by omega
        rw [h3, List.getD_cons_succ]
      · rw [if_neg h1]
        by_cases h2 : k = i + 1 + rest.length
        · have h3 : ¬ (i ≤ k ∧ k < i + (rest.length + 1)) := by omega
          have h4 : k = i + (rest.length + 1) := by omega
          rw [if_pos h2, if_neg h3, if_pos h4]
        · rw [if_neg h2]
          have h5 : k ≠ i + 1 := by
            intro h; apply h1; have := List.length_pos.2 hr; omega
          rw [if_neg h5]
          by_cases h6 : k = i
          · subst h6
            have h7 : k ≤ k ∧ k < k + (rest.length + 1) := by omega
            rw [if_pos rfl, if_pos h7]
            simp
          · have h7 : ¬ (i ≤ k ∧ k < i + (rest.length + 1)) := by omega
            have h8 : ¬ k = i + (rest.length + 1) := by omega
            rw [if_neg h6, if_neg h7, if_neg h8]

/-- C27: on every line the words `_parseCommandLine` reads are the words
`splitCommandLine` returns, `n` of them. With `n > 0` it stores into exactly
the slots `args[0]` to `args[n]`, leaving the words in `args[0..n-1]` and `NULL`
in `args[n]`; with `n = 0` it stores nothing, not even the `NULL`. Every store
lies inside an array of `COMMAND_MAX_ARGS` slots exactly when
`n < COMMAND_MAX_ARGS`, and `_parseCommandLine` returns the words when every
store lies inside the array it was given and has undefined behaviour
otherwise: on a line of twenty words, which `CreateCommand` would make an
External command, the last store is `args[20] = NULL`, one slot past the end
of the array of `reproduceWithAlias`, the first thing `executeCommand` calls on
the line. -/
theorem C27_parseCommandLine_stores :
    (∀ line : Str,
      _parseCommandLine.words line = splitCommandLine line ∧
      _parseCommandLine.words line = tokens line ∧
      (∀ k, k ∈ (_parseCommandLine.stores line).map Prod.fst ↔
        (_parseCommandLine.words line ≠ [] ∧ k ≤ (_parseCommandLine.words line).length)) ∧
      (∀ k, storeAll (_parseCommandLine.stores line) (fun _ => none) k =
        if _parseCommandLine.words line = [] then none
        else if k < (_parseCommandLine.words line).length then
          some (some ((_parseCommandLine.words line).getD k []))
        else if k = (_parseCommandLine.words line).length then some none
        else none) ∧
      ((∀ w ∈ _parseCommandLine.stores line, w.1 < COMMAND_MAX_ARGS) ↔
        (_parseCommandLine.words line).length < COMMAND_MAX_ARGS) ∧
      (∀ slots, _parseCommandLine slots line =
        if ∀ w ∈ _parseCommandLine.stores line, w.1 < slots then
          .ok (_parseCommandLine.words line)
        else .error Fault.undefined_behaviour)) ∧
    ((tokens twentyWords).length = 20 ∧ COMMAND_MAX_ARGS = 20 ∧
      (_parseCommandLine.stores twentyWords).getLast? = some (20, none) ∧
      _parseCommandLine.stores [] = [] ∧
      createdKind twentyWords = .ok (some .ExternalCommand) ∧
      _parseCommandLine COMMAND_MAX_ARGS twentyWords = .error Fault.undefined_behaviour ∧
      selected (selectCommand SmallShell.init twentyWords) =
        .error Fault.undefined_behaviour) := by
  refine ⟨?_, by decide!⟩
  intro line
  have hidx : ∀ k, k ∈ (_parseCommandLine.stores line).map Prod.fst ↔
      (_parseCommandLine.words line ≠ [] ∧ k ≤ (_parseCommandLine.words line).length) := by
    intro k
    unfold _parseCommandLine.stores
    rw [stores_go_index]
    simp
  refine ⟨?_, _parseCommandLine_words_eq_tokens line, hidx, ?_, ?_, ?_⟩
  · rw [_parseCommandLine_words_eq_tokens, splitCommandLine_eq_tokens]
  · intro k
    unfold _parseCommandLine.stores
    rw [storeAll_go]
    simp
  · constructor
    · intro h
      by_contra hge
      have hne : _parseCommandLine.words line ≠ [] := by
        intro h0
        rw [h0] at hge
        simp [COMMAND_MAX_ARGS] at hge
      have hmem := (hidx (_parseCommandLine.words line).length).2 ⟨hne, le_refl _⟩
      obtain ⟨w, hw, hw1⟩ := List.mem_map.1 hmem
      have := h w hw
      omega
    · intro h w hw
      have hmem : w.1 ∈ (_parseCommandLine.stores line).map Prod.fst :=
        List.mem_map.2 ⟨w, hw, rfl⟩
      have := ((hidx w.1).1 hmem).2
      omega
  · intro slots
    unfold _parseCommandLine
    by_cases hall : ∀ w ∈ _parseCommandLine.stores line, w.1 < slots
    · rw [if_pos hall, if_pos (by simpa [List.all_eq_true] using hall)]
    · rw [if_neg hall, if_neg (by simpa [List.all_eq_true] using hall)]

/-! ## The queues and the map -/

/-- An insertion under a key the map holds leaves the map as it is. -/
theorem mapInsert_of_key (key : Int) (value : JobPtr) (m : List (Int × JobPtr))
    (hs : m.Pairwise (fun a b => a.1 < b.1)) (hk : ∃ kv ∈ m, kv.1 = key) :
    mapInsert key value m = m := by
  induction m with
  | nil => obtain ⟨kv, hkv, -⟩ := hk; cases hkv
  | cons a rest ih =>
    obtain ⟨k, v⟩ := a
    obtain ⟨kv, hkv, hkey⟩ := hk
    rw [List.pairwise_cons] at hs
    unfold mapInsert
    rcases List.mem_cons.1 hkv with rfl | hmem
    · simp only at hkey
      subst hkey
      simp
    · have hlt := hs.1 kv hmem
      simp only at hlt
      have h1 : ¬ key < k := by omega
      have h2 : ¬ key = k := by omega
      rw [if_neg h1, if_neg h2, ih hs.2 ⟨kv, hmem, hkey⟩]

/-- C28: the two queues agree with the map in the initial shell, after a
background launch and after a first stop, but not in every state the shell
reaches. Whenever `addJob` is called with an id that is a key of the map, the
map stays as it is while the new entry is appended to a queue. That call
happens: after `sleep 100` (pid 4242) was stopped, the interrupt arrived at the
prompt and `sleep 200` (pid 4300) was run and stopped while the sweep found pid
4242 not yet terminated, `addJob` was called with id 1, and the stopped queue
holds the entries of pids 4242 and 4300 while the map holds that of pid 4242
alone. -/
theorem C28_queue_entry_outside_map :
    (queuesMatchMap SmallShell.init ∧ queuesMatchMap afterBg.state ∧
      queuesMatchMap afterStop.state) ∧
    (∀ (os : OS) (s : SmallShell) (pid : Int) (line : Str) (isStopped : Bool) (jobId : Int)
        (text : Str),
      tableWellFormed s.m_jobsMap → (∃ kv ∈ s.m_jobsMap, kv.1 = jobId) →
      ∃ t, s.addJob os pid line isStopped jobId text = .ok t ∧
        t.m_jobsMap = s.m_jobsMap ∧
        t.m_runningJobsQueue ++ t.m_stoppedJobsQueue =
          s.m_runningJobsQueue ++
            (if isStopped then []
             else [⟨s.heap, JobEntry.new pid jobId line isStopped text (os s.tick).ret⟩]) ++
          (s.m_stoppedJobsQueue ++
            (if isStopped then
               [⟨s.heap, JobEntry.new pid jobId line isStopped text (os s.tick).ret⟩]
             else []))) ∧
    (afterSecondStop.fault = none ∧
      afterSecondStop.state.m_jobsMap.map
          (fun kv => (kv.1, kv.2.addr, kv.2.obj.m_jobId, kv.2.obj.m_pid)) =
        [(1, 0, 1, 4242)] ∧
      afterSecondStop.state.m_runningJobsQueue = [] ∧
      afterSecondStop.state.m_stoppedJobsQueue.map
          (fun p => (p.addr, p.obj.m_jobId, p.obj.m_pid)) =
        [(0, 1, 4242), (1, 1, 4300)] ∧
      ¬ queuesMatchMap afterSecondStop.state) := by
  refine ⟨by decide!, ?_, by decide!⟩
  intro os s pid line isStopped jobId text hwf hkey
  obtain ⟨kv, hkv, hk⟩ := hkey
  obtain ⟨-, hpos, hlt⟩ := hwf.2 kv hkv
  rw [hk] at hpos hlt
  have hne : jobId ≠ -1 := by omega
  obtain ⟨t, ht, hmap, -, hrun, hstop, -⟩ :=
    addJob_spec os s pid line isStopped jobId text jobId (by rw [if_neg hne]) ⟨hpos, hlt⟩
  refine ⟨t, ht, ?_, ?_⟩
  · rw [hmap, mapInsert_of_key jobId _ s.m_jobsMap hwf.1 ⟨kv, hkv, hk⟩]
  · rw [hrun, hstop]

/-! ## The display text of a stopped foreground command -/

/-- The stopped branch of `ExternalCommand::execute` when the id of the slot is
an index of the allocator: the entry inserted under that id has the display
text of the slot, and the command text only when that of the slot is empty. -/
theorem ExternalCommand_afterWait_display (os : OS) (s : SmallShell) (cpid : Int)
    (cmdTxt : Str) (status : Answer) (hstop : status.stopped = true)
    (hid : 0 < s.m_cJobId ∧ s.m_cJobId < (MAX_BG_JOBS : Int)) :
    ∃ t entry, ExternalCommand.afterWait os s cpid cmdTxt status = .ok t ∧
      t.m_jobsMap = mapInsert s.m_cJobId ⟨s.heap, entry⟩ s.m_jobsMap ∧
      entry.m_pid = cpid ∧ entry.m_procecced_commandLine = cmdTxt ∧
      entry.m_isStopped = true ∧
      entry.m_org_commandLine =
        (if s.m_cJPrintCommandLine = [] then cmdTxt else s.m_cJPrintCommandLine) := by
  unfold ExternalCommand.afterWait
  rw [if_pos hstop]
  simp only [sys, addBGJob]
  have hne : s.m_cJobId ≠ -1 := by omega
  obtain ⟨t, ht, hmap, -⟩ :=
    addJob_spec os
      { s with m_cJisStopped := true, tick := s.tick + 1,
               m_cJinsertionTime := (os s.tick).ret }
      cpid cmdTxt true s.m_cJobId
      (if s.m_cJPrintCommandLine = [] then cmdTxt else s.m_cJPrintCommandLine)
      s.m_cJobId (by rw [if_neg hne]) hid
  refine ⟨t, _, ht, hmap, rfl, rfl, rfl, ?_⟩
  simp only [JobEntry.new]
  by_cases hp : s.m_cJPrintCommandLine = []
  · simp [hp]
  · simp [hp]

/-- C29: when a foreground External command is stopped, the display text of
the record inserted is the display text held by the Foreground Slot at that
moment, and the command text `T` only if the slot holds none.
`ExternalCommand::execute` never sets the display text of the slot, so what the
slot holds is what the last `fg` left there: after `sleep 100` was stopped,
resumed by `fg` and stopped again, the slot still holds the display text `sleep
100`, and when `sleep 200` (pid 4300) is then run and stopped its record is
inserted with the display text `sleep 100`, which `jobs` prints for both
jobs. -/
theorem C29_stale_display_text :
    (∀ (os : OS) (s : SmallShell) (cpid : Int) (T : Str) (status : Answer),
      status.stopped = true → 0 < s.m_cJobId → s.m_cJobId < (MAX_BG_JOBS : Int) →
      ∃ t entry, ExternalCommand.afterWait os s cpid T status = .ok t ∧
        t.m_jobsMap = mapInsert s.m_cJobId ⟨s.heap, entry⟩ s.m_jobsMap ∧
        entry.m_pid = cpid ∧ entry.m_procecced_commandLine = T ∧
        entry.m_isStopped = true ∧
        entry.m_org_commandLine =
          (if s.m_cJPrintCommandLine = [] then T else s.m_cJPrintCommandLine)) ∧
    (afterStop.state.records = [(1, 4242, "sleep 100", "sleep 100", true)] ∧
      afterStop.state.m_cJPrintCommandLine = [] ∧
      (executeCommand staleOS 0 afterStop.state "fg".toList).state.m_cJPrintCommandLine =
        "sleep 100".toList ∧
      afterStaleStop.fault = none ∧
      afterStaleStop.state.records =
        [(1, 4242, "sleep 100", "sleep 100", true), (2, 4300, "sleep 200", "sleep 100", true)] ∧
      afterStaleStop.state.log.drop 6 =
        [.waitpid 4242 .WNOHANG 0 false, .fork 4300, .waitpid 4300 .WUNTRACED 4300 true] ∧
      (executeCommand staleOS 0 afterStaleStop.state "jobs".toList).state.log.drop 11 =
        [.stdout "[1] sleep 100 (stopped)".toList, .stdout "[2] sleep 100 (stopped)".toList]) := by
  refine ⟨?_, by decide!⟩
  intro os s cpid T status hstop h0 h1
  exact ExternalCommand_afterWait_display os s cpid T status hstop ⟨h0, h1⟩

/-! ## The operator and the file of a redirection -/

/-- `startsWith s pat` holds exactly when the first characters of `s` are
`pat`. -/
theorem startsWith_iff (s pat : Str) : startsWith s pat = true ↔ s.take pat.length = pat := by
  induction pat generalizing s with
  | nil => cases s <;> simp [startsWith]
  | cons p ps ih =>
    cases s with
    | nil => simp [startsWith]
    | cons c cs =>
      simp only [startsWith, Bool.and_eq_true, beq_iff_eq, ih, List.length_cons,
        List.take_succ_cons, List.cons.injEq]

/-- `find_str` returns the first index at which the pattern stands. -/
theorem find_str_some (s pat : Str) (i : Nat) (h : find_str s pat = some i) :
    (s.drop i).take pat.length = pat ∧ ∀ j, j < i → (s.drop j).take pat.length ≠ pat := by
  induction s generalizing i with
  | nil =>
    unfold find_str at h
    split_ifs at h with hp
    injection h with h
    subst h; subst hp
    exact ⟨rfl, fun j hj => absurd hj (Nat.not_lt_zero _)⟩
  | cons c cs ih =>
    unfold find_str at h
    by_cases hs : startsWith (c :: cs) pat = true
    · rw [if_pos hs] at h
      injection h with h
      subst h
      exact ⟨(startsWith_iff _ _).1 hs, fun j hj => absurd hj (Nat.not_lt_zero _)⟩
    · rw [if_neg hs] at h
      cases hf : find_str cs pat with
      | none => rw [hf] at h; cases h
      | some k =>
        rw [hf] at h
        simp only [Option.map_some', Option.some.injEq] at h
        subst h
        obtain ⟨h1, h2⟩ := ih k hf
        refine ⟨by simpa using h1, ?_⟩
        intro j hj
        cases j with
        | zero =>
          intro heq
          exact hs ((startsWith_iff _ _).2 heq)
        | succ j =>
          simpa using h2 j (by omega)

/-- When `find_str` finds nothing, a pattern that is not empty stands
nowhere. -/
theorem find_str_none (s pat : Str) (hp : pat ≠ []) (h : find_str s pat = none) :
    ∀ j, (s.drop j).take pat.length ≠ pat := by
  induction s with
  | nil =>
    intro j heq
    simp only [List.drop_nil, List.take_nil] at heq
    exact hp heq.symm
  | cons c cs ih =>
    unfold find_str at h
    by_cases hs : startsWith (c :: cs) pat = true
    · rw [if_pos hs] at h; cases h
    · rw [if_neg hs] at h
      cases hf : find_str cs pat with
      | some k => rw [hf] at h; cases h
      | none =>
        intro j
        cases j with
        | zero =>
          intro heq
          exact hs ((startsWith_iff _ _).2 heq)
        | succ j => simpa using ih hf j

/-- `find_char` returns the first index at which the character stands. -/
theorem find_char_some (s : Str) (ch : Char) (i : Nat) (h : find_char s ch = some i) :
    s[i]? = some ch ∧ ∀ j, j < i → s[j]? ≠ some ch := by
  induction s generalizing i with
  | nil => cases h
  | cons c cs ih =>
    unfold find_char at h
    by_cases hc : c = ch
    · rw [if_pos hc] at h
      injection h with h
      subst h
      exact ⟨by simp [hc], fun j hj => absurd hj (Nat.not_lt_zero _)⟩
    · rw [if_neg hc] at h
      cases hf : find_char cs ch with
      | none => rw [hf] at h; cases h
      | some k =>
        rw [hf] at h
        simp only [Option.map_some', Option.some.injEq] at h
        subst h
        obtain ⟨h1, h2⟩ := ih k hf
        refine ⟨by simpa using h1, ?_⟩
        intro j hj
        cases j with
        | zero => simpa using hc
        | succ j => simpa using h2 j (by omega)

/-- The split that `RedirectionCommand::execute` makes: at the first `>>` of the
line if it has one, and otherwise at its first `>`; the command is the trimmed
text before the operator and the file the trimmed text after it. -/
theorem RedirectionCommand_parse_spec (text : Str) (i : Nat) (append : Bool) (l f : Str)
    (h : RedirectionCommand.parse text = some (i, append, l, f)) :
    l = _trim (text.take i) ∧ f = _trim (text.drop (i + (if append then 2 else 1))) ∧
    (append = true →
      (text.drop i).take 2 = ">>".toList ∧ ∀ j, j < i → (text.drop j).take 2 ≠ ">>".toList) ∧
    (append = false →
      text[i]? = some '>' ∧ (∀ j, j < i → text[j]? ≠ some '>') ∧
      ∀ j, (text.drop j).take 2 ≠ ">>".toList) := by
  unfold RedirectionCommand.parse at h
  cases hs : find_str text ">>".toList with
  | some a =>
    rw [hs] at h
    simp only [Option.some.injEq, Prod.mk.injEq] at h
    obtain ⟨rfl, rfl, rfl, rfl⟩ := h
    refine ⟨rfl, rfl, fun _ => find_str_some text ">>".toList _ hs, fun hx => absurd hx (by decide)⟩
  | none =>
    rw [hs] at h
    cases hc : find_char text '>' with
    | none => rw [hc] at h; cases h
    | some a =>
      rw [hc] at h
      simp only [Option.some.injEq, Prod.mk.injEq] at h
      obtain ⟨rfl, rfl, rfl, rfl⟩ := h
      obtain ⟨h1, h2⟩ := find_char_some text '>' _ hc
      exact ⟨rfl, rfl, fun hx => absurd hx (by decide),
        fun _ => ⟨h1, h2, find_str_none text ">>".toList (by decide) hs⟩⟩



/-- The event that `open` adds to the log. -/
theorem openForWrite_log (os : OS) (s : SmallShell) (path : Str) (append : Bool) :
    (s.openForWrite os path append).2.log =
      s.log ++ [Event.open path append (s.openForWrite os path append).1] := by
  unfold openForWrite
  simp only [sys]
  split_ifs <;> rfl

/-- The event that `dup` adds to the log. -/
theorem dup_log (os : OS) (s : SmallShell) (oldfd : Int) :
    (s.dup os oldfd).2.log = s.log ++ [Event.dup oldfd (s.dup os oldfd).1] := by
  unfold dup
  simp only [sys]
  split
  · rfl
  · split_ifs <;> rfl

/-- The event that `dup2` adds to the log. -/
theorem dup2_log (os : OS) (s : SmallShell) (oldfd newfd : Int) :
    (s.dup2 os oldfd newfd).2.log =
      s.log ++ [Event.dup2 oldfd newfd (s.dup2 os oldfd newfd).1] := by
  unfold dup2
  simp only [sys]
  split
  · rfl
  · split_ifs <;> rfl

/-- What `dup2` returns: -1 or the new descriptor. -/
theorem dup2_ret (os : OS) (s : SmallShell) (oldfd newfd : Int) :
    (s.dup2 os oldfd newfd).1 = -1 ∨ (s.dup2 os oldfd newfd).1 = newfd := by
  unfold dup2
  simp only [sys]
  split
  · left; rfl
  · split_ifs
    · left; rfl
    · right; rfl

/-- A run of `RedirectionCommand::execute` on a line with a file part: the first
thing it does is the `open` of the file part in the mode of the operator.
Either a call fails and the run returns without a nested command, or the nested
`executeCommand` is called on the command part, after `open`, `dup`, `dup2` and
`close`, in a state whose standard output (if it was open at the call) is the
file, opened in that mode; standard output is restored from the saved copy
afterwards. -/
theorem RedirectionCommand_execute_open (os : OS) (s : SmallShell) (cmd : Command)
    (arrow : Nat) (append : Bool) (leftPart filePart : Str)
    (hp : RedirectionCommand.parse cmd.m_cmd_line = some (arrow, append, leftPart, filePart))
    (hf : filePart ≠ []) :
    (∃ (t : SmallShell) (r : Int) (rest : List Event),
      (∀ nested, RedirectionCommand.execute os nested s cmd = .ok t) ∧
      t.log = s.log ++ Event.open filePart append r :: rest) ∨
    (∃ (s1 : SmallShell) (fd saved : Int),
      (s.fdAt 1 ≠ none → s1.fdAt 1 = some (.file filePart append)) ∧
      s1.log = s.log ++ [Event.open filePart append fd, Event.dup 1 saved,
        Event.dup2 fd 1 1, Event.close fd] ∧
      ∀ nested, RedirectionCommand.execute os nested s cmd =
        (nested s1 leftPart >>= fun s2 =>
          .ok ((if (s2.dup2 os saved 1).1 = -1 then
                  (s2.dup2 os saved 1).2.cerr "smash error: dup2 failed".toList
                else (s2.dup2 os saved 1).2).close saved))) := by
  have hexec : ∀ nested, RedirectionCommand.execute os nested s cmd =
      (let (fd, s) := s.openForWrite os filePart append
       if fd = -1 then .ok (s.cerr "smash error: open failed".toList)
       else
         let (saved_stdout, s) := s.dup os 1
         if saved_stdout = -1 then .ok ((s.cerr "smash error: dup failed".toList).close fd)
         else
           let (r, s) := s.dup2 os fd 1
           if r = -1 then
             .ok (((s.cerr "smash error: dup2 failed".toList).close saved_stdout).close fd)
           else do
             let s := s.close fd
             let s ← nested s leftPart
             let (r, s) := s.dup2 os saved_stdout 1
             let s := if r = -1 then s.cerr "smash error: dup2 failed".toList else s
             pure (s.close saved_stdout)) := by
    intro nested
    unfold RedirectionCommand.execute
    rw [hp]
    simp only [if_neg hf]
  have hopen := openForWrite_spec os s filePart append
  have hopenlog := openForWrite_log os s filePart append
  generalize s.openForWrite os filePart append = o at hexec hopen hopenlog
  obtain ⟨fd, s1⟩ := o
  simp only at hexec hopen hopenlog
  by_cases hfd : fd = -1
  · left
    refine ⟨s1.cerr "smash error: open failed".toList, fd,
      [Event.stderr "smash error: open failed".toList], ?_, ?_⟩
    · intro nested; rw [hexec, if_pos hfd]
    · simp [cerr, emit, hopenlog]
  · obtain ⟨hfree, hs1⟩ := hopen.2 hfd
    have hdup := dup_spec os s1 1
    have hduplog := dup_log os s1 1
    generalize s1.dup os 1 = d at hexec hdup hduplog
    obtain ⟨saved, s2⟩ := d
    simp only at hexec hdup hduplog
    by_cases hsv : saved = -1
    · left
      refine ⟨(s2.cerr "smash error: dup failed".toList).close fd, fd,
        [Event.dup 1 saved, Event.stderr "smash error: dup failed".toList, Event.close fd],
        ?_, ?_⟩
      · intro nested; rw [hexec, if_neg hfd, if_pos hsv]
      · simp [close, cerr, emit, hduplog, hopenlog]
    · obtain ⟨hsfree, t1, ht1, hs2⟩ := hdup.2 hsv
      have hsavedfd : saved ≠ fd := by
        intro he
        rw [he, hs1, if_pos rfl] at hsfree
        cases hsfree
      have hd2 := dup2_spec os s2 fd 1 (by decide)
      have hd2log := dup2_log os s2 fd 1
      have hd2v := dup2_ret os s2 fd 1
      generalize s2.dup2 os fd 1 = e at hexec hd2 hd2log hd2v
      obtain ⟨r, s3⟩ := e
      simp only at hexec hd2 hd2log hd2v
      by_cases hr : r = -1
      · left
        refine ⟨((s3.cerr "smash error: dup2 failed".toList).close saved).close fd, fd,
          [Event.dup 1 saved, Event.dup2 fd 1 r, Event.stderr "smash error: dup2 failed".toList,
           Event.close saved, Event.close fd], ?_, ?_⟩
        · intro nested; rw [hexec, if_neg hfd, if_neg hsv, if_pos hr]
        · simp [close, cerr, emit, hd2log, hduplog, hopenlog]
      · right
        obtain ⟨t3, ht3, hs3⟩ := hd2.2 hr
        have hr1 : r = 1 := by
          rcases hd2v with h | h
          · exact absurd h hr
          · exact h
        refine ⟨s3.close fd, fd, saved, ?_, ?_, ?_⟩
        · intro hout
          have hfd1 : fd ≠ 1 := by
            intro he; rw [he] at hfree; exact hout hfree
          rw [fdAt_close, if_neg (fun h => hfd1 h.symm), hs3, if_pos rfl]
          have : s2.fdAt fd = some (.file filePart append) := by
            rw [hs2, if_neg (fun h => hsavedfd h.symm), hs1, if_pos rfl]
          rw [this] at ht3
          exact ht3.symm
        · simp [close, emit, hd2log, hduplog, hopenlog, hr1]
        · intro nested
          rw [hexec, if_neg hfd, if_neg hsv, if_neg hr]
          cases nested (s3.close fd) leftPart with
          | error e => rfl
          | ok s5 =>
            simp only [bind, Except.bind, pure, Except.pure]

/-- C22: the split and the mode of `RedirectionCommand::execute`, and the two
runs of the example. On every line the split is made at the first `>>` if the
line has one (append mode) and otherwise at the first `>` (truncate mode), the
command being the trimmed text before it and the file the trimmed text after
it; with a file part that is not empty the first call is the `open` of that
file in that mode, and the nested command, when it is reached, is the command
part. With every child writing the line `x`, `echo x > f.txt` run twice leaves
one line in `f.txt` and `echo x >> f.txt` run twice leaves two. The operator
found is not always the one outside quotes: in `echo '>>' > f.txt`, a
redirection by its unquoted `>` at index 10, the split is made at the quoted
`>>` at index 6 and the file `' > f.txt` is opened in append mode for the
command `echo '`. -/
theorem C22_redirection_mode :
    (∀ (text : Str) (i : Nat) (append : Bool) (l f : Str),
      RedirectionCommand.parse text = some (i, append, l, f) →
      l = _trim (text.take i) ∧ f = _trim (text.drop (i + (if append then 2 else 1))) ∧
      (append = true →
        (text.drop i).take 2 = ">>".toList ∧
        ∀ j, j < i → (text.drop j).take 2 ≠ ">>".toList) ∧
      (append = false →
        text[i]? = some '>' ∧ (∀ j, j < i → text[j]? ≠ some '>') ∧
        ∀ j, (text.drop j).take 2 ≠ ">>".toList)) ∧
    (∀ (os : OS) (s : SmallShell) (cmd : Command) (i : Nat) (append : Bool) (l f : Str),
      RedirectionCommand.parse cmd.m_cmd_line = some (i, append, l, f) → f ≠ [] →
      (∃ (t : SmallShell) (r : Int) (rest : List Event),
        (∀ nested, RedirectionCommand.execute os nested s cmd = .ok t) ∧
        t.log = s.log ++ Event.open f append r :: rest) ∨
      (∃ (s1 : SmallShell) (fd saved : Int),
        (s.fdAt 1 ≠ none → s1.fdAt 1 = some (.file f append)) ∧
        s1.log = s.log ++ [Event.open f append fd, Event.dup 1 saved,
          Event.dup2 fd 1 1, Event.close fd] ∧
        ∀ nested, RedirectionCommand.execute os nested s cmd =
          (nested s1 l >>= fun s2 =>
            .ok ((if (s2.dup2 os saved 1).1 = -1 then
                    (s2.dup2 os saved 1).2.cerr "smash error: dup2 failed".toList
                  else (s2.dup2 os saved 1).2).close saved)))) ∧
    (RedirectionCommand.parse "echo x > f.txt".toList =
        some (7, false, "echo x".toList, "f.txt".toList) ∧
      RedirectionCommand.parse "echo x >> f.txt".toList =
        some (7, true, "echo x".toList, "f.txt".toList) ∧
      (ranTwice "echo x > f.txt".toList).fault = none ∧
      filesAfter "x".toList (ranTwice "echo x > f.txt".toList).state.log =
        [("f.txt", ["x"])] ∧
      (ranTwice "echo x >> f.txt".toList).fault = none ∧
      filesAfter "x".toList (ranTwice "echo x >> f.txt".toList).state.log =
        [("f.txt", ["x", "x"])]) ∧
    (createdKind "echo '>>' > f.txt".toList = .ok (some .RedirectionCommand) ∧
      "echo '>>' > f.txt".toList[10]? = some '>' ∧
      outsideQuotes "echo '>>' > f.txt".toList 10 ∧
      ¬ outsideQuotes "echo '>>' > f.txt".toList 6 ∧
      RedirectionCommand.parse "echo '>>' > f.txt".toList =
        some (6, true, "echo '".toList, "' > f.txt".toList) ∧
      (executeCommand plainOS 1 SmallShell.init "echo '>>' > f.txt".toList).state.log.head? =
        some (.open "' > f.txt".toList true 3)) := by
  refine ⟨RedirectionCommand_parse_spec, ?_, by decide!, by decide!⟩
  intro os s cmd i append l f hp hf
  exact RedirectionCommand_execute_open os s cmd i append l f hp hf

end Smash
